import Mathlib

/-!
# isa_l_rs_vand backend: decode / reconstruct engine

Shallow embedding of `src/backends/isa-l/isa_l_vand.c`.

* `unsigned char` arrays (matrices, row sets) are functions from the element
  index to the element value; a store `a[i] = v` is `arr_set a i v`.
* `int` counters that start at zero and only grow are `Nat`; `int` values
  that can be negative (the fields `k`, `m`, `w` of the descriptor, the
  arguments of the routines, list entries, return codes, `inverse_row`) are
  `Int`. A loop `for (i = 0; i < k; i++)` with an `int` bound `k` runs over
  `List.range k.toNat`: no pass when `k ≤ 0`.
* A `for` loop is a `List.foldl` over the list of values of its counter; a
  `break` is a guard that leaves the state unchanged for the rest of the
  iterations.
* The five routines resolved from the ISA-L library are fields of the
  descriptor, as in the C struct; what they compute is a hypothesis of the
  theorems that need it.
* What each `malloc` of a call returns is an argument of the model
  (`malloc_results`); the arithmetic that only computes an allocation size is
  not modelled.
* A result `none` is a fault: the code writes or reads through a pointer that
  is NULL, uninitialised or outside its array.
-/

namespace IsaL

/-! ## Arrays and bitmaps -/

/-- Store into one array element: `arr[i] = v`. -/
def arr_set {α : Type} (arr : Nat → α) (i : Nat) (v : α) : Nat → α :=
  fun x => if x = i then v else arr x

/-- Pointer into an array: `&arr[off]`. -/
def arr_offset {α : Type} (arr : Nat → α) (off : Nat) : Nat → α :=
  fun x => arr (off + x)

/-- The C expression `(1 << i)` as it is used in `(1 << i) & missing_bm`.
Both operands of the shift are `int`, so the shift is done on 32 bits (the
count is taken modulo 32, as the x86 shift does) and the `int` result is
converted to `uint64_t` for the `&`: bit 31 is the sign bit, so `1 << 31`
converts to `0xFFFFFFFF80000000`. -/
def int_shl_one (i : Nat) : Nat :=
  if i % 32 = 31 then 2 ^ 64 - 2 ^ 31 else 2 ^ (i % 32)

/-- The test `(1 << i) & bm` of the source (non-zero means "in the set"). -/
def bm_test (bm i : Nat) : Bool :=
  (int_shl_one i &&& bm) != 0

/-- An `int` sum as the machine computes it: 32 bits, two's complement. -/
def int_add (a b : Int) : Int :=
  (a + b + 2 ^ 31) % 2 ^ 32 - 2 ^ 31

/-- What `malloc` returns at each allocation of one call, one field per pointer
variable assigned: `true` for a block, `false` for NULL. -/
structure malloc_results where
  g_tbls : Bool
  decode_matrix : Bool
  decode_inverse : Bool
  inverse_rows : Bool
  decoded_elements : Bool
  available_fragments : Bool

/-- Every allocation of the call succeeds. -/
def all_allocated : malloc_results :=
  { g_tbls := true, decode_matrix := true, decode_inverse := true, inverse_rows := true,
    decoded_elements := true, available_fragments := true }

/-- Modelled from the spec: `convert_list_to_bitmap` of erasurecode_helpers
is not in this file. Section 4.1: the list is read until the sentinel and
the bitmap uses bit position = fragment index; the bitmap is one 64-bit
word, so an index of 64 or more leaves no bit. -/
def convert_list_to_bitmap : List Int → Nat
  | [] => 0
  | x :: xs =>
    if x > -1 then (2 ^ x.toNat % 2 ^ 64) ||| convert_list_to_bitmap xs else 0

/-- Source lines 117-126: count the entries before the sentinel. -/
def get_num_missing_elements : List Int → Nat
  | [] => 0
  | x :: xs => if x > -1 then get_num_missing_elements xs + 1 else 0

/-! ## Fragment buffers -/

/-- A fragment buffer pointer: `data[i]` or `parity[i]`. -/
inductive BufPtr where
  | data (i : Nat)
  | parity (i : Nat)
deriving DecidableEq, Repr

/-- The caller's two pointer arrays with the contents of the buffers they
point to. -/
structure Frags where
  data : Nat → List Nat
  parity : Nat → List Nat

/-- Contents of the buffer behind a pointer. -/
def Frags.load (f : Frags) : BufPtr → List Nat
  | BufPtr.data i => f.data i
  | BufPtr.parity i => f.parity i

/-- Overwrite the buffer behind a pointer. -/
def Frags.store (f : Frags) (p : BufPtr) (v : List Nat) : Frags :=
  match p with
  | BufPtr.data i => { f with data := arr_set f.data i v }
  | BufPtr.parity i => { f with parity := arr_set f.parity i v }

/-- The buffer of fragment `i`: `data[i]` when `i < k`, else `parity[i-k]`
(source lines 278-282, 289-297, 383-387, 398-402). -/
def frag_ptr (k i : Nat) : BufPtr :=
  if i < k then BufPtr.data i else BufPtr.parity (i - k)

/-- Write the output buffers of one bulk transform back through the output
pointer array, row by row. -/
def store_outputs (f : Frags) (targets : List BufPtr) (outs : Nat → List Nat) : Frags :=
  (List.range targets.length).foldl
    (fun g r => match targets[r]? with
      | some p => g.store p (outs r)
      | none => g) f

/-! ## The descriptor -/

/-- Source lines 40-65. The `int` arguments of the routines and the `int`
fields `k`, `m`, `w` are `Int`. `gf_gen_rs_matrix` returns the contents it
leaves in the matrix; `gf_invert_matrix` returns its `int` result and the
contents it leaves in the output matrix; `ec_encode_data` returns the
contents it leaves in the output buffers, given the contents of the input
buffers and of the output buffers before the call. -/
structure isa_l_rs_vand_descriptor where
  ec_init_tables : Int → Int → (Nat → Nat) → List Nat
  gf_gen_rs_matrix : Int → Int → (Nat → Nat)
  ec_encode_data : Int → Int → Int → List Nat → (Nat → List Nat) → (Nat → List Nat) → (Nat → List Nat)
  gf_invert_matrix : (Nat → Nat) → Int → Int × (Nat → Nat)
  gf_mul : Nat → Nat → Nat
  matrix : Nat → Nat
  k : Int
  m : Int
  w : Int

/-! ## Encode -/

/-- Source lines 67-90: the return code and the buffers after the call. The
bulk transform writes the `m` buffers of its output pointer array. -/
def isa_l_rs_vand_encode (desc : isa_l_rs_vand_descriptor) (f : Frags) (blocksize : Int)
    (mem : malloc_results) : Int × Frags :=
  let k := desc.k
  let m := desc.m
  if mem.g_tbls = false then (-1, f)
  else
    let g_tbls := desc.ec_init_tables k m (arr_offset desc.matrix (k * k).toNat)
    let outs := desc.ec_encode_data blocksize k m g_tbls f.data f.parity
    (0, { f with parity := fun r => if (r : Int) < m then outs r else f.parity r })

/-! ## Decode matrix -/

/-- The inner loop `for (j = 0; j < k; j++) dst[doff + j] = src[soff + j]`
(source lines 101-103 and 171-173). -/
def copy_row (k : Nat) (dst : Nat → Nat) (doff : Nat) (src : Nat → Nat) (soff : Nat) :
    Nat → Nat :=
  (List.range k).foldl (fun a j => arr_set a (doff + j) (src (soff + j))) dst

/-- One pass of the `while (i < k && l < n)` loop of source lines 99-107 for
the row index `l`; the state is `(i, decode_matrix)`. The bound `k` is the
`int` bound as a natural (`k.toNat`): `i` starts at zero, so `i < k` fails at
once for `k ≤ 0`, and inside the loop `k` is positive. -/
def decode_matrix_step (k : Nat) (encode_matrix : Nat → Nat) (missing_bm : Nat)
    (s : Nat × (Nat → Nat)) (l : Nat) : Nat × (Nat → Nat) :=
  if s.1 < k then
    if bm_test missing_bm l = false then
      (s.1 + 1, copy_row k s.2 (k * s.1) encode_matrix (k * l))
    else s
  else s

/-- Source lines 92-115. The result `some none` is the NULL result,
`some (some a)` the matrix returned. The `malloc` of line 96 is not checked:
when it returns NULL, the first row copied is written through NULL (`none`);
when no row is copied, NULL is returned whether or not `i = k`. -/
def isa_l_get_decode_matrix (k m : Int) (encode_matrix : Nat → Nat) (missing_idxs : List Int)
    (decode_matrix_alloc : Bool) : Option (Option (Nat → Nat)) :=
  let n := int_add k m
  let missing_bm := convert_list_to_bitmap missing_idxs
  let s := (List.range n.toNat).foldl (decode_matrix_step k.toNat encode_matrix missing_bm)
    (0, fun _ => 0)
  if decode_matrix_alloc = false then
    if 0 < s.1 then none else some none
  else if (s.1 : Int) ≠ k then some none
  else some (some s.2)

/-! ## Inverse rows -/

/-- Source lines 128-139, with both rows given by their offset in the one
array they live in: `to_row[i] ^= gf_mul(val, from_row[i])`. -/
def mult_and_xor_row (arr : Nat → Nat) (to_row from_row : Nat) (val : Nat) (num_elems : Nat)
    (gf_mul : Nat → Nat → Nat) : Nat → Nat :=
  (List.range num_elems).foldl
    (fun a i => arr_set a (to_row + i) (a (to_row + i) ^^^ gf_mul val (a (from_row + i)))) arr

/-- One pass of the loop of source lines 169-176; the state is
`(inverse_rows, l)`. -/
def missing_data_step (k : Nat) (decode_inverse : Nat → Nat) (missing_bm : Nat)
    (s : (Nat → Nat) × Nat) (i : Nat) : (Nat → Nat) × Nat :=
  if bm_test missing_bm i then
    (copy_row k s.1 (s.2 * k) decode_inverse (i * k), s.2 + 1)
  else s

/-- One pass of the loop of source lines 197-210 for the data column `j` of
the missing parity row `i`, written at row `l`; the state is
`(inverse_rows, d_idx_avail, d_idx_unavail)`. -/
def parity_column_step (k : Nat) (encode_matrix : Nat → Nat) (missing_bm : Nat)
    (gf_mul : Nat → Nat → Nat) (l i : Nat)
    (s : (Nat → Nat) × Nat × Nat) (j : Nat) : (Nat → Nat) × Nat × Nat :=
  if bm_test missing_bm j = false then
    (arr_set s.1 (l * k + s.2.1) (s.1 (l * k + s.2.1) ^^^ encode_matrix (i * k + j)),
      s.2.1 + 1, s.2.2)
  else
    (mult_and_xor_row s.1 (l * k) (s.2.2 * k) (encode_matrix (i * k + j)) k gf_mul,
      s.2.1, s.2.2 + 1)

/-- One pass of the loop of source lines 192-213; the state is
`(inverse_rows, l)`. -/
def missing_parity_step (k : Nat) (encode_matrix : Nat → Nat) (missing_bm : Nat)
    (gf_mul : Nat → Nat → Nat)
    (s : (Nat → Nat) × Nat) (i : Nat) : (Nat → Nat) × Nat :=
  if bm_test missing_bm i then
    (((List.range k).foldl (parity_column_step k encode_matrix missing_bm gf_mul s.2 i)
        (s.1, 0, 0)).1, s.2 + 1)
  else s

/-- Source lines 163-213: the array starts zeroed (`memset`), then the two
loops run, the first over `0 ≤ i < k`, the second `m` times from `i = k`. -/
def fill_inverse_rows (k m : Nat) (decode_inverse encode_matrix : Nat → Nat)
    (missing_idxs : List Int) (gf_mul : Nat → Nat → Nat) : Nat → Nat :=
  let missing_bm := convert_list_to_bitmap missing_idxs
  let s1 := (List.range k).foldl (missing_data_step k decode_inverse missing_bm) (fun _ => 0, 0)
  let s2 := (List.range' k m).foldl (missing_parity_step k encode_matrix missing_bm gf_mul) s1
  s2.1

/-- Source lines 145-215; `none` is the NULL result (lines 159-161). The
function is called only after `isa_l_get_decode_matrix` returned a matrix,
that is with `0 ≤ k`; the second loop runs from `i = k` while `i < n`. -/
def get_inverse_rows (k m : Int) (decode_inverse encode_matrix : Nat → Nat)
    (missing_idxs : List Int) (gf_mul : Nat → Nat → Nat) (inverse_rows_alloc : Bool) :
    Option (Nat → Nat) :=
  let n := int_add k m
  if inverse_rows_alloc = false then none
  else
    some (fill_inverse_rows k.toNat (n.toNat - k.toNat) decode_inverse encode_matrix
      missing_idxs gf_mul)

/-! ## Decode -/

/-- One pass of the loop of source lines 270-284 (and 375-389); the state is
the filled part of `available_fragments`, its length being `j`. -/
def available_step (k : Nat) (missing_bm : Nat) (s : List BufPtr) (i : Nat) : List BufPtr :=
  if bm_test missing_bm i then s
  else if s.length = k then s
  else s ++ [frag_ptr k i]

/-- The loop of source lines 270-284 (and 375-389). -/
def collect_available (k n : Nat) (missing_bm : Nat) : List BufPtr :=
  (List.range n).foldl (available_step k missing_bm) []

/-- One pass of the loop of source lines 288-293. -/
def decoded_data_step (missing_bm : Nat) (s : List BufPtr) (i : Nat) : List BufPtr :=
  if bm_test missing_bm i then s ++ [BufPtr.data i] else s

/-- One pass of the loop of source lines 294-299. -/
def decoded_parity_step (k : Nat) (missing_bm : Nat) (s : List BufPtr) (i : Nat) : List BufPtr :=
  if bm_test missing_bm i then s ++ [BufPtr.parity (i - k)] else s

/-- The two loops of source lines 287-299: the filled part of
`decoded_elements`. -/
def collect_decoded (k m : Nat) (missing_bm : Nat) : List BufPtr :=
  (List.range' k m).foldl (decoded_parity_step k missing_bm)
    ((List.range k).foldl (decoded_data_step missing_bm) [])

/-- The buffers behind the first `k` entries of a pointer array; an entry
that was never filled reads as the empty buffer. -/
def load_inputs (f : Frags) (ptrs : List BufPtr) : Nat → List Nat :=
  fun j => match ptrs[j]? with
    | some p => f.load p
    | none => []

/-- Source lines 217-317: the return code and the buffers after the call.
Every checked `malloc` that returns NULL ends the call with -1 before any
buffer is written. The result is `none` (a fault) when the decode matrix is
written through NULL, when the provider is handed NULL in place of rows it has
to read (`inverse_rows` is not checked, line 258), or when the bulk transform
is handed an output pointer array whose filled part is not exactly its
`num_missing_elements` entries. The `int` that `gf_invert_matrix` returns is
dropped, as on source line 250. After line 242 `k` is not negative. -/
def isa_l_rs_vand_decode (desc : isa_l_rs_vand_descriptor) (f : Frags)
    (missing_idxs : List Int) (blocksize : Int) (mem : malloc_results) :
    Option (Int × Frags) :=
  let k := desc.k
  let m := desc.m
  let n := int_add k m
  let num_missing_elements := get_num_missing_elements missing_idxs
  let missing_bm := convert_list_to_bitmap missing_idxs
  match isa_l_get_decode_matrix k m desc.matrix missing_idxs mem.decode_matrix with
  | none => none
  | some none => some (-1, f)
  | some (some decode_matrix) =>
    if mem.decode_inverse = false then some (-1, f)
    else
      let decode_inverse := (desc.gf_invert_matrix decode_matrix k).2
      if mem.g_tbls = false then some (-1, f)
      else
        let inverse_rows := get_inverse_rows k m decode_inverse desc.matrix missing_idxs
          desc.gf_mul mem.inverse_rows
        if mem.decoded_elements = false then some (-1, f)
        else if mem.available_fragments = false then some (-1, f)
        else
          let available_fragments := collect_available k.toNat n.toNat missing_bm
          let decoded_elements := collect_decoded k.toNat (n.toNat - k.toNat) missing_bm
          if inverse_rows.isNone = true ∧ 0 < k ∧ 0 < num_missing_elements then none
          else
            let g_tbls := desc.ec_init_tables k num_missing_elements
              (inverse_rows.getD (fun _ => 0))
            if decoded_elements.length ≠ num_missing_elements then none
            else
              let outs := desc.ec_encode_data blocksize k num_missing_elements g_tbls
                (load_inputs f available_fragments) (load_inputs f decoded_elements)
              some (0, store_outputs f decoded_elements outs)

/-! ## Reconstruct -/

/-- State of the loop of source lines 394-408. -/
structure SelectState where
  reconstruct_buf : Option BufPtr
  inverse_row : Int
  j : Nat
  stopped : Bool

/-- One pass of the loop of source lines 394-408. -/
def select_step (k : Nat) (missing_bm : Nat) (destination_idx : Int)
    (s : SelectState) (i : Nat) : SelectState :=
  if s.stopped then s
  else if bm_test missing_bm i then
    if (i : Int) = destination_idx then
      { reconstruct_buf := some (frag_ptr k i), inverse_row := (s.j : Int), j := s.j,
        stopped := true }
    else { s with j := s.j + 1 }
  else s

/-- The loop of source lines 394-408, from `reconstruct_buf = NULL` and
`inverse_row = -1`. -/
def select_target (k n : Nat) (missing_bm : Nat) (destination_idx : Int) : SelectState :=
  (List.range n).foldl (select_step k missing_bm destination_idx)
    { reconstruct_buf := none, inverse_row := -1, j := 0, stopped := false }

/-- Source lines 319-427: the return code and the buffers after the call.
Every checked `malloc` that returns NULL ends the call with -1 before any
buffer is written. The result is `none` (a fault) when the decode matrix is
written through NULL, when the provider is handed NULL in place of the row it
has to read (`inverse_rows` is not checked, line 359), or when the bulk
transform is handed the NULL output pointer (and the row at offset `-k`). -/
def isa_l_rs_vand_reconstruct (desc : isa_l_rs_vand_descriptor) (f : Frags)
    (missing_idxs : List Int) (destination_idx : Int) (blocksize : Int)
    (mem : malloc_results) : Option (Int × Frags) :=
  let k := desc.k
  let m := desc.m
  let n := int_add k m
  let missing_bm := convert_list_to_bitmap missing_idxs
  match isa_l_get_decode_matrix k m desc.matrix missing_idxs mem.decode_matrix with
  | none => none
  | some none => some (-1, f)
  | some (some decode_matrix) =>
    if mem.decode_inverse = false then some (-1, f)
    else
      let decode_inverse := (desc.gf_invert_matrix decode_matrix k).2
      let inverse_rows := get_inverse_rows k m decode_inverse desc.matrix missing_idxs
        desc.gf_mul mem.inverse_rows
      if mem.g_tbls = false then some (-1, f)
      else if mem.available_fragments = false then some (-1, f)
      else
        let available_fragments := collect_available k.toNat n.toNat missing_bm
        let sel := select_target k.toNat n.toNat missing_bm destination_idx
        if inverse_rows.isNone = true ∧ 0 < k then none
        else
          match sel.reconstruct_buf with
          | none => none
          | some reconstruct_buf =>
            let g_tbls := desc.ec_init_tables k 1
              (arr_offset (inverse_rows.getD (fun _ => 0)) (sel.inverse_row * k).toNat)
            let outs := desc.ec_encode_data blocksize k 1 g_tbls
              (load_inputs f available_fragments) (fun _ => f.load reconstruct_buf)
            some (0, f.store reconstruct_buf (outs 0))

/-! ## Minimum fragments -/

/-- State of the loop of source lines 441-451. -/
structure MinFragState where
  fragments_needed : Nat → Int
  j : Nat
  ret : Int
  stopped : Bool

/-- One pass of the loop of source lines 441-451. -/
def min_fragments_step (k : Int) (missing_bm : Nat) (s : MinFragState) (i : Nat) :
    MinFragState :=
  if s.stopped then s
  else
    let s1 : MinFragState :=
      if bm_test missing_bm i = false then
        { s with fragments_needed := arr_set s.fragments_needed s.j (i : Int), j := s.j + 1 }
      else s
    if (s1.j : Int) = k then
      { fragments_needed := arr_set s1.fragments_needed s1.j (-1), j := s1.j, ret := 0,
        stopped := true }
    else s1

/-- Source lines 429-454: the return code and the contents of
`fragments_needed` after the call. -/
def isa_l_rs_vand_min_fragments (desc : isa_l_rs_vand_descriptor) (missing_idxs : List Int)
    (fragments_to_exclude : List Int) (fragments_needed : Nat → Int) : Int × (Nat → Int) :=
  let exclude_bm := convert_list_to_bitmap fragments_to_exclude
  let missing_bm := convert_list_to_bitmap missing_idxs ||| exclude_bm
  let s := (List.range (int_add desc.k desc.m).toNat).foldl
    (min_fragments_step desc.k missing_bm)
    { fragments_needed := fragments_needed, j := 0, ret := -1, stopped := false }
  (s.ret, s.fragments_needed)

/-! ## The field arithmetic provider, as the spec describes it -/

/-- XOR of `f 0, ..., f (n-1)`. -/
def xor_sum (n : Nat) (f : Nat → Nat) : Nat :=
  (List.range n).foldl (fun acc j => acc ^^^ f j) 0

/-- Modelled from the spec: the bulk transform of ISA-L is not in this
repository. Section 4.2, `bulk_multiply_accumulate`: output row `r` at each
byte of the block is the XOR over the inputs `i` of
`multiply(coefficient[r][i], input[i][byte])`, the coefficient rows being
`input_count` long. -/
def bulk_multiply_accumulate (gf_mul : Nat → Nat → Nat) (block_size input_count : Nat)
    (coefficient : Nat → Nat) (inputs : Nat → List Nat) : Nat → List Nat :=
  fun r => (List.range block_size).map
    (fun b => xor_sum input_count
      (fun i => gf_mul (coefficient (r * input_count + i)) ((inputs i).getD b 0)))

/-- The provider's bulk transform is the one of section 4.2: the tables that
`ec_init_tables` expands from `rows` coefficient rows make `ec_encode_data`
compute `bulk_multiply_accumulate` of these rows, whatever the output buffers
held. -/
def BulkTransformOk (desc : isa_l_rs_vand_descriptor) : Prop :=
  ∀ (len k rows : Int) (a : Nat → Nat) (ins outs : Nat → List Nat) (r : Nat), (r : Int) < rows →
    desc.ec_encode_data len k rows (desc.ec_init_tables k rows a) ins outs r
      = bulk_multiply_accumulate desc.gf_mul len.toNat k.toNat a ins r

/-- The provider's `gf_mul` is a multiplication of a field of characteristic
two on bytes, with `^^^` as the addition: it distributes over XOR on both
sides, is associative, and `1` is its unit. (Arguments are `unsigned char`.) -/
structure GfMulOk (gf_mul : Nat → Nat → Nat) : Prop where
  mul_xor : ∀ a x y, gf_mul a (x ^^^ y) = gf_mul a x ^^^ gf_mul a y
  xor_mul : ∀ a b x, gf_mul (a ^^^ b) x = gf_mul a x ^^^ gf_mul b x
  mul_assoc : ∀ a b x, gf_mul a (gf_mul b x) = gf_mul (gf_mul a b) x
  one_mul : ∀ x, x < 256 → gf_mul 1 x = x

/-- The first `k` rows of the generator matrix are the identity. -/
def SystematicMatrix (k : Nat) (matrix : Nat → Nat) : Prop :=
  ∀ i, i < k → ∀ j, j < k → matrix (i * k + j) = if i = j then 1 else 0

/-- `inv` is the inverse of the `k × k` matrix `mat` over the field:
both products are the identity. -/
def IsInverseMatrix (gf_mul : Nat → Nat → Nat) (k : Nat) (mat inv : Nat → Nat) : Prop :=
  (∀ i, i < k → ∀ j, j < k →
    xor_sum k (fun c => gf_mul (inv (i * k + c)) (mat (c * k + j))) = if i = j then 1 else 0) ∧
  (∀ i, i < k → ∀ j, j < k →
    xor_sum k (fun c => gf_mul (mat (i * k + c)) (inv (c * k + j))) = if i = j then 1 else 0)



/-! ## Ranks -/

/-- Number of indices below `x` that satisfy the test `p`: the rank of `x`
among the indices that satisfy it. -/
def count_below (p : Nat → Bool) (x : Nat) : Nat :=
  (List.range x).countP p

/-- The row section 4.4 step 2 describes for a missing parity index `p`, at
column `c`: the XOR over the data columns `j` of the generator coefficient
itself at the column that is the rank of `j` among the available data
indices when `j` is available, and of
`gf_mul (generator[p][j]) (decode_inverse[j][c])` when `j` is missing. -/
def parity_row_formula (k : Nat) (encode_matrix decode_inverse : Nat → Nat) (miss : Nat → Bool)
    (gf_mul : Nat → Nat → Nat) (p c : Nat) : Nat :=
  xor_sum k (fun j =>
    if miss j then gf_mul (encode_matrix (p * k + j)) (decode_inverse (j * k + c))
    else if count_below (fun i => !miss i) j = c then encode_matrix (p * k + j) else 0)

/-- The C list of the indices `xs`: the indices followed by the sentinel. -/
def idx_list (xs : List Nat) : List Int :=
  xs.map Int.ofNat ++ [-1]

/-- Byte `b` of fragment `x` of the codeword of the data buffers `d`: the
generator row `x` applied to the data bytes at `b`. -/
def codeword_byte (gf_mul : Nat → Nat → Nat) (k : Nat) (matrix : Nat → Nat)
    (d : Nat → List Nat) (x b : Nat) : Nat :=
  xor_sum k (fun j => gf_mul (matrix (x * k + j)) ((d j).getD b 0))

/-- The indices below `n` that are neither in the missing list nor in the
excluded list, in ascending order. -/
def free_indices (n : Nat) (xs ys : List Nat) : List Nat :=
  (List.range n).filter (fun i => decide (i ∉ xs ∧ i ∉ ys))




/-! ## A reference provider -/

/-- Powers of the generator 2 of GF(2^8) with the polynomial 0x11d. -/
def gf_exp_tbl : List Nat :=
  [1, 2, 4, 8, 16, 32, 64, 128, 29, 58, 116, 232, 205, 135, 19, 38, 76, 152, 45, 90, 180, 117, 234, 201, 143, 3, 6, 12, 24, 48, 96, 192, 157, 39, 78, 156, 37, 74, 148, 53, 106, 212, 181, 119, 238, 193, 159, 35, 70, 140, 5, 10, 20, 40, 80, 160, 93, 186, 105, 210, 185, 111, 222, 161, 95, 190, 97, 194, 153, 47, 94, 188, 101, 202, 137, 15, 30, 60, 120, 240, 253, 231, 211, 187, 107, 214, 177, 127, 254, 225, 223, 163, 91, 182, 113, 226, 217, 175, 67, 134, 17, 34, 68, 136, 13, 26, 52, 104, 208, 189, 103, 206, 129, 31, 62, 124, 248, 237, 199, 147, 59, 118, 236, 197, 151, 51, 102, 204, 133, 23, 46, 92, 184, 109, 218, 169, 79, 158, 33, 66, 132, 21, 42, 84, 168, 77, 154, 41, 82, 164, 85, 170, 73, 146, 57, 114, 228, 213, 183, 115, 230, 209, 191, 99, 198, 145, 63, 126, 252, 229, 215, 179, 123, 246, 241, 255, 227, 219, 171, 75, 150, 49, 98, 196, 149, 55, 110, 220, 165, 87, 174, 65, 130, 25, 50, 100, 200, 141, 7, 14, 28, 56, 112, 224, 221, 167, 83, 166, 81, 162, 89, 178, 121, 242, 249, 239, 195, 155, 43, 86, 172, 69, 138, 9, 18, 36, 72, 144, 61, 122, 244, 245, 247, 243, 251, 235, 203, 139, 11, 22, 44, 88, 176, 125, 250, 233, 207, 131, 27, 54, 108, 216, 173, 71, 142]

/-- Discrete logarithms to the base 2 (entry 0 is unused). -/
def gf_log_tbl : List Nat :=
  [0, 0, 1, 25, 2, 50, 26, 198, 3, 223, 51, 238, 27, 104, 199, 75, 4, 100, 224, 14, 52, 141, 239, 129, 28, 193, 105, 248, 200, 8, 76, 113, 5, 138, 101, 47, 225, 36, 15, 33, 53, 147, 142, 218, 240, 18, 130, 69, 29, 181, 194, 125, 106, 39, 249, 185, 201, 154, 9, 120, 77, 228, 114, 166, 6, 191, 139, 98, 102, 221, 48, 253, 226, 152, 37, 179, 16, 145, 34, 136, 54, 208, 148, 206, 143, 150, 219, 189, 241, 210, 19, 92, 131, 56, 70, 64, 30, 66, 182, 163, 195, 72, 126, 110, 107, 58, 40, 84, 250, 133, 186, 61, 202, 94, 155, 159, 10, 21, 121, 43, 78, 212, 229, 172, 115, 243, 167, 87, 7, 112, 192, 247, 140, 128, 99, 13, 103, 74, 222, 237, 49, 197, 254, 24, 227, 165, 153, 119, 38, 184, 180, 124, 17, 68, 146, 217, 35, 32, 137, 46, 55, 63, 209, 91, 149, 188, 207, 205, 144, 135, 151, 178, 220, 252, 190, 97, 242, 86, 211, 171, 20, 42, 93, 158, 132, 60, 57, 83, 71, 109, 65, 162, 31, 45, 67, 216, 183, 123, 164, 118, 196, 23, 73, 236, 127, 12, 111, 246, 108, 161, 59, 82, 41, 157, 85, 170, 251, 96, 134, 177, 187, 204, 62, 90, 203, 89, 95, 176, 156, 169, 160, 81, 11, 245, 22, 235, 122, 117, 44, 215, 79, 174, 213, 233, 230, 231, 173, 232, 116, 214, 244, 234, 168, 80, 88, 175]

/-- GF(2^8) multiplication of the low bytes of the arguments. -/
def gf256_mul (a b : Nat) : Nat :=
  if a % 256 = 0 ∨ b % 256 = 0 then 0
  else gf_exp_tbl.getD
    ((gf_log_tbl.getD (a % 256) 0 + gf_log_tbl.getD (b % 256) 0) % 255) 0

/-- Multiplication of a byte by 2 in GF(2^8): shift, and reduce by 0x11d when
the top bit was set. -/
def gf_xtime (x : Nat) : Nat :=
  ((x % 2 ^ 7) <<< 1) ^^^ (29 * (x >>> 7))

/-- GF(2^8) inverse of a non-zero byte. -/
def gf256_inv (a : Nat) : Nat :=
  gf_exp_tbl.getD ((255 - gf_log_tbl.getD (a % 256) 0) % 255) 0

/-- One column of Gauss-Jordan elimination on the rows of an augmented
matrix; `none` when no pivot is left in the column. -/
def gauss_jordan_step (s : Option (List (List Nat))) (c : Nat) : Option (List (List Nat)) :=
  s.bind fun rows =>
    match (List.range rows.length).find? (fun r => decide (c ≤ r) && ((rows.getD r []).getD c 0 != 0)) with
    | none => none
    | some r =>
      let prow := rows.getD r []
      let rows1 := (rows.set r (rows.getD c [])).set c prow
      let p := prow.map (gf256_mul (gf256_inv (prow.getD c 0)))
      some ((List.range rows.length).map fun i =>
        if i = c then p
        else List.zipWith (fun x y => x ^^^ y) (rows1.getD i [])
          (p.map (gf256_mul ((rows1.getD i []).getD c 0))))

/-- Matrix inversion over GF(2^8) by Gauss-Jordan elimination: the result
code (0, or -1 for a singular matrix) and the inverse. -/
def ref_invert_matrix (mat : Nat → Nat) (k : Nat) : Int × (Nat → Nat) :=
  let aug := (List.range k).map fun i =>
    (List.range k).map (fun j => mat (i * k + j)) ++
      (List.range k).map (fun j => if i = j then 1 else 0)
  match (List.range k).foldl gauss_jordan_step (some aug) with
  | none => (-1, fun _ => 0)
  | some rows =>
    let flat := (rows.map (fun row => row.drop k)).flatten
    (0, fun x => flat.getD x 0)

/-- The systematic matrix of ISA-L's `gf_gen_rs_matrix(a, rows, k)`: identity
on top, then row `i` holds the powers of `2^(i-k)`. -/
def ref_gen_rs_matrix (rows k : Nat) : Nat → Nat :=
  fun x =>
    if x < rows * k then
      if x / k < k then (if x / k = x % k then 1 else 0)
      else gf_exp_tbl.getD (((x / k - k) * (x % k)) % 255) 0
    else 0

/-- A descriptor over the reference provider. -/
def ref_desc (k m : Int) (matrix : Nat → Nat) : isa_l_rs_vand_descriptor where
  ec_init_tables := fun k rows a => (List.range (rows.toNat * k.toNat)).map a
  gf_gen_rs_matrix := fun rows k => ref_gen_rs_matrix rows.toNat k.toNat
  ec_encode_data := fun len k _ tbl ins _ =>
    bulk_multiply_accumulate gf256_mul len.toNat k.toNat (fun x => tbl.getD x 0) ins
  gf_invert_matrix := fun mat k => ref_invert_matrix mat k.toNat
  gf_mul := gf256_mul
  matrix := matrix
  k := k
  m := m
  w := 8

/-- Fragments from two lists of buffers. -/
def frags_of (data parity : List (List Nat)) : Frags where
  data := fun i => data.getD i []
  parity := fun i => parity.getD i []



/-! ## Session setup -/

/-- What `dlsym` finds in the provider library for the five names of source
lines 496-524; `none` is NULL. -/
structure backend_sohandle where
  ec_encode_data :
    Option (Int → Int → Int → List Nat → (Nat → List Nat) → (Nat → List Nat) → (Nat → List Nat))
  ec_init_tables : Option (Int → Int → (Nat → Nat) → List Nat)
  gf_gen_rs_matrix : Option (Int → Int → (Nat → Nat))
  gf_invert_matrix : Option ((Nat → Nat) → Int → Int × (Nat → Nat))
  gf_mul : Option (Nat → Nat → Nat)

/-- Source line 456. -/
def ISA_L_W : Int := 8

/-- Source lines 457-546. The arguments are `args->uargs.k`, `args->uargs.m`,
the symbols of the library, and whether the two `malloc` calls (descriptor,
matrix) succeed. The result is the descriptor (`none` is NULL) and the calls
made to provider routines: `gf_gen_rs_matrix` is the only one init calls,
recorded by its two `int` arguments. The fields `k` and `m` are stored with no
check of their sign (source lines 468-469). -/
def isa_l_rs_vand_init (k m : Int) (backend : backend_sohandle)
    (desc_alloc matrix_alloc : Bool) :
    Option isa_l_rs_vand_descriptor × List (Int × Int) :=
  if desc_alloc = false then (none, [])
  else
    let max_symbols : Int := 2 ^ ISA_L_W.toNat
    if int_add k m > max_symbols then (none, [])
    else
      match backend.ec_encode_data with
      | none => (none, [])
      | some ec_encode_data =>
        match backend.ec_init_tables with
        | none => (none, [])
        | some ec_init_tables =>
          match backend.gf_gen_rs_matrix with
          | none => (none, [])
          | some gf_gen_rs_matrix =>
            match backend.gf_invert_matrix with
            | none => (none, [])
            | some gf_invert_matrix =>
              match backend.gf_mul with
              | none => (none, [])
              | some gf_mul =>
                if matrix_alloc = false then (none, [])
                else
                  (some
                    { ec_init_tables := ec_init_tables,
                      gf_gen_rs_matrix := gf_gen_rs_matrix,
                      ec_encode_data := ec_encode_data,
                      gf_invert_matrix := gf_invert_matrix,
                      gf_mul := gf_mul,
                      matrix := gf_gen_rs_matrix (int_add k m) k,
                      k := k, m := m, w := ISA_L_W },
                    [(int_add k m, k)])

/-- The library with the five routines of the reference provider. -/
def ref_backend : backend_sohandle where
  ec_encode_data := some (fun len k _ tbl ins _ =>
    bulk_multiply_accumulate gf256_mul len.toNat k.toNat (fun x => tbl.getD x 0) ins)
  ec_init_tables := some (fun k rows a => (List.range (rows.toNat * k.toNat)).map a)
  gf_gen_rs_matrix := some (fun rows k => ref_gen_rs_matrix rows.toNat k.toNat)
  gf_invert_matrix := some (fun mat k => ref_invert_matrix mat k.toNat)
  gf_mul := some gf256_mul

/-- Rank of `x` among the indices of the list `xs`, in ascending order: the
number of indices below `x` that are in `xs`. -/
def rank_in (xs : List Nat) (x : Nat) : Nat :=
  count_below (fun i => decide (i ∈ xs)) x

/-- Rank of `x` among the indices that are not in the list `xs`. -/
def rank_out (xs : List Nat) (x : Nat) : Nat :=
  count_below (fun i => decide (i ∉ xs)) x

/-! ## Array lemmas -/

theorem arr_set_apply {α : Type} (arr : Nat → α) (i : Nat) (v : α) (x : Nat) :
    arr_set arr i v x = if x = i then v else arr x := rfl

theorem row_index_lt {r l k c : Nat} (hr : r < l) (hc : c < k) : r * k + c < l * k := by
  have h : (r + 1) * k ≤ l * k := Nat.mul_le_mul_right k hr
  rw [Nat.add_mul, Nat.one_mul] at h
  omega

theorem copy_row_apply (k : Nat) (dst : Nat → Nat) (doff : Nat) (src : Nat → Nat) (soff x : Nat) :
    copy_row k dst doff src soff x
      = if doff ≤ x ∧ x < doff + k then src (soff + (x - doff)) else dst x := by
  unfold copy_row
  induction k with
  | zero =>
    simp only [List.range_zero, List.foldl_nil]
    rw [if_neg (by omega)]
  | succ k ih =>
    rw [List.range_succ, List.foldl_append]
    simp only [List.foldl_cons, List.foldl_nil, arr_set_apply]
    rw [ih]
    by_cases h1 : x = doff + k
    · subst h1
      rw [if_pos rfl, if_pos (by omega)]
      congr 1
      omega
    · rw [if_neg h1]
      by_cases h2 : doff ≤ x ∧ x < doff + k
      · rw [if_pos h2, if_pos (by omega)]
      · rw [if_neg h2, if_neg (by omega)]

theorem mult_and_xor_row_apply (arr : Nat → Nat) (to_row from_row val n : Nat)
    (gf_mul : Nat → Nat → Nat) (hd : from_row + n ≤ to_row ∨ to_row + n ≤ from_row) (x : Nat) :
    mult_and_xor_row arr to_row from_row val n gf_mul x
      = if to_row ≤ x ∧ x < to_row + n
        then arr x ^^^ gf_mul val (arr (from_row + (x - to_row))) else arr x := by
  unfold mult_and_xor_row
  suffices h : ∀ t, t ≤ n → ∀ x,
      (List.range t).foldl
        (fun a i => arr_set a (to_row + i) (a (to_row + i) ^^^ gf_mul val (a (from_row + i)))) arr x
      = if to_row ≤ x ∧ x < to_row + t
        then arr x ^^^ gf_mul val (arr (from_row + (x - to_row))) else arr x from h n le_rfl x
  intro t
  induction t with
  | zero =>
    intro _ x
    simp only [List.range_zero, List.foldl_nil]
    rw [if_neg (by omega)]
  | succ t ih =>
    intro ht x
    rw [List.range_succ, List.foldl_append]
    simp only [List.foldl_cons, List.foldl_nil, arr_set_apply]
    have iht := ih (by omega)
    by_cases h1 : x = to_row + t
    · subst h1
      rw [if_pos rfl, if_pos (by omega), iht, iht, if_neg (by omega), if_neg (by omega)]
      congr 3
      omega
    · rw [if_neg h1, iht]
      by_cases h2 : to_row ≤ x ∧ x < to_row + t
      · rw [if_pos h2, if_pos (by omega)]
      · rw [if_neg h2, if_neg (by omega)]

/-! ## XOR sums -/

theorem xor_sum_zero (f : Nat → Nat) : xor_sum 0 f = 0 := rfl

theorem xor_sum_succ (n : Nat) (f : Nat → Nat) : xor_sum (n + 1) f = xor_sum n f ^^^ f n := by
  unfold xor_sum
  rw [List.range_succ, List.foldl_append]
  rfl

theorem xor_sum_congr {n : Nat} {f g : Nat → Nat} (h : ∀ i, i < n → f i = g i) :
    xor_sum n f = xor_sum n g := by
  induction n with
  | zero => rfl
  | succ n ih =>
    rw [xor_sum_succ, xor_sum_succ, ih (fun i hi => h i (by omega)), h n (by omega)]

theorem xor_sum_const_zero (n : Nat) : xor_sum n (fun _ => 0) = 0 := by
  induction n with
  | zero => rfl
  | succ n ih => rw [xor_sum_succ, ih]; rfl

theorem xor_swap (a b c d : Nat) : (a ^^^ b) ^^^ (c ^^^ d) = (a ^^^ c) ^^^ (b ^^^ d) := by
  rw [Nat.xor_assoc, Nat.xor_assoc, ← Nat.xor_assoc b c d, Nat.xor_comm b c, Nat.xor_assoc c b d]

theorem xor_sum_xor (n : Nat) (f g : Nat → Nat) :
    xor_sum n (fun i => f i ^^^ g i) = xor_sum n f ^^^ xor_sum n g := by
  induction n with
  | zero => simp only [xor_sum_zero]; rfl
  | succ n ih => rw [xor_sum_succ, xor_sum_succ, xor_sum_succ, ih, xor_swap]

theorem xor_sum_comm (n m : Nat) (f : Nat → Nat → Nat) :
    xor_sum n (fun i => xor_sum m (fun j => f i j))
      = xor_sum m (fun j => xor_sum n (fun i => f i j)) := by
  induction n with
  | zero =>
    simp only [xor_sum_zero]
    exact (xor_sum_const_zero m).symm
  | succ n ih =>
    rw [xor_sum_succ, ih, ← xor_sum_xor]
    apply xor_sum_congr
    intro j _
    rw [xor_sum_succ]

theorem xor_sum_single (n : Nat) (c v : Nat) (hc : c < n) :
    xor_sum n (fun j => if j = c then v else 0) = v := by
  induction n with
  | zero => omega
  | succ n ih =>
    rw [xor_sum_succ]
    by_cases h : c = n
    · subst h
      rw [if_pos rfl]
      have : xor_sum c (fun j => if j = c then v else 0) = xor_sum c (fun _ => 0) :=
        xor_sum_congr (fun i hi => if_neg (by omega))
      rw [this, xor_sum_const_zero, Nat.zero_xor]
    · rw [ih (by omega), if_neg (fun h2 => h h2.symm), Nat.xor_zero]

theorem xor_sum_single_out (n : Nat) (c v : Nat) (hc : n ≤ c) :
    xor_sum n (fun j => if j = c then v else 0) = 0 := by
  have : xor_sum n (fun j => if j = c then v else 0) = xor_sum n (fun _ => 0) :=
    xor_sum_congr (fun i hi => if_neg (by omega))
  rw [this, xor_sum_const_zero]

/-! ## Ranks: how many indices below `x` satisfy a test -/

theorem count_below_zero (p : Nat → Bool) : count_below p 0 = 0 := rfl

theorem count_below_succ (p : Nat → Bool) (x : Nat) :
    count_below p (x + 1) = count_below p x + if p x then 1 else 0 := by
  unfold count_below
  rw [List.range_succ, List.countP_append]
  by_cases h : p x <;> simp [h]

theorem count_below_mono (p : Nat → Bool) {x y : Nat} (h : x ≤ y) :
    count_below p x ≤ count_below p y := by
  induction y with
  | zero =>
    have : x = 0 := by omega
    subst this
    exact le_rfl
  | succ y ih =>
    by_cases hxy : x = y + 1
    · subst hxy; exact le_rfl
    · have := ih (by omega)
      rw [count_below_succ]
      omega

theorem count_below_lt (p : Nat → Bool) {x y : Nat} (h : x < y) (hp : p x = true) :
    count_below p x < count_below p y := by
  have h1 := count_below_mono p (show x + 1 ≤ y by omega)
  rw [count_below_succ, if_pos hp] at h1
  omega

theorem count_below_le (p : Nat → Bool) (x : Nat) : count_below p x ≤ x := by
  induction x with
  | zero => exact le_rfl
  | succ x ih =>
    rw [count_below_succ]
    split <;> omega

theorem count_below_add_not (p : Nat → Bool) (x : Nat) :
    count_below p x + count_below (fun i => !p i) x = x := by
  induction x with
  | zero => rfl
  | succ x ih =>
    rw [count_below_succ, count_below_succ]
    by_cases h : p x <;> simp [h] <;> omega

theorem length_filter_range (p : Nat → Bool) (n : Nat) :
    ((List.range n).filter p).length = count_below p n := by
  unfold count_below
  rw [List.countP_eq_length_filter]

theorem filter_range_succ (p : Nat → Bool) (n : Nat) :
    (List.range (n + 1)).filter p
      = (List.range n).filter p ++ if p n then [n] else [] := by
  rw [List.range_succ, List.filter_append]
  by_cases h : p n <;> simp [h]

theorem filter_range_index (p : Nat → Bool) (n x : Nat) (hx : x < n) (hp : p x = true) :
    ((List.range n).filter p)[count_below p x]? = some x := by
  induction n with
  | zero => omega
  | succ n ih =>
    rw [filter_range_succ]
    by_cases hxn : x = n
    · subst hxn
      rw [List.getElem?_append_right (by rw [length_filter_range]), length_filter_range,
        Nat.sub_self, if_pos hp]
      rfl
    · have h1 := ih (by omega)
      have h2 : count_below p x < ((List.range n).filter p).length := by
        rw [length_filter_range]
        exact count_below_lt p (by omega) hp
      rw [List.getElem?_append_left h2]
      exact h1

theorem filter_range_nth (p : Nat → Bool) (n c : Nat) (hc : c < count_below p n) :
    ((List.range n).filter p).getD c 0 < n ∧ p (((List.range n).filter p).getD c 0) = true ∧
      count_below p (((List.range n).filter p).getD c 0) = c := by
  have hlen : c < ((List.range n).filter p).length := by rw [length_filter_range]; exact hc
  have hget : ((List.range n).filter p).getD c 0 = ((List.range n).filter p)[c] := by
    rw [List.getD_eq_getElem?_getD, List.getElem?_eq_getElem hlen]
    rfl
  rw [hget]
  have hmem : ((List.range n).filter p)[c] ∈ (List.range n).filter p := List.getElem_mem hlen
  rw [List.mem_filter, List.mem_range] at hmem
  refine ⟨hmem.1, hmem.2, ?_⟩
  have hidx := filter_range_index p n _ hmem.1 hmem.2
  have hnd : ((List.range n).filter p).Nodup := (List.nodup_range n).filter _
  have h3 : count_below p (((List.range n).filter p)[c]) < ((List.range n).filter p).length := by
    rw [length_filter_range]
    exact count_below_lt p hmem.1 hmem.2
  rw [List.getElem?_eq_getElem h3] at hidx
  have h4 := Option.some.inj hidx
  exact (List.Nodup.getElem_inj_iff hnd).1 h4

/-! ## The pointer lists of decode and reconstruct -/

theorem foldl_collect {α : Type} (p : Nat → Bool) (g : Nat → α) (l : List Nat) (init : List α) :
    l.foldl (fun s i => if p i then s ++ [g i] else s) init = init ++ (l.filter p).map g := by
  induction l generalizing init with
  | nil => simp
  | cons a l ih =>
    rw [List.foldl_cons, ih]
    by_cases h : p a <;> simp [h]

theorem collect_decoded_eq (k m bm : Nat) :
    collect_decoded k m bm = ((List.range (k + m)).filter (bm_test bm)).map (frag_ptr k) := by
  unfold collect_decoded
  have h1 : (List.range k).foldl (decoded_data_step bm) []
      = ((List.range k).filter (bm_test bm)).map BufPtr.data := by
    have := foldl_collect (bm_test bm) BufPtr.data (List.range k) []
    simpa [decoded_data_step] using this
  have h2 : ∀ init, (List.range' k m).foldl (decoded_parity_step k bm) init
      = init ++ ((List.range' k m).filter (bm_test bm)).map (fun i => BufPtr.parity (i - k)) := by
    intro init
    exact foldl_collect (bm_test bm) (fun i => BufPtr.parity (i - k)) (List.range' k m) init
  rw [h1, h2]
  have h3 : List.range (k + m) = List.range k ++ List.range' k m := by
    rw [List.range_eq_range', List.range_eq_range', Nat.add_comm k m]
    have := List.range'_append 0 k m 1
    simpa using this.symm
  rw [h3, List.filter_append, List.map_append]
  congr 1
  · apply List.map_congr_left
    intro a ha
    rw [List.mem_filter, List.mem_range] at ha
    unfold frag_ptr
    rw [if_pos ha.1]
  · apply List.map_congr_left
    intro a ha
    rw [List.mem_filter, List.mem_range'_1] at ha
    unfold frag_ptr
    rw [if_neg (by omega)]

theorem collect_available_eq (k n bm : Nat) :
    collect_available k n bm
      = (((List.range n).filter (fun i => !bm_test bm i)).take k).map (frag_ptr k) := by
  unfold collect_available
  induction n with
  | zero => simp
  | succ n ih =>
    rw [filter_range_succ, List.range_succ, List.foldl_append, ih]
    simp only [List.foldl_cons, List.foldl_nil, available_step]
    by_cases h : bm_test bm n
    · simp [h]
    · simp only [h, Bool.false_eq_true, if_false, Bool.not_false, if_true, List.length_map,
        List.length_take]
      by_cases h2 : min k ((List.range n).filter (fun i => !bm_test bm i)).length = k
      · rw [if_pos h2, List.take_append_of_le_length (by omega)]
      · rw [if_neg h2]
        have h3 : ((List.range n).filter (fun i => !bm_test bm i)).length < k := by omega
        rw [List.take_of_length_le (by omega), List.take_of_length_le (by simp; omega)]
        simp

/-! ## The decode matrix loop -/

theorem decode_matrix_fold (k : Nat) (G : Nat → Nat) (bm n : Nat) :
    ((List.range n).foldl (decode_matrix_step k G bm) (0, fun _ => 0)).1
        = min k (count_below (fun i => !bm_test bm i) n) ∧
      ∀ x, x < n → bm_test bm x = false → count_below (fun i => !bm_test bm i) x < k →
        ∀ j, j < k →
          ((List.range n).foldl (decode_matrix_step k G bm) (0, fun _ => 0)).2
              (k * count_below (fun i => !bm_test bm i) x + j) = G (k * x + j) := by
  induction n with
  | zero =>
    refine ⟨by simp [count_below_zero], ?_⟩
    intro x hx
    omega
  | succ n ih =>
    rw [List.range_succ, List.foldl_append]
    simp only [List.foldl_cons, List.foldl_nil]
    obtain ⟨ih1, ih2⟩ := ih
    generalize (List.range n).foldl (decode_matrix_step k G bm) (0, fun _ => 0) = s at ih1 ih2
    rw [count_below_succ]
    unfold decode_matrix_step
    by_cases hk : s.1 < k
    · rw [if_pos hk]
      by_cases hm : bm_test bm n = false
      · rw [if_pos hm]
        have hcnt : s.1 = count_below (fun i => !bm_test bm i) n := by omega
        refine ⟨by simp [hm]; omega, ?_⟩
        intro x hx hxm hxr j hj
        simp only
        rw [copy_row_apply]
        by_cases hxn : x = n
        · subst hxn
          rw [← hcnt, if_pos (by omega)]
          congr 1
          omega
        · have hlt : count_below (fun i => !bm_test bm i) x < s.1 := by
            rw [hcnt]
            exact count_below_lt _ (by omega) (by simp [hxm])
          have h3 := row_index_lt hlt hj
          rw [Nat.mul_comm _ k, Nat.mul_comm _ k] at h3
          rw [if_neg (by omega)]
          exact ih2 x (by omega) hxm hxr j hj
      · rw [if_neg hm]
        have hm2 : bm_test bm n = true := by simpa using hm
        refine ⟨by simp [hm2]; exact ih1, ?_⟩
        intro x hx hxm hxr j hj
        have hxn : x ≠ n := by
          intro h
          subst h
          rw [hm2] at hxm
          exact Bool.noConfusion hxm
        exact ih2 x (by omega) hxm hxr j hj
    · rw [if_neg hk]
      refine ⟨by omega, ?_⟩
      intro x hx hxm hxr j hj
      have hxn : x ≠ n := by
        intro h
        subst h
        omega
      exact ih2 x (by omega) hxm hxr j hj

theorem int_add_exact (a b : Int) (hlo : -2 ^ 31 ≤ a + b) (hhi : a + b < 2 ^ 31) :
    int_add a b = a + b := by
  unfold int_add
  omega

theorem int_add_nat (k m : Nat) (h : k + m < 2 ^ 31) : (int_add k m).toNat = k + m := by
  rw [int_add_exact _ _ (by omega) (by omega)]
  omega

theorem get_decode_matrix_eq (k m : Int) (G : Nat → Nat) (idxs : List Int) (alloc : Bool) :
    isa_l_get_decode_matrix k m G idxs alloc
      = if alloc = false then
          if 0 < min k.toNat (count_below (fun i => !bm_test (convert_list_to_bitmap idxs) i)
              (int_add k m).toNat) then none
          else some none
        else if ((min k.toNat (count_below (fun i => !bm_test (convert_list_to_bitmap idxs) i)
            (int_add k m).toNat) : Nat) : Int) ≠ k then some none
        else some (some ((List.range (int_add k m).toNat).foldl
          (decode_matrix_step k.toNat G (convert_list_to_bitmap idxs)) (0, fun _ => 0)).2) := by
  unfold isa_l_get_decode_matrix
  simp only
  rw [(decode_matrix_fold k.toNat G (convert_list_to_bitmap idxs) (int_add k m).toNat).1]

theorem get_decode_matrix_some (k m : Nat) (hfit : k + m < 2 ^ 31) (G : Nat → Nat)
    (idxs : List Int)
    (h : k ≤ count_below (fun i => !bm_test (convert_list_to_bitmap idxs) i) (k + m)) :
    ∃ dm, isa_l_get_decode_matrix k m G idxs true = some (some dm) ∧
      ∀ x, x < k + m → bm_test (convert_list_to_bitmap idxs) x = false →
        count_below (fun i => !bm_test (convert_list_to_bitmap idxs) i) x < k →
        ∀ j, j < k →
          dm (k * count_below (fun i => !bm_test (convert_list_to_bitmap idxs) i) x + j)
            = G (k * x + j) := by
  obtain ⟨_, h2⟩ := decode_matrix_fold k G (convert_list_to_bitmap idxs) (k + m)
  rw [get_decode_matrix_eq, int_add_nat k m hfit, Int.toNat_ofNat]
  rw [if_neg (by simp), if_neg (by simp; omega)]
  exact ⟨_, rfl, h2⟩

theorem get_decode_matrix_none (k m : Nat) (hfit : k + m < 2 ^ 31) (G : Nat → Nat)
    (idxs : List Int)
    (h : count_below (fun i => !bm_test (convert_list_to_bitmap idxs) i) (k + m) < k) :
    isa_l_get_decode_matrix k m G idxs true = some none := by
  rw [get_decode_matrix_eq, int_add_nat k m hfit, Int.toNat_ofNat]
  rw [if_neg (by simp), if_pos (by simp; omega)]

/-! ## The inverse row loops -/

theorem missing_data_fold (k : Nat) (inv : Nat → Nat) (bm i : Nat) :
    ((List.range i).foldl (missing_data_step k inv bm) (fun _ => 0, 0)).2
        = count_below (bm_test bm) i ∧
      (∀ x, x < i → bm_test bm x = true → ∀ c, c < k →
        ((List.range i).foldl (missing_data_step k inv bm) (fun _ => 0, 0)).1
          (count_below (bm_test bm) x * k + c) = inv (x * k + c)) ∧
      ∀ y, count_below (bm_test bm) i * k ≤ y →
        ((List.range i).foldl (missing_data_step k inv bm) (fun _ => 0, 0)).1 y = 0 := by
  induction i with
  | zero =>
    refine ⟨rfl, ?_, ?_⟩
    · intro x hx
      omega
    · intro y _
      rfl
  | succ i ih =>
    rw [List.range_succ, List.foldl_append]
    simp only [List.foldl_cons, List.foldl_nil]
    obtain ⟨ih1, ih2, ih3⟩ := ih
    generalize (List.range i).foldl (missing_data_step k inv bm) (fun _ => 0, 0) = s
      at ih1 ih2 ih3
    rw [count_below_succ]
    unfold missing_data_step
    by_cases hm : bm_test bm i = true
    · rw [if_pos hm, if_pos hm]
      refine ⟨by simp [ih1], ?_, ?_⟩
      · intro x hx hxm c hc
        simp only
        rw [copy_row_apply, ih1]
        by_cases hxi : x = i
        · subst hxi
          rw [if_pos (by omega)]
          congr 1
          omega
        · have hlt := count_below_lt (bm_test bm) (show x < i by omega) hxm
          have h3 := row_index_lt hlt hc
          rw [if_neg (by omega)]
          exact ih2 x (by omega) hxm c hc
      · intro y hy
        simp only
        rw [copy_row_apply, ih1]
        rw [Nat.add_mul, Nat.one_mul] at hy
        rw [if_neg (by omega)]
        exact ih3 y (by omega)
    · rw [if_neg hm, if_neg hm]
      refine ⟨by simp [ih1], ?_, ?_⟩
      · intro x hx hxm c hc
        have hxi : x ≠ i := by
          intro h
          subst h
          exact hm hxm
        exact ih2 x (by omega) hxm c hc
      · intro y hy
        exact ih3 y (by simpa using hy)

theorem parity_column_fold (k : Nat) (G inv : Nat → Nat) (bm : Nat) (gf_mul : Nat → Nat → Nat)
    (l p : Nat) (a0 : Nat → Nat)
    (h1 : ∀ x, x < k → bm_test bm x = true → ∀ c, c < k →
      a0 (count_below (bm_test bm) x * k + c) = inv (x * k + c))
    (h2 : count_below (bm_test bm) k ≤ l)
    (h3 : ∀ c, c < k → a0 (l * k + c) = 0) (j : Nat) (hj : j ≤ k) :
    ((List.range j).foldl (parity_column_step k G bm gf_mul l p) (a0, 0, 0)).2.1
        = count_below (fun i => !bm_test bm i) j ∧
      ((List.range j).foldl (parity_column_step k G bm gf_mul l p) (a0, 0, 0)).2.2
        = count_below (bm_test bm) j ∧
      (∀ y, ¬ (l * k ≤ y ∧ y < l * k + k) →
        ((List.range j).foldl (parity_column_step k G bm gf_mul l p) (a0, 0, 0)).1 y = a0 y) ∧
      ∀ c, c < k →
        ((List.range j).foldl (parity_column_step k G bm gf_mul l p) (a0, 0, 0)).1 (l * k + c)
          = xor_sum j (fun j' =>
              if bm_test bm j' then gf_mul (G (p * k + j')) (inv (j' * k + c))
              else if count_below (fun i => !bm_test bm i) j' = c then G (p * k + j') else 0) := by
  induction j with
  | zero =>
    refine ⟨rfl, rfl, fun y _ => rfl, ?_⟩
    intro c hc
    rw [xor_sum_zero]
    exact h3 c hc
  | succ j ih =>
    rw [List.range_succ, List.foldl_append]
    simp only [List.foldl_cons, List.foldl_nil]
    obtain ⟨ih1, ih2, ih3, ih4⟩ := ih (by omega)
    generalize (List.range j).foldl (parity_column_step k G bm gf_mul l p) (a0, 0, 0) = s
      at ih1 ih2 ih3 ih4
    rw [count_below_succ, count_below_succ]
    have hra : count_below (fun i => !bm_test bm i) j < k :=
      lt_of_le_of_lt (count_below_le _ j) (by omega)
    unfold parity_column_step
    by_cases hm : bm_test bm j = true
    · rw [if_neg (by simp [hm])]
      have hdu : s.2.2 < l := by
        rw [ih2]
        exact lt_of_lt_of_le (count_below_lt (bm_test bm) (show j < k by omega) hm) h2
      have hdisj : s.2.2 * k + k ≤ l * k := by
        have := Nat.mul_le_mul_right k hdu
        rw [Nat.succ_mul] at this
        exact this
      refine ⟨by simp [hm, ih1], by simp [hm, ih2], ?_, ?_⟩
      · intro y hy
        simp only
        rw [mult_and_xor_row_apply _ _ _ _ _ _ (Or.inl hdisj), if_neg hy]
        exact ih3 y hy
      · intro c hc
        simp only
        rw [mult_and_xor_row_apply _ _ _ _ _ _ (Or.inl hdisj), if_pos (by omega), xor_sum_succ,
          if_pos hm, ih4 c hc]
        congr 2
        have e : s.2.2 * k + (l * k + c - l * k) = count_below (bm_test bm) j * k + c := by
          rw [ih2]
          omega
        rw [e, ih3 _ (by have := row_index_lt hdu hc; rw [ih2] at this; omega)]
        exact h1 j (by omega) hm c hc
    · have hm2 : bm_test bm j = false := by simpa using hm
      rw [if_pos hm2]
      refine ⟨by simp [hm2, ih1], by simp [hm2, ih2], ?_, ?_⟩
      · intro y hy
        simp only
        rw [arr_set_apply, if_neg (by rw [ih1]; omega)]
        exact ih3 y hy
      · intro c hc
        simp only
        rw [arr_set_apply, xor_sum_succ, if_neg hm, ih1]
        by_cases hcc : c = count_below (fun i => !bm_test bm i) j
        · subst hcc
          rw [if_pos rfl, if_pos rfl, ih4 _ hc]
        · rw [if_neg (by omega), if_neg (fun h => hcc h.symm), Nat.xor_zero]
          exact ih4 c hc

theorem missing_parity_fold (k : Nat) (G inv : Nat → Nat) (bm : Nat) (gf_mul : Nat → Nat → Nat)
    (s1 : (Nat → Nat) × Nat)
    (hs1 : s1.2 = count_below (bm_test bm) k)
    (hs2 : ∀ x, x < k → bm_test bm x = true → ∀ c, c < k →
      s1.1 (count_below (bm_test bm) x * k + c) = inv (x * k + c))
    (hs3 : ∀ y, count_below (bm_test bm) k * k ≤ y → s1.1 y = 0) (t : Nat) :
    ((List.range' k t).foldl (missing_parity_step k G bm gf_mul) s1).2
        = count_below (bm_test bm) (k + t) ∧
      (∀ x, x < k → bm_test bm x = true → ∀ c, c < k →
        ((List.range' k t).foldl (missing_parity_step k G bm gf_mul) s1).1
          (count_below (bm_test bm) x * k + c) = inv (x * k + c)) ∧
      (∀ p, k ≤ p → p < k + t → bm_test bm p = true → ∀ c, c < k →
        ((List.range' k t).foldl (missing_parity_step k G bm gf_mul) s1).1
          (count_below (bm_test bm) p * k + c)
            = parity_row_formula k G inv (bm_test bm) gf_mul p c) ∧
      ∀ y, count_below (bm_test bm) (k + t) * k ≤ y →
        ((List.range' k t).foldl (missing_parity_step k G bm gf_mul) s1).1 y = 0 := by
  induction t with
  | zero =>
    refine ⟨hs1, hs2, ?_, hs3⟩
    intro p hp1 hp2
    omega
  | succ t ih =>
    rw [List.range'_1_concat, List.foldl_append]
    simp only [List.foldl_cons, List.foldl_nil]
    obtain ⟨ih1, ih2, ih3, ih4⟩ := ih
    generalize (List.range' k t).foldl (missing_parity_step k G bm gf_mul) s1 = s
      at ih1 ih2 ih3 ih4
    rw [← Nat.add_assoc, count_below_succ]
    unfold missing_parity_step
    by_cases hm : bm_test bm (k + t) = true
    · rw [if_pos hm, if_pos hm]
      have hle : count_below (bm_test bm) k ≤ s.2 := by
        rw [ih1]
        exact count_below_mono _ (by omega)
      obtain ⟨_, _, f3, f4⟩ := parity_column_fold k G inv bm gf_mul s.2 (k + t) s.1 ih2 hle
        (fun c _ => ih4 _ (by rw [ih1]; omega)) k le_rfl
      generalize (List.range k).foldl (parity_column_step k G bm gf_mul s.2 (k + t)) (s.1, 0, 0)
        = r at f3 f4
      refine ⟨by simp [ih1], ?_, ?_, ?_⟩
      · intro x hx hxm c hc
        simp only
        have hlt : count_below (bm_test bm) x < s.2 :=
          lt_of_lt_of_le (count_below_lt _ hx hxm) hle
        have := row_index_lt hlt hc
        rw [f3 _ (by omega)]
        exact ih2 x hx hxm c hc
      · intro p hp1 hp2 hpm c hc
        simp only
        by_cases hpt : p = k + t
        · subst hpt
          rw [← ih1, f4 c hc]
          rfl
        · have hlt : count_below (bm_test bm) p < s.2 := by
            rw [ih1]
            exact count_below_lt _ (by omega) hpm
          have := row_index_lt hlt hc
          rw [f3 _ (by omega)]
          exact ih3 p hp1 (by omega) hpm c hc
      · intro y hy
        simp only
        rw [Nat.add_mul, Nat.one_mul] at hy
        rw [f3 _ (by rw [ih1]; omega)]
        exact ih4 y (by omega)
    · rw [if_neg hm, if_neg hm]
      refine ⟨by simp [ih1], ih2, ?_, ?_⟩
      · intro p hp1 hp2 hpm c hc
        have hpt : p ≠ k + t := by
          intro h
          subst h
          exact hm hpm
        exact ih3 p hp1 (by omega) hpm c hc
      · intro y hy
        exact ih4 y (by simpa using hy)

theorem get_inverse_rows_spec (k m : Nat) (inv G : Nat → Nat) (idxs : List Int)
    (gf_mul : Nat → Nat → Nat) :
    (∀ x, x < k → bm_test (convert_list_to_bitmap idxs) x = true → ∀ c, c < k →
      fill_inverse_rows k m inv G idxs gf_mul
        (count_below (bm_test (convert_list_to_bitmap idxs)) x * k + c) = inv (x * k + c)) ∧
    (∀ p, k ≤ p → p < k + m → bm_test (convert_list_to_bitmap idxs) p = true → ∀ c, c < k →
      fill_inverse_rows k m inv G idxs gf_mul
        (count_below (bm_test (convert_list_to_bitmap idxs)) p * k + c)
          = parity_row_formula k G inv (bm_test (convert_list_to_bitmap idxs)) gf_mul p c) := by
  obtain ⟨d1, d2, d3⟩ := missing_data_fold k inv (convert_list_to_bitmap idxs) k
  obtain ⟨_, p2, p3, _⟩ := missing_parity_fold k G inv (convert_list_to_bitmap idxs) gf_mul
    _ d1 d2 d3 m
  exact ⟨p2, p3⟩

theorem get_inverse_rows_eq (k m : Nat) (hfit : k + m < 2 ^ 31) (inv G : Nat → Nat)
    (idxs : List Int) (gf_mul : Nat → Nat → Nat) :
    get_inverse_rows k m inv G idxs gf_mul true
      = some (fill_inverse_rows k m inv G idxs gf_mul) := by
  unfold get_inverse_rows
  simp only [int_add_nat k m hfit, Int.toNat_ofNat, Nat.add_sub_cancel_left]
  rfl

/-! ## The bitmap test against the list -/

theorem idx_list_cons (x : Nat) (xs : List Nat) :
    idx_list (x :: xs) = (x : Int) :: idx_list xs := rfl

theorem num_missing_idx_list (xs : List Nat) : get_num_missing_elements (idx_list xs) = xs.length := by
  induction xs with
  | nil => rfl
  | cons x xs ih =>
    rw [idx_list_cons, get_num_missing_elements, if_pos (by omega), ih]
    rfl

theorem bitmap_idx_list_cons (x : Nat) (xs : List Nat) :
    convert_list_to_bitmap (idx_list (x :: xs))
      = (2 ^ x % 2 ^ 64) ||| convert_list_to_bitmap (idx_list xs) := by
  rw [idx_list_cons, convert_list_to_bitmap, if_pos (by omega)]
  rfl

theorem bitmap_idx_list_nil : convert_list_to_bitmap (idx_list []) = 0 := rfl

theorem testBit_bitmap (xs : List Nat) (h : ∀ x ∈ xs, x < 64) (i : Nat) :
    (convert_list_to_bitmap (idx_list xs)).testBit i = decide (i ∈ xs) := by
  induction xs with
  | nil => simp [bitmap_idx_list_nil]
  | cons x xs ih =>
    have hx : x < 64 := h x (List.mem_cons_self x xs)
    have h2 : (2 : Nat) ^ x % 2 ^ 64 = 2 ^ x :=
      Nat.mod_eq_of_lt (Nat.pow_lt_pow_right (by omega) hx)
    rw [bitmap_idx_list_cons, Nat.testBit_or, h2, Nat.testBit_two_pow,
      ih (fun y hy => h y (List.mem_cons_of_mem x hy))]
    by_cases e : x = i
    · subst e; simp
    · have e2 : ¬ i = x := fun h => e h.symm
      simp [e, e2]

theorem bitmap_lt (xs : List Nat) (h : ∀ x ∈ xs, x < 32) :
    convert_list_to_bitmap (idx_list xs) < 2 ^ 32 := by
  induction xs with
  | nil => rw [bitmap_idx_list_nil]; omega
  | cons x xs ih =>
    have hx : x < 32 := h x (List.mem_cons_self x xs)
    have h1 : (2 : Nat) ^ x < 2 ^ 32 := Nat.pow_lt_pow_right (by omega) hx
    have h2 : (2 : Nat) ^ x % 2 ^ 64 = 2 ^ x := Nat.mod_eq_of_lt (by omega)
    rw [bitmap_idx_list_cons, h2]
    exact Nat.or_lt_two_pow h1 (ih (fun y hy => h y (List.mem_cons_of_mem x hy)))

theorem sign_mask_bits : ∀ j, j < 32 → (2 ^ 64 - 2 ^ 31).testBit j = (2 ^ 31).testBit j := by
  decide

theorem sign_mask_and (bm : Nat) (hbm : bm < 2 ^ 32) :
    (2 ^ 64 - 2 ^ 31) &&& bm = 2 ^ 31 &&& bm := by
  apply Nat.eq_of_testBit_eq
  intro j
  rw [Nat.testBit_and, Nat.testBit_and]
  by_cases hj : j < 32
  · rw [sign_mask_bits j hj]
  · have h1 : bm < 2 ^ j :=
      lt_of_lt_of_le hbm (Nat.pow_le_pow_right (by omega) (by omega))
    rw [Nat.testBit_lt_two_pow h1, Bool.and_false, Bool.and_false]

theorem two_pow_and_ne_zero (bm i : Nat) : ((2 ^ i &&& bm) != 0) = bm.testBit i := by
  rw [Nat.two_pow_and]
  cases h : bm.testBit i
  · simp
  · simp

theorem bm_test_eq_testBit (bm i : Nat) (hbm : bm < 2 ^ 32) (hi : i < 32) :
    bm_test bm i = bm.testBit i := by
  unfold bm_test int_shl_one
  rw [Nat.mod_eq_of_lt hi]
  by_cases h : i = 31
  · subst h
    rw [if_pos rfl, sign_mask_and bm hbm]
    exact two_pow_and_ne_zero bm 31
  · rw [if_neg h]
    exact two_pow_and_ne_zero bm i

theorem bm_test_idx_list (xs : List Nat) (h : ∀ x ∈ xs, x < 32) (i : Nat) (hi : i < 32) :
    bm_test (convert_list_to_bitmap (idx_list xs)) i = decide (i ∈ xs) := by
  rw [bm_test_eq_testBit _ _ (bitmap_lt xs h) hi,
    testBit_bitmap xs (fun x hx => by have := h x hx; omega)]

theorem bm_test_union (xs ys : List Nat) (hx : ∀ x ∈ xs, x < 32) (hy : ∀ y ∈ ys, y < 32)
    (i : Nat) (hi : i < 32) :
    bm_test (convert_list_to_bitmap (idx_list xs) ||| convert_list_to_bitmap (idx_list ys)) i
      = decide (i ∈ xs ∨ i ∈ ys) := by
  rw [bm_test_eq_testBit _ _ (Nat.or_lt_two_pow (bitmap_lt xs hx) (bitmap_lt ys hy)) hi,
    Nat.testBit_or, testBit_bitmap xs (fun x h => by have := hx x h; omega),
    testBit_bitmap ys (fun y h => by have := hy y h; omega)]
  simp

theorem count_below_congr {p q : Nat → Bool} {n : Nat} (h : ∀ i, i < n → p i = q i) :
    count_below p n = count_below q n := by
  induction n with
  | zero => rfl
  | succ n ih =>
    rw [count_below_succ, count_below_succ, ih (fun i hi => h i (by omega)), h n (by omega)]

theorem count_below_mem (xs : List Nat) (n : Nat) (hnd : xs.Nodup) (hr : ∀ x ∈ xs, x < n) :
    count_below (fun i => decide (i ∈ xs)) n = xs.length := by
  rw [← length_filter_range]
  apply List.Perm.length_eq
  rw [List.perm_ext_iff_of_nodup ((List.nodup_range n).filter _) hnd]
  intro a
  rw [List.mem_filter, List.mem_range]
  constructor
  · intro h
    simpa using h.2
  · intro h
    exact ⟨hr a h, by simpa using h⟩

theorem count_missing (xs : List Nat) (n : Nat) (hn : n ≤ 32) (hnd : xs.Nodup)
    (hr : ∀ x ∈ xs, x < n) :
    count_below (bm_test (convert_list_to_bitmap (idx_list xs))) n = xs.length := by
  rw [← count_below_mem xs n hnd hr]
  apply count_below_congr
  intro i hi
  exact bm_test_idx_list xs (fun x hx => by have := hr x hx; omega) i (by omega)

theorem count_available (xs : List Nat) (n : Nat) (hn : n ≤ 32) (hnd : xs.Nodup)
    (hr : ∀ x ∈ xs, x < n) :
    count_below (fun i => !bm_test (convert_list_to_bitmap (idx_list xs)) i) n
      = n - xs.length := by
  have h1 := count_below_add_not (bm_test (convert_list_to_bitmap (idx_list xs))) n
  rw [count_missing xs n hn hnd hr] at h1
  omega

/-! ## Buffers behind the pointer lists -/

theorem load_store (f : Frags) (p q : BufPtr) (v : List Nat) :
    (f.store p v).load q = if q = p then v else f.load q := by
  cases p <;> cases q <;> simp [Frags.store, Frags.load, arr_set_apply]

theorem frag_ptr_inj (k : Nat) {x y : Nat} (h : frag_ptr k x = frag_ptr k y) : x = y := by
  unfold frag_ptr at h
  by_cases hx : x < k <;> by_cases hy : y < k <;> simp [hx, hy] at h <;> omega

theorem store_outputs_fold (f : Frags) (targets : List BufPtr) (outs : Nat → List Nat)
    (hnd : targets.Nodup) (t : Nat) (ht : t ≤ targets.length) :
    (∀ r, r < t → ∀ p, targets[r]? = some p →
      ((List.range t).foldl (fun g r => match targets[r]? with
        | some p => g.store p (outs r)
        | none => g) f).load p = outs r) ∧
    (∀ p, (∀ r, r < t → targets[r]? ≠ some p) →
      ((List.range t).foldl (fun g r => match targets[r]? with
        | some p => g.store p (outs r)
        | none => g) f).load p = f.load p) := by
  induction t with
  | zero =>
    refine ⟨?_, fun p _ => rfl⟩
    intro r hr
    omega
  | succ t ih =>
    rw [List.range_succ, List.foldl_append]
    simp only [List.foldl_cons, List.foldl_nil]
    obtain ⟨ih1, ih2⟩ := ih (by omega)
    have hlt : t < targets.length := by omega
    rw [List.getElem?_eq_getElem hlt]
    simp only
    constructor
    · intro r hr p hp
      rw [load_store]
      by_cases hrt : r = t
      · subst hrt
        rw [List.getElem?_eq_getElem hlt] at hp
        rw [if_pos (Option.some.inj hp).symm]
      · have hr2 : r < targets.length := by omega
        rw [List.getElem?_eq_getElem hr2] at hp
        have hne : p ≠ targets[t] := by
          intro e
          rw [← Option.some.inj hp] at e
          exact hrt ((List.Nodup.getElem_inj_iff hnd).1 e)
        rw [if_neg hne]
        exact ih1 r (by omega) p (by rw [List.getElem?_eq_getElem hr2]; exact hp)
    · intro p hp
      rw [load_store]
      have hne : p ≠ targets[t] := by
        intro e
        exact hp t (by omega) (by rw [List.getElem?_eq_getElem hlt, e])
      rw [if_neg hne]
      exact ih2 p (fun r hr => hp r (by omega))

theorem store_outputs_load (f : Frags) (targets : List BufPtr) (outs : Nat → List Nat)
    (hnd : targets.Nodup) (r : Nat) (p : BufPtr) (h : targets[r]? = some p) :
    (store_outputs f targets outs).load p = outs r := by
  have hr : r < targets.length := by
    by_contra hc
    rw [List.getElem?_eq_none (by omega)] at h
    exact Option.noConfusion h
  exact (store_outputs_fold f targets outs hnd targets.length le_rfl).1 r hr p h

theorem store_outputs_frame (f : Frags) (targets : List BufPtr) (outs : Nat → List Nat)
    (hnd : targets.Nodup) (p : BufPtr) (h : p ∉ targets) :
    (store_outputs f targets outs).load p = f.load p := by
  apply (store_outputs_fold f targets outs hnd targets.length le_rfl).2 p
  intro r hr e
  rw [List.getElem?_eq_getElem hr] at e
  exact h (by rw [← Option.some.inj e]; exact List.getElem_mem hr)

theorem store_outputs_nil (f : Frags) (outs : Nat → List Nat) : store_outputs f [] outs = f := rfl

theorem decoded_nodup (k m bm : Nat) : (collect_decoded k m bm).Nodup := by
  rw [collect_decoded_eq]
  exact List.Nodup.map (fun _ _ h => frag_ptr_inj k h) ((List.nodup_range _).filter _)

theorem decoded_index (k m bm x : Nat) (hx : x < k + m) (hm : bm_test bm x = true) :
    (collect_decoded k m bm)[count_below (bm_test bm) x]? = some (frag_ptr k x) := by
  rw [collect_decoded_eq, List.getElem?_map, filter_range_index _ _ _ hx hm]
  rfl

theorem decoded_not_mem (k m bm x : Nat) (hm : bm_test bm x = false) :
    frag_ptr k x ∉ collect_decoded k m bm := by
  rw [collect_decoded_eq]
  intro h
  rw [List.mem_map] at h
  obtain ⟨y, hy, e⟩ := h
  have := frag_ptr_inj k e
  subst this
  rw [List.mem_filter] at hy
  rw [hm] at hy
  exact Bool.noConfusion hy.2

theorem decoded_length (k m bm : Nat) :
    (collect_decoded k m bm).length = count_below (bm_test bm) (k + m) := by
  rw [collect_decoded_eq, List.length_map, length_filter_range]

theorem load_inputs_available (f : Frags) (k n bm c : Nat) (hc : c < k)
    (hk : k ≤ count_below (fun i => !bm_test bm i) n) :
    load_inputs f (collect_available k n bm) c
      = f.load (frag_ptr k (((List.range n).filter (fun i => !bm_test bm i)).getD c 0)) := by
  unfold load_inputs
  have hlen : c < ((List.range n).filter (fun i => !bm_test bm i)).length := by
    rw [length_filter_range]
    omega
  rw [collect_available_eq, List.getElem?_map, List.getElem?_take, if_pos hc,
    List.getD_eq_getElem?_getD, List.getElem?_eq_getElem hlen]
  rfl

/-! ## What decode and reconstruct write -/

theorem toNat_mul_self (k : Int) (h : 0 ≤ k) : (k * k).toNat = k.toNat * k.toNat := by
  obtain ⟨n, rfl⟩ := Int.eq_ofNat_of_zero_le h
  rw [← Int.ofNat_mul, Int.toNat_ofNat, Int.toNat_ofNat]

theorem toNat_mul_nat (j k : Nat) : ((j : Int) * (k : Int)).toNat = j * k := by
  rw [← Int.ofNat_mul, Int.toNat_ofNat]

theorem bulk_ok_nat {desc : isa_l_rs_vand_descriptor} (h : BulkTransformOk desc)
    (len k rows : Nat) (a : Nat → Nat) (ins outs : Nat → List Nat) (r : Nat) (hr : r < rows) :
    desc.ec_encode_data len k rows (desc.ec_init_tables k rows a) ins outs r
      = bulk_multiply_accumulate desc.gf_mul len k a ins r := by
  have := h len k rows a ins outs r (by exact_mod_cast hr)
  simpa using this

theorem decode_eq (desc : isa_l_rs_vand_descriptor) (k m : Nat) (hk : desc.k = k)
    (hm : desc.m = m) (hfit : k + m < 2 ^ 31) (f : Frags) (idxs : List Int) (len : Nat)
    (dm : Nat → Nat)
    (hdm : isa_l_get_decode_matrix k m desc.matrix idxs true = some (some dm))
    (hlen : (collect_decoded k m (convert_list_to_bitmap idxs)).length
      = get_num_missing_elements idxs) :
    isa_l_rs_vand_decode desc f idxs len all_allocated
      = some (0, store_outputs f (collect_decoded k m (convert_list_to_bitmap idxs))
          (desc.ec_encode_data len k (get_num_missing_elements idxs)
            (desc.ec_init_tables k (get_num_missing_elements idxs)
              (fill_inverse_rows k m (desc.gf_invert_matrix dm k).2 desc.matrix
                idxs desc.gf_mul))
            (load_inputs f
              (collect_available k (k + m) (convert_list_to_bitmap idxs)))
            (load_inputs f (collect_decoded k m (convert_list_to_bitmap idxs))))) := by
  unfold isa_l_rs_vand_decode
  simp only [hk, hm, all_allocated, hdm, get_inverse_rows_eq k m hfit, int_add_nat k m hfit,
    Int.toNat_ofNat, Nat.add_sub_cancel_left]
  simp [hlen]

theorem decode_writes (desc : isa_l_rs_vand_descriptor) (k m : Nat) (hk : desc.k = k)
    (hm : desc.m = m) (hfit : k + m < 2 ^ 31) (f : Frags) (idxs : List Int) (len : Nat)
    (hbulk : BulkTransformOk desc)
    (hkc : k ≤ count_below (fun i => !bm_test (convert_list_to_bitmap idxs) i) (k + m))
    (hnum : count_below (bm_test (convert_list_to_bitmap idxs)) (k + m)
      = get_num_missing_elements idxs) :
    ∃ dm f', isa_l_get_decode_matrix k m desc.matrix idxs true = some (some dm) ∧
      isa_l_rs_vand_decode desc f idxs len all_allocated = some (0, f') ∧
      (∀ x, x < k + m → bm_test (convert_list_to_bitmap idxs) x = true →
        f'.load (frag_ptr k x)
          = bulk_multiply_accumulate desc.gf_mul len k
              (fill_inverse_rows k m (desc.gf_invert_matrix dm k).2 desc.matrix
                idxs desc.gf_mul)
              (load_inputs f
                (collect_available k (k + m) (convert_list_to_bitmap idxs)))
              (count_below (bm_test (convert_list_to_bitmap idxs)) x)) ∧
      (∀ x, bm_test (convert_list_to_bitmap idxs) x = false →
        f'.load (frag_ptr k x) = f.load (frag_ptr k x)) := by
  obtain ⟨dm, hdm, _⟩ := get_decode_matrix_some k m hfit desc.matrix idxs hkc
  refine ⟨dm, _, hdm,
    decode_eq desc k m hk hm hfit f idxs len dm hdm (by rw [decoded_length, hnum]), ?_, ?_⟩
  · intro x hx hm
    rw [store_outputs_load _ _ _ (decoded_nodup _ _ _) _ _ (decoded_index _ _ _ x hx hm)]
    have := hbulk len k (get_num_missing_elements idxs)
      (fill_inverse_rows k m (desc.gf_invert_matrix dm k).2 desc.matrix idxs desc.gf_mul)
      (load_inputs f (collect_available k (k + m) (convert_list_to_bitmap idxs)))
      (load_inputs f (collect_decoded k m (convert_list_to_bitmap idxs)))
      (count_below (bm_test (convert_list_to_bitmap idxs)) x)
      (by
        rw [← hnum]
        exact_mod_cast count_below_lt _ hx hm)
    simpa using this
  · intro x hm
    exact store_outputs_frame _ _ _ (decoded_nodup _ _ _) _ (decoded_not_mem _ _ _ x hm)

theorem select_target_none (k bm : Nat) (dest : Int) (t : Nat)
    (h : ∀ i, i < t → bm_test bm i = true → (i : Int) ≠ dest) :
    (List.range t).foldl (select_step k bm dest)
        { reconstruct_buf := none, inverse_row := -1, j := 0, stopped := false }
      = { reconstruct_buf := none, inverse_row := -1, j := count_below (bm_test bm) t,
          stopped := false } := by
  induction t with
  | zero => rfl
  | succ t ih =>
    rw [List.range_succ, List.foldl_append, ih (fun i hi => h i (by omega))]
    simp only [List.foldl_cons, List.foldl_nil, select_step]
    rw [count_below_succ]
    by_cases hm : bm_test bm t = true
    · have hne := h t (by omega) hm
      simp [hm, hne]
    · simp [hm]

theorem select_target_found (k bm x : Nat) (t : Nat) (hx : x < t) (hm : bm_test bm x = true) :
    (List.range t).foldl (select_step k bm (x : Int))
        { reconstruct_buf := none, inverse_row := -1, j := 0, stopped := false }
      = { reconstruct_buf := some (frag_ptr k x),
          inverse_row := (count_below (bm_test bm) x : Int),
          j := count_below (bm_test bm) x, stopped := true } := by
  induction t with
  | zero => omega
  | succ t ih =>
    rw [List.range_succ, List.foldl_append]
    simp only [List.foldl_cons, List.foldl_nil]
    by_cases hxt : x = t
    · subst hxt
      rw [select_target_none k bm (x : Int) x (fun i hi _ => by omega)]
      simp [select_step, hm]
    · rw [ih (by omega)]
      simp [select_step]

theorem reconstruct_eq (desc : isa_l_rs_vand_descriptor) (k m : Nat) (hk : desc.k = k)
    (hm : desc.m = m) (hfit : k + m < 2 ^ 31) (f : Frags) (idxs : List Int)
    (x len : Nat) (dm : Nat → Nat)
    (hdm : isa_l_get_decode_matrix k m desc.matrix idxs true = some (some dm))
    (hx : x < k + m) (hmx : bm_test (convert_list_to_bitmap idxs) x = true) :
    isa_l_rs_vand_reconstruct desc f idxs (x : Int) len all_allocated
      = some (0, f.store (frag_ptr k x)
          (desc.ec_encode_data len k 1
            (desc.ec_init_tables k 1
              (arr_offset
                (fill_inverse_rows k m (desc.gf_invert_matrix dm k).2 desc.matrix
                  idxs desc.gf_mul)
                (count_below (bm_test (convert_list_to_bitmap idxs)) x * k)))
            (load_inputs f
              (collect_available k (k + m) (convert_list_to_bitmap idxs)))
            (fun _ => f.load (frag_ptr k x)) 0)) := by
  unfold isa_l_rs_vand_reconstruct
  simp only [hk, hm, all_allocated, hdm, get_inverse_rows_eq k m hfit, int_add_nat k m hfit,
    Int.toNat_ofNat]
  unfold select_target
  rw [select_target_found k _ x _ hx hmx]
  simp [toNat_mul_nat]

theorem bulk_row_offset (gf_mul : Nat → Nat → Nat) (len k : Nat) (a : Nat → Nat)
    (ins : Nat → List Nat) (r : Nat) :
    bulk_multiply_accumulate gf_mul len k (arr_offset a (r * k)) ins 0
      = bulk_multiply_accumulate gf_mul len k a ins r := by
  unfold bulk_multiply_accumulate arr_offset
  simp

/-! ## Field algebra of the rows -/

theorem gf_mul_zero_right {M : Nat → Nat → Nat} (h : GfMulOk M) (a : Nat) : M a 0 = 0 := by
  have := h.mul_xor a 0 0
  rw [Nat.xor_self] at this
  rw [this, Nat.xor_self]

theorem gf_mul_zero_left {M : Nat → Nat → Nat} (h : GfMulOk M) (x : Nat) : M 0 x = 0 := by
  have := h.xor_mul 0 0 x
  rw [Nat.xor_self] at this
  rw [this, Nat.xor_self]

theorem gf_mul_xor_sum {M : Nat → Nat → Nat} (h : GfMulOk M) (a n : Nat) (f : Nat → Nat) :
    M a (xor_sum n f) = xor_sum n (fun i => M a (f i)) := by
  induction n with
  | zero => simp only [xor_sum_zero]; exact gf_mul_zero_right h a
  | succ n ih => rw [xor_sum_succ, xor_sum_succ, h.mul_xor, ih]

theorem gf_xor_sum_mul {M : Nat → Nat → Nat} (h : GfMulOk M) (n : Nat) (f : Nat → Nat) (v : Nat) :
    M (xor_sum n f) v = xor_sum n (fun i => M (f i) v) := by
  induction n with
  | zero => simp only [xor_sum_zero]; exact gf_mul_zero_left h v
  | succ n ih => rw [xor_sum_succ, xor_sum_succ, h.xor_mul, ih]

theorem xor_sum_pick (n c : Nat) (f : Nat → Nat) (hc : c < n) :
    xor_sum n (fun j => if j = c then f j else 0) = f c := by
  have : xor_sum n (fun j => if j = c then f j else 0)
      = xor_sum n (fun j => if j = c then f c else 0) := by
    apply xor_sum_congr
    intro i _
    by_cases e : i = c
    · subst e; rfl
    · rw [if_neg e, if_neg e]
  rw [this, xor_sum_single n c (f c) hc]

theorem identity_row_apply {M : Nat → Nat → Nat} (h : GfMulOk M) (k x : Nat) (v : Nat → Nat)
    (hx : x < k) (hv : v x < 256) :
    xor_sum k (fun j => M (if x = j then 1 else 0) (v j)) = v x := by
  have : xor_sum k (fun j => M (if x = j then 1 else 0) (v j))
      = xor_sum k (fun j => if j = x then v j else 0) := by
    apply xor_sum_congr
    intro j _
    by_cases e : x = j
    · subst e
      rw [if_pos rfl, if_pos rfl, h.one_mul _ hv]
    · rw [if_neg e, if_neg (fun e2 => e e2.symm), gf_mul_zero_left h]
  rw [this, xor_sum_pick k x v hx]

/-- A row of the left inverse applied to the surviving fragments gives the
data fragment of that row. -/
theorem inverse_row_apply {M : Nat → Nat → Nat} (h : GfMulOk M) (k : Nat)
    (dm inv : Nat → Nat) (v F : Nat → Nat)
    (hinv : ∀ i, i < k → ∀ j, j < k →
      xor_sum k (fun c => M (inv (i * k + c)) (dm (c * k + j))) = if i = j then 1 else 0)
    (hF : ∀ c, c < k → F c = xor_sum k (fun j => M (dm (c * k + j)) (v j)))
    (x : Nat) (hx : x < k) (hv : v x < 256) :
    xor_sum k (fun c => M (inv (x * k + c)) (F c)) = v x := by
  have e1 : xor_sum k (fun c => M (inv (x * k + c)) (F c))
      = xor_sum k (fun c => xor_sum k (fun j => M (M (inv (x * k + c)) (dm (c * k + j))) (v j))) := by
    apply xor_sum_congr
    intro c hc
    rw [hF c hc, gf_mul_xor_sum h]
    apply xor_sum_congr
    intro j _
    rw [h.mul_assoc]
  rw [e1, xor_sum_comm]
  have e2 : xor_sum k (fun j =>
        xor_sum k (fun c => M (M (inv (x * k + c)) (dm (c * k + j))) (v j)))
      = xor_sum k (fun j => M (if x = j then 1 else 0) (v j)) := by
    apply xor_sum_congr
    intro j hj
    rw [← gf_xor_sum_mul h, hinv x hx j hj]
  rw [e2, identity_row_apply h k x v hx hv]

/-- The synthesized row of a missing parity index applied to the surviving
fragments gives the parity formula of the generator row. -/
theorem parity_row_apply {M : Nat → Nat → Nat} (h : GfMulOk M) (k : Nat)
    (G inv : Nat → Nat) (miss : Nat → Bool) (v F : Nat → Nat) (p : Nat)
    (hmiss : ∀ j, j < k → miss j = true → xor_sum k (fun c => M (inv (j * k + c)) (F c)) = v j)
    (havail : ∀ j, j < k → miss j = false → F (count_below (fun i => !miss i) j) = v j) :
    xor_sum k (fun c => M (parity_row_formula k G inv miss M p c) (F c))
      = xor_sum k (fun j => M (G (p * k + j)) (v j)) := by
  unfold parity_row_formula
  have e1 : xor_sum k (fun c => M (xor_sum k (fun j =>
        if miss j then M (G (p * k + j)) (inv (j * k + c))
        else if count_below (fun i => !miss i) j = c then G (p * k + j) else 0)) (F c))
      = xor_sum k (fun c => xor_sum k (fun j => M
        (if miss j then M (G (p * k + j)) (inv (j * k + c))
        else if count_below (fun i => !miss i) j = c then G (p * k + j) else 0) (F c))) := by
    apply xor_sum_congr
    intro c _
    rw [gf_xor_sum_mul h]
  rw [e1, xor_sum_comm]
  apply xor_sum_congr
  intro j hj
  by_cases hm : miss j = true
  · simp only [hm, if_true]
    have e2 : xor_sum k (fun c => M (M (G (p * k + j)) (inv (j * k + c))) (F c))
        = xor_sum k (fun c => M (G (p * k + j)) (M (inv (j * k + c)) (F c))) := by
      apply xor_sum_congr
      intro c _
      rw [h.mul_assoc]
    rw [e2, ← gf_mul_xor_sum h, hmiss j hj hm]
  · have hm2 : miss j = false := by simpa using hm
    simp only [hm2, Bool.false_eq_true, if_false]
    have hra : count_below (fun i => !miss i) j < k :=
      lt_of_le_of_lt (count_below_le _ j) hj
    have e2 : xor_sum k (fun c => M
          (if count_below (fun i => !miss i) j = c then G (p * k + j) else 0) (F c))
        = xor_sum k (fun c => if c = count_below (fun i => !miss i) j
            then M (G (p * k + j)) (F c) else 0) := by
      apply xor_sum_congr
      intro c _
      by_cases e : count_below (fun i => !miss i) j = c
      · rw [if_pos e, if_pos e.symm]
      · rw [if_neg e, if_neg (fun e2 => e e2.symm), gf_mul_zero_left h]
    rw [e2, xor_sum_pick k _ (fun c => M (G (p * k + j)) (F c)) hra, havail j hj hm2]

/-! ## Encode -/

theorem list_eq_map_getD (l : List Nat) (len : Nat) (h : l.length = len) :
    l = (List.range len).map (fun b => l.getD b 0) := by
  apply List.ext_getElem
  · simp [h]
  · intro i h1 h2
    simp [List.getD_eq_getElem?_getD, List.getElem?_eq_getElem h1]

theorem getD_lt_256 (l : List Nat) (h : ∀ b ∈ l, b < 256) (i : Nat) : l.getD i 0 < 256 := by
  rw [List.getD_eq_getElem?_getD]
  by_cases hi : i < l.length
  · rw [List.getElem?_eq_getElem hi]
    exact h _ (List.getElem_mem hi)
  · rw [List.getElem?_eq_none (by omega)]
    simp

theorem map_range_getD (len : Nat) (g : Nat → Nat) (b : Nat) (hb : b < len) :
    ((List.range len).map g).getD b 0 = g b := by
  rw [List.getD_eq_getElem?_getD, List.getElem?_map, List.getElem?_range hb]
  rfl

theorem parity_index (k x i : Nat) (hx : k ≤ x) : k * k + ((x - k) * k + i) = x * k + i := by
  have : (x - k) * k + k * k = x * k := by
    rw [← Nat.add_mul, Nat.sub_add_cancel hx]
  omega

theorem encode_parity_int (desc : isa_l_rs_vand_descriptor) (f : Frags) (len : Int)
    (mem : malloc_results) (hmem : mem.g_tbls = true)
    (hbulk : BulkTransformOk desc) (r : Nat) (hr : (r : Int) < desc.m) :
    (isa_l_rs_vand_encode desc f len mem).2.parity r
      = (List.range len.toNat).map
          (codeword_byte desc.gf_mul desc.k.toNat desc.matrix f.data (desc.k.toNat + r)) := by
  unfold isa_l_rs_vand_encode
  simp only [hmem, Bool.true_eq_false, if_false]
  rw [if_pos hr, hbulk _ _ _ _ _ _ _ hr]
  unfold bulk_multiply_accumulate codeword_byte arr_offset
  apply List.map_congr_left
  intro b _
  apply xor_sum_congr
  intro i hi
  have h0 : 0 ≤ desc.k := by omega
  rw [toNat_mul_self desc.k h0]
  have := parity_index desc.k.toNat (desc.k.toNat + r) i (by omega)
  rw [Nat.add_sub_cancel_left] at this
  rw [this]

theorem encode_parity (desc : isa_l_rs_vand_descriptor) (k m : Nat) (hk : desc.k = k)
    (hm : desc.m = m) (f : Frags) (len : Nat)
    (hbulk : BulkTransformOk desc) (r : Nat) (hr : r < m) :
    (isa_l_rs_vand_encode desc f len all_allocated).2.parity r
      = (List.range len).map
          (codeword_byte desc.gf_mul k desc.matrix f.data (k + r)) := by
  rw [encode_parity_int desc f len all_allocated rfl hbulk r (by rw [hm]; exact_mod_cast hr),
    hk, Int.toNat_ofNat, Int.toNat_ofNat]

theorem encode_data (desc : isa_l_rs_vand_descriptor) (f : Frags) (len : Int)
    (mem : malloc_results) :
    (isa_l_rs_vand_encode desc f len mem).2.data = f.data := by
  unfold isa_l_rs_vand_encode
  simp only
  split <;> rfl

theorem codeword_byte_data {M : Nat → Nat → Nat} (h : GfMulOk M) (k : Nat) (G : Nat → Nat)
    (hsys : SystematicMatrix k G) (d : Nat → List Nat)
    (hbytes : ∀ i, i < k → ∀ b ∈ d i, b < 256) (x b : Nat) (hx : x < k) :
    codeword_byte M k G d x b = (d x).getD b 0 := by
  unfold codeword_byte
  have e : xor_sum k (fun j => M (G (x * k + j)) ((d j).getD b 0))
      = xor_sum k (fun j => M (if x = j then 1 else 0) ((d j).getD b 0)) := by
    apply xor_sum_congr
    intro j hj
    rw [hsys x hx j hj]
  rw [e, identity_row_apply h k x (fun j => (d j).getD b 0) hx
    (getD_lt_256 _ (hbytes x hx) b)]

theorem encoded_load (desc : isa_l_rs_vand_descriptor) (k m : Nat) (hk : desc.k = k)
    (hm : desc.m = m) (f0 : Frags) (len : Nat)
    (hmul : GfMulOk desc.gf_mul) (hbulk : BulkTransformOk desc)
    (hsys : SystematicMatrix k desc.matrix)
    (hlen : ∀ i, i < k → (f0.data i).length = len)
    (hbytes : ∀ i, i < k → ∀ b ∈ f0.data i, b < 256)
    (x : Nat) (hx : x < k + m) :
    (isa_l_rs_vand_encode desc f0 len all_allocated).2.load (frag_ptr k x)
      = (List.range len).map (codeword_byte desc.gf_mul k desc.matrix f0.data x) := by
  unfold frag_ptr
  by_cases hxk : x < k
  · rw [if_pos hxk]
    show (isa_l_rs_vand_encode desc f0 len all_allocated).2.data x = _
    rw [encode_data]
    have e := list_eq_map_getD (f0.data x) len (hlen x hxk)
    conv_lhs => rw [e]
    apply List.map_congr_left
    intro b _
    exact (codeword_byte_data hmul k desc.matrix hsys f0.data hbytes x b hxk).symm
  · rw [if_neg hxk]
    show (isa_l_rs_vand_encode desc f0 len all_allocated).2.parity (x - k) = _
    rw [encode_parity desc k m hk hm f0 len hbulk (x - k) (by omega)]
    have e : k + (x - k) = x := by omega
    rw [e]

/-! ## Round trip (indices below 32) -/

theorem mem_of_bm_test (xs : List Nat) (n : Nat) (hn : n ≤ 32) (hr : ∀ x ∈ xs, x < n)
    (i : Nat) (hi : i < n) :
    bm_test (convert_list_to_bitmap (idx_list xs)) i = true ↔ i ∈ xs := by
  rw [bm_test_idx_list xs (fun x hx => by have := hr x hx; omega) i (by omega)]
  simp

theorem not_mem_of_bm_test (xs : List Nat) (n : Nat) (hn : n ≤ 32) (hr : ∀ x ∈ xs, x < n)
    (i : Nat) (hi : i < n) :
    bm_test (convert_list_to_bitmap (idx_list xs)) i = false ↔ i ∉ xs := by
  rw [bm_test_idx_list xs (fun x hx => by have := hr x hx; omega) i (by omega)]
  simp

theorem enough_available (xs : List Nat) (k m : Nat) (hn : k + m ≤ 32) (hnd : xs.Nodup)
    (hr : ∀ x ∈ xs, x < k + m) (hcount : xs.length ≤ m) :
    k ≤ count_below (fun i => !bm_test (convert_list_to_bitmap (idx_list xs)) i) (k + m) := by
  rw [count_available xs (k + m) hn hnd hr]
  omega

theorem num_missing_matches (xs : List Nat) (n : Nat) (hn : n ≤ 32) (hnd : xs.Nodup)
    (hr : ∀ x ∈ xs, x < n) :
    count_below (bm_test (convert_list_to_bitmap (idx_list xs))) n
      = get_num_missing_elements (idx_list xs) := by
  rw [count_missing xs n hn hnd hr, num_missing_idx_list]

/-- Byte `b` of the `c`-th input of decode's bulk transform is byte `b` of the
codeword fragment of the `c`-th surviving index. -/
theorem survivor_input_byte (desc : isa_l_rs_vand_descriptor) (k m : Nat)
    (hK : desc.k = k) (hM : desc.m = m) (f0 f : Frags) (xs : List Nat)
    (len : Nat) (hn : k + m ≤ 32)
    (hmul : GfMulOk desc.gf_mul) (hbulk : BulkTransformOk desc)
    (hsys : SystematicMatrix k desc.matrix)
    (hnd : xs.Nodup) (hr : ∀ x ∈ xs, x < k + m) (hcount : xs.length ≤ m)
    (hlen : ∀ i, i < k → (f0.data i).length = len)
    (hbytes : ∀ i, i < k → ∀ b ∈ f0.data i, b < 256)
    (hagree : ∀ x, x < k + m → x ∉ xs →
      f.load (frag_ptr k x) = (isa_l_rs_vand_encode desc f0 len all_allocated).2.load (frag_ptr k x))
    (c b : Nat) (hc : c < k) (hb : b < len) :
    (load_inputs f (collect_available k (k + m)
        (convert_list_to_bitmap (idx_list xs))) c).getD b 0
      = codeword_byte desc.gf_mul k desc.matrix f0.data
          (((List.range (k + m)).filter
            (fun i => !bm_test (convert_list_to_bitmap (idx_list xs)) i)).getD c 0) b := by
  have hk := enough_available xs k m hn hnd hr hcount
  obtain ⟨s1, s2, _⟩ := filter_range_nth
    (fun i => !bm_test (convert_list_to_bitmap (idx_list xs)) i) (k + m) c (by omega)
  have s3 : bm_test (convert_list_to_bitmap (idx_list xs))
      (((List.range (k + m)).filter
        (fun i => !bm_test (convert_list_to_bitmap (idx_list xs)) i)).getD c 0) = false := by
    simpa using s2
  rw [load_inputs_available f k (k + m) _ c hc hk,
    hagree _ s1 ((not_mem_of_bm_test xs _ hn hr _ s1).1 s3),
    encoded_load desc k m hK hM f0 len hmul hbulk hsys hlen hbytes _ s1, map_range_getD _ _ _ hb]

theorem decode_restores (desc : isa_l_rs_vand_descriptor) (k m : Nat)
    (hK : desc.k = k) (hM : desc.m = m) (f0 f : Frags) (xs : List Nat)
    (len : Nat) (hn : k + m ≤ 32)
    (hmul : GfMulOk desc.gf_mul) (hbulk : BulkTransformOk desc)
    (hsys : SystematicMatrix k desc.matrix)
    (hinv : ∀ dm, isa_l_get_decode_matrix k m desc.matrix (idx_list xs) true = some (some dm) →
      IsInverseMatrix desc.gf_mul k dm (desc.gf_invert_matrix dm k).2)
    (hnd : xs.Nodup) (hr : ∀ x ∈ xs, x < k + m) (hcount : xs.length ≤ m)
    (hlen : ∀ i, i < k → (f0.data i).length = len)
    (hbytes : ∀ i, i < k → ∀ b ∈ f0.data i, b < 256)
    (hagree : ∀ x, x < k + m → x ∉ xs →
      f.load (frag_ptr k x) = (isa_l_rs_vand_encode desc f0 len all_allocated).2.load (frag_ptr k x)) :
    ∃ f', isa_l_rs_vand_decode desc f (idx_list xs) len all_allocated = some (0, f') ∧
      ∀ x, x < k + m →
        f'.load (frag_ptr k x)
          = (isa_l_rs_vand_encode desc f0 len all_allocated).2.load (frag_ptr k x) := by
  have hk := enough_available xs k m hn hnd hr hcount
  have hnum := num_missing_matches xs (k + m) hn hnd hr
  obtain ⟨dm, hdm, hD⟩ := get_decode_matrix_some k m (by omega) desc.matrix (idx_list xs) hk
  obtain ⟨dm2, f', hdm2, hdec, hw, hframe⟩ := decode_writes desc k m hK hM (by omega) f (idx_list xs) len hbulk hk hnum
  have edm : dm2 = dm := Option.some.inj (Option.some.inj (hdm2.symm.trans hdm))
  subst edm
  obtain ⟨hinvl, _⟩ := hinv dm2 hdm
  obtain ⟨spec1, spec2⟩ := get_inverse_rows_spec k m
    (desc.gf_invert_matrix dm2 k).2 desc.matrix (idx_list xs) desc.gf_mul
  refine ⟨f', hdec, ?_⟩
  intro x hx
  by_cases hmem : x ∈ xs
  · have hm := (mem_of_bm_test xs _ hn hr x hx).2 hmem
    rw [hw x hx hm, encoded_load desc k m hK hM f0 len hmul hbulk hsys hlen hbytes x hx]
    unfold bulk_multiply_accumulate
    apply List.map_congr_left
    intro b hb
    rw [List.mem_range] at hb
    -- the surviving fragments are the decode matrix applied to the data
    have hF : ∀ c, c < k →
        (load_inputs f (collect_available k (k + m)
          (convert_list_to_bitmap (idx_list xs))) c).getD b 0
        = xor_sum k (fun j => desc.gf_mul (dm2 (c * k + j))
            ((f0.data j).getD b 0)) := by
      intro c hc
      rw [survivor_input_byte desc k m hK hM f0 f xs len hn hmul hbulk hsys hnd hr hcount hlen hbytes
        hagree c b hc hb]
      obtain ⟨s1, s2, s3⟩ := filter_range_nth
        (fun i => !bm_test (convert_list_to_bitmap (idx_list xs)) i) (k + m) c
        (by omega)
      unfold codeword_byte
      apply xor_sum_congr
      intro j hj
      have := hD _ s1 (by simpa using s2) (by rw [s3]; exact hc) j hj
      rw [s3, Nat.mul_comm k c, Nat.mul_comm k _] at this
      rw [this]
    have hrow : ∀ j, j < k →
        xor_sum k (fun c => desc.gf_mul ((desc.gf_invert_matrix dm2 k).2 (j * k + c))
          ((load_inputs f (collect_available k (k + m)
            (convert_list_to_bitmap (idx_list xs))) c).getD b 0))
        = (f0.data j).getD b 0 := by
      intro j hj
      exact inverse_row_apply hmul k dm2 _ (fun j => (f0.data j).getD b 0) _ hinvl hF j hj
        (getD_lt_256 _ (hbytes j hj) b)
    by_cases hxk : x < k
    · have e : xor_sum k (fun i => desc.gf_mul
            (fill_inverse_rows k m (desc.gf_invert_matrix dm2 k).2 desc.matrix
              (idx_list xs) desc.gf_mul
              (count_below (bm_test (convert_list_to_bitmap (idx_list xs))) x * k + i))
            ((load_inputs f (collect_available k (k + m)
              (convert_list_to_bitmap (idx_list xs))) i).getD b 0))
          = xor_sum k (fun c => desc.gf_mul
              ((desc.gf_invert_matrix dm2 k).2 (x * k + c))
              ((load_inputs f (collect_available k (k + m)
                (convert_list_to_bitmap (idx_list xs))) c).getD b 0)) := by
        apply xor_sum_congr
        intro c hc
        rw [spec1 x hxk hm c hc]
      rw [e, hrow x hxk, codeword_byte_data hmul k desc.matrix hsys f0.data hbytes x b hxk]
    · have e : xor_sum k (fun i => desc.gf_mul
            (fill_inverse_rows k m (desc.gf_invert_matrix dm2 k).2 desc.matrix
              (idx_list xs) desc.gf_mul
              (count_below (bm_test (convert_list_to_bitmap (idx_list xs))) x * k + i))
            ((load_inputs f (collect_available k (k + m)
              (convert_list_to_bitmap (idx_list xs))) i).getD b 0))
          = xor_sum k (fun c => desc.gf_mul
              (parity_row_formula k desc.matrix (desc.gf_invert_matrix dm2 k).2
                (bm_test (convert_list_to_bitmap (idx_list xs))) desc.gf_mul x c)
              ((load_inputs f (collect_available k (k + m)
                (convert_list_to_bitmap (idx_list xs))) c).getD b 0)) := by
        apply xor_sum_congr
        intro c hc
        rw [spec2 x (by omega) hx hm c hc]
      rw [e, parity_row_apply hmul k desc.matrix _ _ (fun j => (f0.data j).getD b 0) _ x
        (fun j hj _ => hrow j hj)]
      · rfl
      · intro j hj hjm
        have hra : count_below (fun i => !bm_test (convert_list_to_bitmap (idx_list xs)) i) j
            < k := lt_of_le_of_lt (count_below_le _ j) hj
        rw [survivor_input_byte desc k m hK hM f0 f xs len hn hmul hbulk hsys hnd hr hcount hlen hbytes
          hagree _ b hra hb]
        have hidx := filter_range_index
          (fun i => !bm_test (convert_list_to_bitmap (idx_list xs)) i) (k + m) j
          (by omega) (by simp [hjm])
        rw [List.getD_eq_getElem?_getD, hidx]
        exact codeword_byte_data hmul k desc.matrix hsys f0.data hbytes j b hj
  · have hm := (not_mem_of_bm_test xs _ hn hr x hx).2 hmem
    rw [hframe x hm, hagree x hx hmem]

/-! ## The reference multiplication is a field multiplication -/

set_option maxRecDepth 100000 in
theorem gf_exp_log : ∀ i, i < 255 →
    gf_exp_tbl.getD i 0 ≠ 0 ∧ gf_exp_tbl.getD i 0 < 256 ∧
      gf_log_tbl.getD (gf_exp_tbl.getD i 0) 0 = i := by
  decide!

set_option maxRecDepth 100000 in
theorem gf_log_exp : ∀ a, a < 256 → a ≠ 0 →
    gf_log_tbl.getD a 0 < 255 ∧ gf_exp_tbl.getD (gf_log_tbl.getD a 0) 0 = a := by
  decide!

set_option maxRecDepth 100000 in
theorem gf_mul_two : ∀ x, x < 256 → gf256_mul 2 x = gf_xtime x := by
  decide!

set_option maxRecDepth 100000 in
theorem gf_exp_succ : ∀ i, i < 254 →
    gf_exp_tbl.getD (i + 1) 0 = gf256_mul 2 (gf_exp_tbl.getD i 0) := by
  decide!

theorem xor_mod_two_pow (a b n : Nat) : (a ^^^ b) % 2 ^ n = a % 2 ^ n ^^^ b % 2 ^ n := by
  apply Nat.eq_of_testBit_eq
  intro i
  rw [Nat.testBit_mod_two_pow, Nat.testBit_xor, Nat.testBit_xor, Nat.testBit_mod_two_pow,
    Nat.testBit_mod_two_pow]
  by_cases h : i < n <;> simp [h]

theorem xor_shiftLeft (a b n : Nat) : (a ^^^ b) <<< n = a <<< n ^^^ b <<< n := by
  apply Nat.eq_of_testBit_eq
  intro i
  rw [Nat.testBit_shiftLeft, Nat.testBit_xor, Nat.testBit_xor, Nat.testBit_shiftLeft,
    Nat.testBit_shiftLeft]
  by_cases h : i ≥ n <;> simp [h]

theorem xor_shiftRight (a b n : Nat) : (a ^^^ b) >>> n = a >>> n ^^^ b >>> n := by
  apply Nat.eq_of_testBit_eq
  intro i
  rw [Nat.testBit_shiftRight, Nat.testBit_xor, Nat.testBit_xor, Nat.testBit_shiftRight,
    Nat.testBit_shiftRight]

theorem xor_mod_256 (a b : Nat) : (a ^^^ b) % 256 = a % 256 ^^^ b % 256 :=
  xor_mod_two_pow a b 8

theorem xor_lt_256 {a b : Nat} (ha : a < 256) (hb : b < 256) : a ^^^ b < 256 :=
  Nat.xor_lt_two_pow (n := 8) ha hb

theorem top_bit_mul : ∀ p, p < 2 → ∀ q, q < 2 → 29 * (p ^^^ q) = 29 * p ^^^ 29 * q := by
  decide

theorem gf_xtime_xor (u v : Nat) (hu : u < 256) (hv : v < 256) :
    gf_xtime (u ^^^ v) = gf_xtime u ^^^ gf_xtime v := by
  unfold gf_xtime
  have h1 : u >>> 7 < 2 := by rw [Nat.shiftRight_eq_div_pow]; omega
  have h2 : v >>> 7 < 2 := by rw [Nat.shiftRight_eq_div_pow]; omega
  rw [xor_mod_two_pow, xor_shiftLeft, xor_shiftRight, top_bit_mul _ h1 _ h2, xor_swap]

theorem gf256_mul_lt (a b : Nat) : gf256_mul a b < 256 := by
  unfold gf256_mul
  split
  · omega
  · exact (gf_exp_log _ (Nat.mod_lt _ (by omega))).2.1

theorem gf256_mul_mod (a b : Nat) : gf256_mul a b = gf256_mul (a % 256) (b % 256) := by
  unfold gf256_mul
  rw [Nat.mod_mod, Nat.mod_mod]

theorem gf256_mul_comm (a b : Nat) : gf256_mul a b = gf256_mul b a := by
  unfold gf256_mul
  rw [Nat.add_comm]
  by_cases h : a % 256 = 0 ∨ b % 256 = 0
  · rw [if_pos h, if_pos (Or.symm h)]
  · rw [if_neg h, if_neg (fun h2 => h (Or.symm h2))]

theorem gf256_mul_zero (a : Nat) : gf256_mul a 0 = 0 := by
  unfold gf256_mul
  simp

theorem gf256_zero_mul (a : Nat) : gf256_mul 0 a = 0 := by
  unfold gf256_mul
  simp

theorem gf256_one_mul (x : Nat) (hx : x < 256) : gf256_mul 1 x = x := by
  unfold gf256_mul
  rw [Nat.mod_eq_of_lt hx]
  by_cases h : x = 0
  · subst h; simp
  · rw [if_neg (by simp [h])]
    obtain ⟨_, h2⟩ := gf_log_exp x hx h
    have e : gf_log_tbl.getD (1 % 256) 0 = 0 := by decide
    rw [e, Nat.zero_add, Nat.mod_eq_of_lt (gf_log_exp x hx h).1, h2]

/-- The product of two non-zero bytes, by its logarithm. -/
theorem gf256_mul_nonzero (a b : Nat) (ha : a < 256) (hb : b < 256) (ha0 : a ≠ 0) (hb0 : b ≠ 0) :
    gf256_mul a b ≠ 0 ∧
      gf_log_tbl.getD (gf256_mul a b) 0
        = (gf_log_tbl.getD a 0 + gf_log_tbl.getD b 0) % 255 := by
  unfold gf256_mul
  rw [Nat.mod_eq_of_lt ha, Nat.mod_eq_of_lt hb, if_neg (by simp [ha0, hb0])]
  obtain ⟨h1, _, h3⟩ := gf_exp_log ((gf_log_tbl.getD a 0 + gf_log_tbl.getD b 0) % 255)
    (Nat.mod_lt _ (by omega))
  exact ⟨h1, h3⟩

theorem gf256_mul_eq_exp (a b : Nat) (ha : a < 256) (hb : b < 256) (ha0 : a ≠ 0) (hb0 : b ≠ 0) :
    gf256_mul a b
      = gf_exp_tbl.getD ((gf_log_tbl.getD a 0 + gf_log_tbl.getD b 0) % 255) 0 := by
  unfold gf256_mul
  rw [Nat.mod_eq_of_lt ha, Nat.mod_eq_of_lt hb, if_neg (by simp [ha0, hb0])]

theorem gf256_mul_assoc_bytes (a b x : Nat) (ha : a < 256) (hb : b < 256) (hx : x < 256) :
    gf256_mul a (gf256_mul b x) = gf256_mul (gf256_mul a b) x := by
  by_cases ha0 : a = 0
  · subst ha0; rw [gf256_zero_mul, gf256_zero_mul, gf256_zero_mul]
  by_cases hb0 : b = 0
  · subst hb0; rw [gf256_zero_mul, gf256_mul_zero, gf256_zero_mul]
  by_cases hx0 : x = 0
  · subst hx0; rw [gf256_mul_zero, gf256_mul_zero, gf256_mul_zero]
  obtain ⟨n1, l1⟩ := gf256_mul_nonzero b x hb hx hb0 hx0
  obtain ⟨n2, l2⟩ := gf256_mul_nonzero a b ha hb ha0 hb0
  rw [gf256_mul_eq_exp a _ ha (gf256_mul_lt b x) ha0 n1,
    gf256_mul_eq_exp _ x (gf256_mul_lt a b) hx n2 hx0, l1, l2]
  congr 1
  omega

theorem gf256_mul_assoc (a b x : Nat) :
    gf256_mul a (gf256_mul b x) = gf256_mul (gf256_mul a b) x := by
  rw [gf256_mul_mod a (gf256_mul b x), Nat.mod_eq_of_lt (gf256_mul_lt b x), gf256_mul_mod b x,
    gf256_mul_assoc_bytes _ _ _ (Nat.mod_lt _ (by omega)) (Nat.mod_lt _ (by omega))
      (Nat.mod_lt _ (by omega)),
    gf256_mul_mod (gf256_mul a b) x, Nat.mod_eq_of_lt (gf256_mul_lt a b), gf256_mul_mod a b]

theorem gf256_exp_mul_xor (i : Nat) (hi : i < 255) (x y : Nat) (hx : x < 256) (hy : y < 256) :
    gf256_mul (gf_exp_tbl.getD i 0) (x ^^^ y)
      = gf256_mul (gf_exp_tbl.getD i 0) x ^^^ gf256_mul (gf_exp_tbl.getD i 0) y := by
  induction i with
  | zero =>
    have e : gf_exp_tbl.getD 0 0 = 1 := by decide
    rw [e, gf256_one_mul _ (xor_lt_256 hx hy), gf256_one_mul _ hx, gf256_one_mul _ hy]
  | succ i ih =>
    rw [gf_exp_succ i (by omega), ← gf256_mul_assoc, ← gf256_mul_assoc, ← gf256_mul_assoc,
      ih (by omega), gf_mul_two _ (xor_lt_256 (gf256_mul_lt _ _) (gf256_mul_lt _ _)),
      gf_mul_two _ (gf256_mul_lt _ _), gf_mul_two _ (gf256_mul_lt _ _),
      gf_xtime_xor _ _ (gf256_mul_lt _ _) (gf256_mul_lt _ _)]

theorem gf256_mul_xor (a x y : Nat) :
    gf256_mul a (x ^^^ y) = gf256_mul a x ^^^ gf256_mul a y := by
  rw [gf256_mul_mod a (x ^^^ y), gf256_mul_mod a x, gf256_mul_mod a y, xor_mod_256]
  by_cases ha0 : a % 256 = 0
  · rw [ha0, gf256_zero_mul, gf256_zero_mul, gf256_zero_mul]
    rfl
  · obtain ⟨h1, h2⟩ := gf_log_exp (a % 256) (Nat.mod_lt _ (by omega)) ha0
    rw [← h2]
    exact gf256_exp_mul_xor _ h1 _ _ (Nat.mod_lt _ (by omega)) (Nat.mod_lt _ (by omega))

theorem gf256_mul_ok : GfMulOk gf256_mul where
  mul_xor := gf256_mul_xor
  xor_mul := by
    intro a b x
    rw [gf256_mul_comm, gf256_mul_xor, gf256_mul_comm x a, gf256_mul_comm x b]
  mul_assoc := gf256_mul_assoc
  one_mul := gf256_one_mul

/-! ## The reference provider meets the provider hypotheses -/

theorem ref_bulk_ok (k m : Int) (matrix : Nat → Nat) : BulkTransformOk (ref_desc k m matrix) := by
  intro len k' rows a ins outs r hr
  show bulk_multiply_accumulate gf256_mul len.toNat k'.toNat
      (fun x => ((List.range (rows.toNat * k'.toNat)).map a).getD x 0) ins r
    = bulk_multiply_accumulate gf256_mul len.toNat k'.toNat a ins r
  unfold bulk_multiply_accumulate
  apply List.map_congr_left
  intro b _
  apply xor_sum_congr
  intro i hi
  simp only
  rw [map_range_getD _ a _ (row_index_lt (show r < rows.toNat by omega) hi)]

/-! ## The minimum-fragments loop -/

theorem min_fragments_step_nat (k bm : Nat) (s : MinFragState) (i : Nat) :
    min_fragments_step k bm s i
      = if s.stopped then s
        else if (if bm_test bm i = false then s.j + 1 else s.j) = k then
          { fragments_needed :=
              arr_set (if bm_test bm i = false then arr_set s.fragments_needed s.j (i : Int)
                else s.fragments_needed) (if bm_test bm i = false then s.j + 1 else s.j) (-1),
            j := if bm_test bm i = false then s.j + 1 else s.j, ret := 0, stopped := true }
        else if bm_test bm i = false then
          { s with fragments_needed := arr_set s.fragments_needed s.j (i : Int), j := s.j + 1 }
        else s := by
  unfold min_fragments_step
  by_cases hs : s.stopped = true
  · simp [hs]
  · by_cases hm : bm_test bm i = false
    · by_cases hj : s.j + 1 = k
      · have hj2 : (s.j : Int) + 1 = k := by omega
        simp [hs, hm, hj, hj2]
      · have hj2 : ¬ (s.j : Int) + 1 = k := by omega
        simp [hs, hm, hj, hj2]
    · by_cases hj : s.j = k
      · simp [hs, hm, hj]
      · have hj2 : ¬ (s.j : Int) = k := by omega
        simp [hs, hm, hj, hj2]

theorem min_fragments_fold (k bm : Nat) (fn0 : Nat → Int) (hk : 1 ≤ k) (t : Nat) :
    (count_below (fun i => !bm_test bm i) t < k →
      ((List.range t).foldl (min_fragments_step k bm)
        { fragments_needed := fn0, j := 0, ret := -1, stopped := false }).stopped = false ∧
      ((List.range t).foldl (min_fragments_step k bm)
        { fragments_needed := fn0, j := 0, ret := -1, stopped := false }).ret = -1 ∧
      ((List.range t).foldl (min_fragments_step k bm)
        { fragments_needed := fn0, j := 0, ret := -1, stopped := false }).j
          = count_below (fun i => !bm_test bm i) t ∧
      (∀ x, x < t → bm_test bm x = false →
        ((List.range t).foldl (min_fragments_step k bm)
          { fragments_needed := fn0, j := 0, ret := -1, stopped := false }).fragments_needed
            (count_below (fun i => !bm_test bm i) x) = (x : Int)) ∧
      (∀ y, count_below (fun i => !bm_test bm i) t ≤ y →
        ((List.range t).foldl (min_fragments_step k bm)
          { fragments_needed := fn0, j := 0, ret := -1, stopped := false }).fragments_needed y
            = fn0 y)) ∧
    (k ≤ count_below (fun i => !bm_test bm i) t →
      ((List.range t).foldl (min_fragments_step k bm)
        { fragments_needed := fn0, j := 0, ret := -1, stopped := false }).stopped = true ∧
      ((List.range t).foldl (min_fragments_step k bm)
        { fragments_needed := fn0, j := 0, ret := -1, stopped := false }).ret = 0 ∧
      (∀ x, x < t → bm_test bm x = false → count_below (fun i => !bm_test bm i) x < k →
        ((List.range t).foldl (min_fragments_step k bm)
          { fragments_needed := fn0, j := 0, ret := -1, stopped := false }).fragments_needed
            (count_below (fun i => !bm_test bm i) x) = (x : Int)) ∧
      ((List.range t).foldl (min_fragments_step k bm)
        { fragments_needed := fn0, j := 0, ret := -1, stopped := false }).fragments_needed k
          = -1 ∧
      (∀ y, k < y →
        ((List.range t).foldl (min_fragments_step k bm)
          { fragments_needed := fn0, j := 0, ret := -1, stopped := false }).fragments_needed y
            = fn0 y)) := by
  induction t with
  | zero =>
    constructor
    · intro _
      refine ⟨rfl, rfl, rfl, ?_, fun y _ => rfl⟩
      intro x hx
      omega
    · intro h
      rw [count_below_zero] at h
      omega
  | succ t ih =>
    rw [List.range_succ, List.foldl_append]
    simp only [List.foldl_cons, List.foldl_nil]
    obtain ⟨ihA, ihB⟩ := ih
    generalize (List.range t).foldl (min_fragments_step k bm)
      { fragments_needed := fn0, j := 0, ret := -1, stopped := false } = s at ihA ihB
    rw [count_below_succ]
    by_cases hc : count_below (fun i => !bm_test bm i) t < k
    · obtain ⟨a1, a2, a3, a4, a5⟩ := ihA hc
      by_cases hm : bm_test bm t = true
      · -- index t is in the bitmap: nothing is written
        have hstep : min_fragments_step k bm s t = s := by
          rw [min_fragments_step_nat]
          simp [a1, hm, a3]
          omega
        rw [hstep]
        simp only [hm, Bool.not_true, Bool.false_eq_true, if_false, Nat.add_zero]
        constructor
        · intro _
          refine ⟨a1, a2, a3, ?_, a5⟩
          intro x hx hxm
          have hxt : x ≠ t := by
            intro e
            subst e
            rw [hm] at hxm
            exact Bool.noConfusion hxm
          exact a4 x (by omega) hxm
        · intro h
          omega
      · have hm2 : bm_test bm t = false := by simpa using hm
        simp only [hm2, Bool.not_false, if_true]
        by_cases hlast : count_below (fun i => !bm_test bm i) t + 1 = k
        · -- the k-th free index: the sentinel is written and the loop stops
          have hstep : min_fragments_step k bm s t
              = { fragments_needed :=
                    arr_set (arr_set s.fragments_needed s.j (t : Int)) (s.j + 1) (-1),
                  j := s.j + 1, ret := 0, stopped := true } := by
            rw [min_fragments_step_nat]
            simp [a1, hm2, a3, hlast]
          rw [hstep]
          constructor
          · intro h
            omega
          · intro _
            refine ⟨rfl, rfl, ?_, ?_, ?_⟩
            · intro x hx hxm hxr
              simp only [arr_set_apply, a3]
              rw [if_neg (by omega)]
              by_cases hxt : x = t
              · subst hxt
                rw [if_pos rfl]
              · have hlt := count_below_lt (fun i => !bm_test bm i) (show x < t by omega)
                  (by simp [hxm])
                rw [if_neg (by omega)]
                exact a4 x (by omega) hxm
            · simp only [arr_set_apply, a3]
              rw [if_pos (by omega)]
            · intro y hy
              simp only [arr_set_apply, a3]
              rw [if_neg (by omega), if_neg (by omega)]
              exact a5 y (by omega)
        · have hstep : min_fragments_step k bm s t
              = { s with fragments_needed := arr_set s.fragments_needed s.j (t : Int),
                         j := s.j + 1 } := by
            rw [min_fragments_step_nat]
            simp [a1, hm2, a3, hlast]
          rw [hstep]
          constructor
          · intro _
            refine ⟨a1, a2, by simp [a3], ?_, ?_⟩
            · intro x hx hxm
              simp only [arr_set_apply, a3]
              by_cases hxt : x = t
              · subst hxt
                rw [if_pos rfl]
              · have hlt := count_below_lt (fun i => !bm_test bm i) (show x < t by omega)
                  (by simp [hxm])
                rw [if_neg (by omega)]
                exact a4 x (by omega) hxm
            · intro y hy
              simp only [arr_set_apply, a3]
              rw [if_neg (by omega)]
              exact a5 y (by omega)
          · intro h
            omega
    · obtain ⟨b1, b2, b3, b4, b5⟩ := ihB (by omega)
      have hstep : min_fragments_step k bm s t = s := by
        rw [min_fragments_step_nat]
        simp [b1]
      rw [hstep]
      constructor
      · intro h
        omega
      · intro _
        refine ⟨b1, b2, ?_, b4, b5⟩
        intro x hx hxm hxr
        have hxt : x ≠ t := by
          intro e
          subst e
          omega
        exact b3 x (by omega) hxm hxr

/-! ## Further facts used by the claims -/

theorem count_below_all_false (p : Nat → Bool) (t : Nat) (h : ∀ i, i < t → p i = false) :
    count_below p t = 0 := by
  induction t with
  | zero => rfl
  | succ t ih =>
    rw [count_below_succ, ih (fun i hi => h i (by omega)), h t (by omega)]
    rfl

theorem count_below_all_true (p : Nat → Bool) (t : Nat) (h : ∀ i, i < t → p i = true) :
    count_below p t = t := by
  induction t with
  | zero => rfl
  | succ t ih =>
    rw [count_below_succ, ih (fun i hi => h i (by omega)), h t (by omega)]
    rfl

theorem parity_row_all_available (k : Nat) (G inv : Nat → Nat) (miss : Nat → Bool)
    (M : Nat → Nat → Nat) (p c : Nat) (hc : c < k) (h : ∀ j, j < k → miss j = false) :
    parity_row_formula k G inv miss M p c = G (p * k + c) := by
  unfold parity_row_formula
  have e : xor_sum k (fun j =>
        if miss j then M (G (p * k + j)) (inv (j * k + c))
        else if count_below (fun i => !miss i) j = c then G (p * k + j) else 0)
      = xor_sum k (fun j => if j = c then G (p * k + j) else 0) := by
    apply xor_sum_congr
    intro j hj
    rw [h j hj, count_below_all_true _ j (fun i hi => by simp [h i (by omega)])]
    simp
  rw [e, xor_sum_pick k c (fun j => G (p * k + j)) hc]


/-! ## The minimum-fragments loop for any `int` value of `k` -/

theorem min_fragments_loop (k : Int) (bm : Nat) (fn0 : Nat → Int) (t : Nat) :
    (((List.range t).foldl (min_fragments_step k bm)
        { fragments_needed := fn0, j := 0, ret := -1, stopped := false }).stopped = false →
      ((List.range t).foldl (min_fragments_step k bm)
        { fragments_needed := fn0, j := 0, ret := -1, stopped := false }).ret = -1 ∧
      ((List.range t).foldl (min_fragments_step k bm)
        { fragments_needed := fn0, j := 0, ret := -1, stopped := false }).j
          = count_below (fun i => !bm_test bm i) t ∧
      (∀ x, x < t → bm_test bm x = false →
        ((List.range t).foldl (min_fragments_step k bm)
          { fragments_needed := fn0, j := 0, ret := -1, stopped := false }).fragments_needed
            (count_below (fun i => !bm_test bm i) x) = (x : Int)) ∧
      ∀ y, count_below (fun i => !bm_test bm i) t ≤ y →
        ((List.range t).foldl (min_fragments_step k bm)
          { fragments_needed := fn0, j := 0, ret := -1, stopped := false }).fragments_needed y
            = fn0 y) ∧
    (((List.range t).foldl (min_fragments_step k bm)
        { fragments_needed := fn0, j := 0, ret := -1, stopped := false }).stopped = true →
      ((List.range t).foldl (min_fragments_step k bm)
        { fragments_needed := fn0, j := 0, ret := -1, stopped := false }).ret = 0 ∧
      0 ≤ k) := by
  induction t with
  | zero =>
    refine ⟨fun _ => ⟨rfl, rfl, ?_, fun y _ => rfl⟩, ?_⟩
    · intro x hx
      omega
    · intro h
      exact Bool.noConfusion h
  | succ t ih =>
    rw [List.range_succ, List.foldl_append]
    simp only [List.foldl_cons, List.foldl_nil]
    obtain ⟨ihA, ihB⟩ := ih
    generalize (List.range t).foldl (min_fragments_step k bm)
      { fragments_needed := fn0, j := 0, ret := -1, stopped := false } = s at ihA ihB
    rw [count_below_succ]
    cases hs : s.stopped with
    | true =>
      have hstep : min_fragments_step k bm s t = s := by
        unfold min_fragments_step
        simp [hs]
      rw [hstep]
      refine ⟨?_, fun _ => ihB hs⟩
      intro h
      rw [hs] at h
      exact Bool.noConfusion h
    | false =>
      obtain ⟨a2, a3, a4, a5⟩ := ihA hs
      by_cases hm : bm_test bm t = true
      · by_cases hj : (s.j : Int) = k
        · have hstep : min_fragments_step k bm s t
              = { fragments_needed := arr_set s.fragments_needed s.j (-1), j := s.j, ret := 0,
                  stopped := true } := by
            unfold min_fragments_step
            simp [hs, hm, hj]
          rw [hstep]
          refine ⟨?_, fun _ => ⟨rfl, by omega⟩⟩
          intro h
          exact Bool.noConfusion h
        · have hstep : min_fragments_step k bm s t = s := by
            unfold min_fragments_step
            simp [hs, hm, hj]
          rw [hstep]
          refine ⟨fun _ => ⟨a2, by simp [hm, a3], ?_, ?_⟩, ?_⟩
          · intro x hx hxm
            have hxt : x ≠ t := by
              intro e
              subst e
              rw [hm] at hxm
              exact Bool.noConfusion hxm
            exact a4 x (by omega) hxm
          · intro y hy
            exact a5 y (by omega)
          · intro h
            rw [hs] at h
            exact Bool.noConfusion h
      · have hm2 : bm_test bm t = false := by simpa using hm
        by_cases hj : (s.j : Int) + 1 = k
        · have hstep : min_fragments_step k bm s t
              = { fragments_needed :=
                    arr_set (arr_set s.fragments_needed s.j (t : Int)) (s.j + 1) (-1),
                  j := s.j + 1, ret := 0, stopped := true } := by
            unfold min_fragments_step
            simp [hs, hm2, hj]
          rw [hstep]
          refine ⟨?_, fun _ => ⟨rfl, by omega⟩⟩
          intro h
          exact Bool.noConfusion h
        · have hstep : min_fragments_step k bm s t
              = { s with fragments_needed := arr_set s.fragments_needed s.j (t : Int),
                         j := s.j + 1 } := by
            unfold min_fragments_step
            simp [hs, hm2, hj]
          rw [hstep]
          refine ⟨fun _ => ⟨a2, by simp [hm2, a3], ?_, ?_⟩, ?_⟩
          · intro x hx hxm
            simp only [arr_set_apply, a3]
            by_cases hxt : x = t
            · subst hxt
              rw [if_pos rfl]
            · have hlt := count_below_lt (fun i => !bm_test bm i) (show x < t by omega)
                (by simp [hxm])
              rw [if_neg (by omega)]
              exact a4 x (by omega) hxm
          · intro y hy
            simp only [hm2, Bool.not_false, if_true] at hy
            simp only [arr_set_apply]
            rw [if_neg (by omega)]
            exact a5 y (by omega)
          · intro h
            simp only [hs] at h
            exact Bool.noConfusion h

/-- For `k ≥ 1` the loop stops exactly when `k` indices pass the test. -/
theorem min_fragments_stops (k : Int) (hk : 1 ≤ k) (bm : Nat) (fn0 : Nat → Int) (t : Nat) :
    ((List.range t).foldl (min_fragments_step k bm)
        { fragments_needed := fn0, j := 0, ret := -1, stopped := false }).ret = 0
      ↔ k ≤ (count_below (fun i => !bm_test bm i) t : Int) := by
  obtain ⟨k0, rfl⟩ := Int.eq_ofNat_of_zero_le (show 0 ≤ k by omega)
  obtain ⟨hA, hB⟩ := min_fragments_fold k0 bm fn0 (by omega) t
  by_cases hc : count_below (fun i => !bm_test bm i) t < k0
  · constructor
    · intro h
      rw [(hA hc).2.1] at h
      omega
    · intro h
      omega
  · constructor
    · intro _
      omega
    · intro _
      exact (hB (by omega)).2.1

/-! ## Failure and the buffers -/

theorem decode_result (desc : isa_l_rs_vand_descriptor) (f f' : Frags) (idxs : List Int)
    (len : Int) (mem : malloc_results) (r : Int)
    (h : isa_l_rs_vand_decode desc f idxs len mem = some (r, f')) :
    (r = -1 ∧ f' = f) ∨ r = 0 := by
  unfold isa_l_rs_vand_decode at h
  simp only at h
  split at h
  · exact Option.noConfusion h
  · exact Or.inl ⟨((Prod.mk.inj (Option.some.inj h)).1).symm,
      ((Prod.mk.inj (Option.some.inj h)).2).symm⟩
  · split at h
    · exact Or.inl ⟨((Prod.mk.inj (Option.some.inj h)).1).symm,
        ((Prod.mk.inj (Option.some.inj h)).2).symm⟩
    · split at h
      · exact Or.inl ⟨((Prod.mk.inj (Option.some.inj h)).1).symm,
          ((Prod.mk.inj (Option.some.inj h)).2).symm⟩
      · split at h
        · exact Or.inl ⟨((Prod.mk.inj (Option.some.inj h)).1).symm,
            ((Prod.mk.inj (Option.some.inj h)).2).symm⟩
        · split at h
          · exact Or.inl ⟨((Prod.mk.inj (Option.some.inj h)).1).symm,
              ((Prod.mk.inj (Option.some.inj h)).2).symm⟩
          · split at h
            · exact Option.noConfusion h
            · split at h
              · exact Option.noConfusion h
              · exact Or.inr ((Prod.mk.inj (Option.some.inj h)).1).symm

theorem reconstruct_result (desc : isa_l_rs_vand_descriptor) (f f' : Frags) (idxs : List Int)
    (dest : Int) (len : Int) (mem : malloc_results) (r : Int)
    (h : isa_l_rs_vand_reconstruct desc f idxs dest len mem = some (r, f')) :
    (r = -1 ∧ f' = f) ∨ r = 0 := by
  unfold isa_l_rs_vand_reconstruct at h
  simp only at h
  split at h
  · exact Option.noConfusion h
  · exact Or.inl ⟨((Prod.mk.inj (Option.some.inj h)).1).symm,
      ((Prod.mk.inj (Option.some.inj h)).2).symm⟩
  · split at h
    · exact Or.inl ⟨((Prod.mk.inj (Option.some.inj h)).1).symm,
        ((Prod.mk.inj (Option.some.inj h)).2).symm⟩
    · split at h
      · exact Or.inl ⟨((Prod.mk.inj (Option.some.inj h)).1).symm,
          ((Prod.mk.inj (Option.some.inj h)).2).symm⟩
      · split at h
        · exact Or.inl ⟨((Prod.mk.inj (Option.some.inj h)).1).symm,
            ((Prod.mk.inj (Option.some.inj h)).2).symm⟩
        · split at h
          · exact Option.noConfusion h
          · split at h
            · exact Option.noConfusion h
            · exact Or.inr ((Prod.mk.inj (Option.some.inj h)).1).symm

theorem decode_failure_frame (desc : isa_l_rs_vand_descriptor) (f f' : Frags) (idxs : List Int)
    (len : Int) (mem : malloc_results)
    (h : isa_l_rs_vand_decode desc f idxs len mem = some (-1, f')) : f' = f := by
  rcases decode_result desc f f' idxs len mem (-1) h with h1 | h1
  · exact h1.2
  · omega

theorem reconstruct_failure_frame (desc : isa_l_rs_vand_descriptor) (f f' : Frags)
    (idxs : List Int) (dest : Int) (len : Int) (mem : malloc_results)
    (h : isa_l_rs_vand_reconstruct desc f idxs dest len mem = some (-1, f')) : f' = f := by
  rcases reconstruct_result desc f f' idxs dest len mem (-1) h with h1 | h1
  · exact h1.2
  · omega

theorem decode_of_no_matrix (desc : isa_l_rs_vand_descriptor) (f : Frags) (idxs : List Int)
    (len : Int) (mem : malloc_results)
    (h : isa_l_get_decode_matrix desc.k desc.m desc.matrix idxs mem.decode_matrix = some none) :
    isa_l_rs_vand_decode desc f idxs len mem = some (-1, f) := by
  unfold isa_l_rs_vand_decode
  simp only [h]

theorem reconstruct_of_no_matrix (desc : isa_l_rs_vand_descriptor) (f : Frags)
    (idxs : List Int) (dest : Int) (len : Int) (mem : malloc_results)
    (h : isa_l_get_decode_matrix desc.k desc.m desc.matrix idxs mem.decode_matrix = some none) :
    isa_l_rs_vand_reconstruct desc f idxs dest len mem = some (-1, f) := by
  unfold isa_l_rs_vand_reconstruct
  simp only [h]

theorem min_fragments_eq (desc : isa_l_rs_vand_descriptor) (k m : Nat) (hK : desc.k = k)
    (hM : desc.m = m) (hfit : k + m < 2 ^ 31) (idxs excl : List Int) (fn0 : Nat → Int) :
    isa_l_rs_vand_min_fragments desc idxs excl fn0
      = (((List.range (k + m)).foldl
            (min_fragments_step k (convert_list_to_bitmap idxs ||| convert_list_to_bitmap excl))
            { fragments_needed := fn0, j := 0, ret := -1, stopped := false }).ret,
          ((List.range (k + m)).foldl
            (min_fragments_step k (convert_list_to_bitmap idxs ||| convert_list_to_bitmap excl))
            { fragments_needed := fn0, j := 0, ret := -1, stopped := false }).fragments_needed) := by
  unfold isa_l_rs_vand_min_fragments
  simp only [hK, hM, int_add_nat k m hfit]

/-! ## Ranks in the list and ranks by the bitmap test -/

theorem rank_in_eq (xs : List Nat) (n : Nat) (hn : n ≤ 32) (hr : ∀ x ∈ xs, x < n)
    (x : Nat) (hx : x ≤ n) :
    count_below (bm_test (convert_list_to_bitmap (idx_list xs))) x = rank_in xs x := by
  unfold rank_in
  apply count_below_congr
  intro i hi
  exact bm_test_idx_list xs (fun y hy => by have := hr y hy; omega) i (by omega)

theorem rank_out_eq (xs : List Nat) (n : Nat) (hn : n ≤ 32) (hr : ∀ x ∈ xs, x < n)
    (x : Nat) (hx : x ≤ n) :
    count_below (fun i => !bm_test (convert_list_to_bitmap (idx_list xs)) i) x
      = rank_out xs x := by
  unfold rank_out
  apply count_below_congr
  intro i hi
  rw [bm_test_idx_list xs (fun y hy => by have := hr y hy; omega) i (by omega)]
  simp

theorem missing_filter_eq (xs : List Nat) (n : Nat) (hn : n ≤ 32) (hr : ∀ x ∈ xs, x < n) :
    (List.range n).filter (bm_test (convert_list_to_bitmap (idx_list xs)))
      = (List.range n).filter (fun i => decide (i ∈ xs)) := by
  apply List.filter_congr
  intro i hi
  rw [List.mem_range] at hi
  exact bm_test_idx_list xs (fun y hy => by have := hr y hy; omega) i (by omega)

theorem available_filter_eq (xs : List Nat) (n : Nat) (hn : n ≤ 32) (hr : ∀ x ∈ xs, x < n) :
    (List.range n).filter (fun i => !bm_test (convert_list_to_bitmap (idx_list xs)) i)
      = free_indices n xs [] := by
  unfold free_indices
  apply List.filter_congr
  intro i hi
  rw [List.mem_range] at hi
  rw [bm_test_idx_list xs (fun y hy => by have := hr y hy; omega) i (by omega)]
  simp

theorem rank_in_lt_length (xs : List Nat) (n : Nat) (hnd : xs.Nodup) (hr : ∀ x ∈ xs, x < n)
    (x : Nat) (hx : x ∈ xs) : rank_in xs x < xs.length := by
  unfold rank_in
  have h1 := count_below_lt (fun i => decide (i ∈ xs)) (hr x hx) (by simpa using hx)
  rw [count_below_mem xs n hnd hr] at h1
  exact h1

theorem parity_row_formula_congr (k : Nat) (G inv : Nat → Nat) (miss miss2 : Nat → Bool)
    (M : Nat → Nat → Nat) (p c : Nat) (h : ∀ j, j < k → miss j = miss2 j) :
    parity_row_formula k G inv miss M p c = parity_row_formula k G inv miss2 M p c := by
  unfold parity_row_formula
  apply xor_sum_congr
  intro j hj
  rw [h j hj, count_below_congr (p := fun i => !miss i) (q := fun i => !miss2 i)
    (fun i hi => by simp [h i (by omega)])]

theorem get_inverse_rows_rest (k m : Nat) (inv G : Nat → Nat) (idxs : List Int)
    (gf_mul : Nat → Nat → Nat) (y : Nat)
    (hy : count_below (bm_test (convert_list_to_bitmap idxs)) (k + m) * k ≤ y) :
    fill_inverse_rows k m inv G idxs gf_mul y = 0 := by
  obtain ⟨d1, d2, d3⟩ := missing_data_fold k inv (convert_list_to_bitmap idxs) k
  obtain ⟨_, _, _, p4⟩ := missing_parity_fold k G inv (convert_list_to_bitmap idxs) gf_mul
    _ d1 d2 d3 m
  exact p4 y hy

theorem get_decode_matrix_isSome (k m : Nat) (hfit : k + m < 2 ^ 31) (G : Nat → Nat)
    (idxs : List Int) :
    (∃ dm, isa_l_get_decode_matrix k m G idxs true = some (some dm))
      ↔ k ≤ count_below (fun i => !bm_test (convert_list_to_bitmap idxs) i) (k + m) := by
  constructor
  · intro h
    obtain ⟨dm, hdm⟩ := h
    by_contra hc
    rw [get_decode_matrix_none k m hfit G idxs (by omega)] at hdm
    exact Option.noConfusion (Option.some.inj hdm)
  · intro h
    obtain ⟨dm, hdm, _⟩ := get_decode_matrix_some k m hfit G idxs h
    exact ⟨dm, hdm⟩

theorem get_decode_matrix_rows (k m : Nat) (hfit : k + m < 2 ^ 31) (G : Nat → Nat)
    (idxs : List Int) (dm : Nat → Nat)
    (hdm : isa_l_get_decode_matrix k m G idxs true = some (some dm)) (i j : Nat) (hi : i < k)
    (hj : j < k) :
    dm (k * i + j)
      = G (k * ((List.range (k + m)).filter
          (fun x => !bm_test (convert_list_to_bitmap idxs) x)).getD i 0 + j) := by
  have hk := (get_decode_matrix_isSome k m hfit G idxs).1 ⟨dm, hdm⟩
  obtain ⟨dm2, hdm2, hD⟩ := get_decode_matrix_some k m hfit G idxs hk
  have e : dm2 = dm := Option.some.inj (Option.some.inj (hdm2.symm.trans hdm))
  subst e
  obtain ⟨s1, s2, s3⟩ := filter_range_nth
    (fun x => !bm_test (convert_list_to_bitmap idxs) x) (k + m) i (by omega)
  have := hD _ s1 (by simpa using s2) (by rw [s3]; exact hi) j hj
  rw [s3] at this
  exact this

/-! ## Rows against the decode matrix -/

theorem unit_vector_apply {M : Nat → Nat → Nat} (h : GfMulOk M)
    (hone : ∀ a, a < 256 → M a 1 = a) (k : Nat) (g : Nat → Nat) (c : Nat) (hc : c < k)
    (hg : g c < 256) :
    xor_sum k (fun j => M (g j) (if j = c then 1 else 0)) = g c := by
  have e : xor_sum k (fun j => M (g j) (if j = c then 1 else 0))
      = xor_sum k (fun j => if j = c then M (g j) 1 else 0) := by
    apply xor_sum_congr
    intro j _
    by_cases hj : j = c
    · rw [if_pos hj, if_pos hj]
    · rw [if_neg hj, if_neg hj, gf_mul_zero_right h]
  rw [e, xor_sum_pick k c (fun j => M (g j) 1) hc, hone _ hg]

theorem survivor_lt (xs : List Nat) (n c : Nat) (hc : c < (free_indices n xs []).length) :
    (free_indices n xs []).getD c 0 < n := by
  rw [List.getD_eq_getElem?_getD, List.getElem?_eq_getElem hc]
  have hmem : (free_indices n xs [])[c] ∈ free_indices n xs [] := List.getElem_mem hc
  unfold free_indices at hmem
  rw [List.mem_filter, List.mem_range] at hmem
  exact hmem.1

/-- The row that `fill_inverse_rows` leaves for a missing index, applied to
the surviving fragments of a codeword, gives the fragment of that index. -/
theorem synthesized_row_apply (k m : Nat) (G : Nat → Nat) (xs : List Nat)
    (M : Nat → Nat → Nat) (inv dm v : Nat → Nat) (hn : k + m ≤ 32) (hmul : GfMulOk M)
    (hsys : SystematicMatrix k G) (hr : ∀ x ∈ xs, x < k + m)
    (hdm : isa_l_get_decode_matrix k m G (idx_list xs) true = some (some dm))
    (hinv : IsInverseMatrix M k dm inv) (hv : ∀ j, j < k → v j < 256)
    (x : Nat) (hx : x ∈ xs) :
    xor_sum k (fun c => M
        (fill_inverse_rows k m inv G (idx_list xs) M (rank_in xs x * k + c))
        (xor_sum k (fun j => M (G ((free_indices (k + m) xs []).getD c 0 * k + j)) (v j))))
      = xor_sum k (fun j => M (G (x * k + j)) (v j)) := by
  have hf := available_filter_eq xs (k + m) hn hr
  have hm := (mem_of_bm_test xs _ hn hr x (hr x hx)).2 hx
  have hrank := rank_in_eq xs (k + m) hn hr x (le_of_lt (hr x hx))
  obtain ⟨spec1, spec2⟩ := get_inverse_rows_spec k m inv G (idx_list xs) M
  have hident : ∀ j, j < k → xor_sum k (fun j2 => M (G (j * k + j2)) (v j2)) = v j := by
    intro j hj
    have e : xor_sum k (fun j2 => M (G (j * k + j2)) (v j2))
        = xor_sum k (fun j2 => M (if j = j2 then 1 else 0) (v j2)) := by
      apply xor_sum_congr
      intro j2 hj2
      rw [hsys j hj j2 hj2]
    rw [e, identity_row_apply hmul k j v hj (hv j hj)]
  have hF : ∀ c, c < k →
      xor_sum k (fun j => M (G ((free_indices (k + m) xs []).getD c 0 * k + j)) (v j))
        = xor_sum k (fun j => M (dm (c * k + j)) (v j)) := by
    intro c hc
    apply xor_sum_congr
    intro j hj
    have := get_decode_matrix_rows k m (by omega) G (idx_list xs) dm hdm c j hc hj
    rw [hf, Nat.mul_comm k c, Nat.mul_comm k _] at this
    rw [this]
  have hrow : ∀ j, j < k →
      xor_sum k (fun c => M (inv (j * k + c))
        (xor_sum k (fun j2 => M (G ((free_indices (k + m) xs []).getD c 0 * k + j2)) (v j2))))
        = v j := by
    intro j hj
    exact inverse_row_apply hmul k dm inv v _ hinv.1 hF j hj (hv j hj)
  rw [← hrank]
  by_cases hxk : x < k
  · rw [hident x hxk, ← hrow x hxk]
    apply xor_sum_congr
    intro c hc
    rw [spec1 x hxk hm c hc]
  · have e : xor_sum k (fun c => M
          (fill_inverse_rows k m inv G (idx_list xs) M
            (count_below (bm_test (convert_list_to_bitmap (idx_list xs))) x * k + c))
          (xor_sum k (fun j => M (G ((free_indices (k + m) xs []).getD c 0 * k + j)) (v j))))
        = xor_sum k (fun c => M
          (parity_row_formula k G inv (bm_test (convert_list_to_bitmap (idx_list xs))) M x c)
          (xor_sum k (fun j => M (G ((free_indices (k + m) xs []).getD c 0 * k + j))
            (v j)))) := by
      apply xor_sum_congr
      intro c hc
      rw [spec2 x (by omega) (hr x hx) hm c hc]
    rw [e]
    apply parity_row_apply hmul k G inv _ v
      (fun c => xor_sum k (fun j => M (G ((free_indices (k + m) xs []).getD c 0 * k + j)) (v j)))
      x (fun j hj _ => hrow j hj)
    intro j hj hjm
    have hidx := filter_range_index
      (fun i => !bm_test (convert_list_to_bitmap (idx_list xs)) i) (k + m) j
      (by omega) (by simp [hjm])
    rw [hf] at hidx
    have hs : (free_indices (k + m) xs []).getD
        (count_below (fun i => !bm_test (convert_list_to_bitmap (idx_list xs)) i) j) 0 = j := by
      rw [List.getD_eq_getElem?_getD, hidx]
      rfl
    simp only [hs]
    exact hident j hj

/-! ## The minimum-fragments list -/

/-- Round trip where the mask test is exact: for every session with
`0 ≤ k`, `0 ≤ m`, `k + m ≤ 32` in which every allocation succeeds, every block
size, every `k` data buffers of that size and every missing list of at most
`m` distinct indices below `k + m`, decoding the output of encode (the buffers
of the erased fragments holding anything) returns success and leaves every
erased fragment, data or parity, equal to its value after encode. -/
theorem round_trip (desc : isa_l_rs_vand_descriptor) (k m : Nat)
    (hK : desc.k = k) (hM : desc.m = m) (f0 f : Frags) (xs : List Nat)
    (len : Nat) (hn : k + m ≤ 32)
    (hmul : GfMulOk desc.gf_mul) (hbulk : BulkTransformOk desc)
    (hsys : SystematicMatrix k desc.matrix)
    (hinv : ∀ dm,
      isa_l_get_decode_matrix k m desc.matrix (idx_list xs) true = some (some dm) →
      IsInverseMatrix desc.gf_mul k dm (desc.gf_invert_matrix dm k).2)
    (hnd : xs.Nodup) (hr : ∀ x ∈ xs, x < k + m) (hcount : xs.length ≤ m)
    (hlen : ∀ i, i < k → (f0.data i).length = len)
    (hbytes : ∀ i, i < k → ∀ b ∈ f0.data i, b < 256)
    (hagree : ∀ x, x < k + m → x ∉ xs →
      f.load (frag_ptr k x)
        = (isa_l_rs_vand_encode desc f0 len all_allocated).2.load (frag_ptr k x)) :
    ∃ f', isa_l_rs_vand_decode desc f (idx_list xs) len all_allocated = some (0, f') ∧
      ∀ x ∈ xs, f'.load (frag_ptr k x)
        = (isa_l_rs_vand_encode desc f0 len all_allocated).2.load (frag_ptr k x) := by
  obtain ⟨f', h1, h2⟩ := decode_restores desc k m hK hM f0 f xs len hn hmul hbulk hsys hinv
    hnd hr hcount hlen hbytes hagree
  exact ⟨f', h1, fun x hx => h2 x (hr x hx)⟩

set_option maxRecDepth 100000 in
theorem round_trip_witness :
    ∃ f', isa_l_rs_vand_decode (ref_desc 4 2 (ref_gen_rs_matrix 6 4))
        (frags_of [[1, 2], [77, 77], [250, 6], [7, 128]] [[1, 1], [240, 102]])
        (idx_list [1, 4]) 2 all_allocated = some (0, f') ∧
      ∀ x ∈ [1, 4], f'.load (frag_ptr 4 x)
        = (isa_l_rs_vand_encode (ref_desc 4 2 (ref_gen_rs_matrix 6 4))
            (frags_of [[1, 2], [3, 4], [250, 6], [7, 128]] [[0, 0], [9, 9]]) 2
            all_allocated).2.load (frag_ptr 4 x) :=
  round_trip (ref_desc 4 2 (ref_gen_rs_matrix 6 4)) 4 2 rfl rfl
    (frags_of [[1, 2], [3, 4], [250, 6], [7, 128]] [[0, 0], [9, 9]])
    (frags_of [[1, 2], [77, 77], [250, 6], [7, 128]] [[1, 1], [240, 102]])
    [1, 4] 2 (by decide) gf256_mul_ok (ref_bulk_ok _ _ _)
    (by unfold SystematicMatrix; decide!)
    (by
      intro dm h
      cases h
      unfold IsInverseMatrix
      decide!)
    (by decide) (by decide) (by decide) (by decide!) (by decide!) (by decide!)

set_option maxRecDepth 100000 in
/-- C1, the code at a failing input: the valid session `k = 1`, `m = 32` over
the reference provider, every allocation succeeding, block size 1, data
`[5]`, missing list `[32]`. Every hypothesis of the claim holds (the
generator's first row is the identity, `gf_invert_matrix` returns the inverse
of the decode matrix, `gf_mul` is the field multiplication, the bulk transform
is the one of section 4.2, the surviving fragments hold their encoded
contents); decode returns success, and the erased fragment 32 still holds the
erased contents `[9]` instead of the encoded `[5]`. -/
theorem round_trip_fails_at_33 :
    GfMulOk (ref_desc 1 32 (ref_gen_rs_matrix 33 1)).gf_mul ∧
    BulkTransformOk (ref_desc 1 32 (ref_gen_rs_matrix 33 1)) ∧
    SystematicMatrix 1 (ref_gen_rs_matrix 33 1) ∧
    (∀ dm, isa_l_get_decode_matrix 1 32 (ref_gen_rs_matrix 33 1) (idx_list [32]) true
        = some (some dm) →
      IsInverseMatrix gf256_mul 1 dm (ref_invert_matrix dm 1).2) ∧
    (∀ x, x < 33 → x ∉ [32] →
      (frags_of [[5]] (List.replicate 31 [5] ++ [[9]])).load (frag_ptr 1 x)
        = (isa_l_rs_vand_encode (ref_desc 1 32 (ref_gen_rs_matrix 33 1))
            (frags_of [[5]] []) 1 all_allocated).2.load (frag_ptr 1 x)) ∧
    (isa_l_rs_vand_decode (ref_desc 1 32 (ref_gen_rs_matrix 33 1))
        (frags_of [[5]] (List.replicate 31 [5] ++ [[9]])) (idx_list [32]) 1
        all_allocated).map
      (fun r => (r.1, r.2.load (frag_ptr 1 32))) = some (0, [9]) ∧
    (isa_l_rs_vand_encode (ref_desc 1 32 (ref_gen_rs_matrix 33 1))
      (frags_of [[5]] []) 1 all_allocated).2.load (frag_ptr 1 32) = [5] := by
  refine ⟨gf256_mul_ok, ref_bulk_ok _ _ _, by unfold SystematicMatrix; decide!, ?_, by decide!,
    by decide!, by decide!⟩
  intro dm h
  cases h
  unfold IsInverseMatrix
  decide!

/-! ## C2: single-target equivalence -/

/-- Single-target equivalence where the mask test is exact: for every session
with `0 ≤ k`, `0 ≤ m`, `k + m ≤ 32` in which every allocation succeeds, every
missing list of at most `m` distinct indices below `k + m` and every
destination index in that list, reconstruct and decode both return success and
the buffer of the destination fragment holds the same bytes after either call,
given the same session, buffers and missing list. -/
theorem reconstruct_matches_decode (desc : isa_l_rs_vand_descriptor) (k m : Nat)
    (hK : desc.k = k) (hM : desc.m = m) (f : Frags)
    (xs : List Nat) (x len : Nat) (hn : k + m ≤ 32) (hbulk : BulkTransformOk desc)
    (hnd : xs.Nodup) (hr : ∀ y ∈ xs, y < k + m) (hcount : xs.length ≤ m)
    (hx : x ∈ xs) :
    ∃ fd fr, isa_l_rs_vand_decode desc f (idx_list xs) len all_allocated = some (0, fd) ∧
      isa_l_rs_vand_reconstruct desc f (idx_list xs) (x : Int) len all_allocated = some (0, fr) ∧
      fr.load (frag_ptr k x) = fd.load (frag_ptr k x) := by
  have hk := enough_available xs k m hn hnd hr hcount
  have hnum := num_missing_matches xs (k + m) hn hnd hr
  obtain ⟨dm, fd, hdm, hdec, hw, _⟩ := decode_writes desc k m hK hM (by omega) f (idx_list xs) len hbulk hk hnum
  have hm := (mem_of_bm_test xs _ hn hr x (hr x hx)).2 hx
  refine ⟨fd, _, hdec, reconstruct_eq desc k m hK hM (by omega) f (idx_list xs) x len dm hdm (hr x hx) hm, ?_⟩
  rw [load_store, if_pos rfl, hbulk _ _ _ _ _ _ _ (by norm_num), Int.toNat_ofNat,
    Int.toNat_ofNat, bulk_row_offset,
    hw x (hr x hx) hm]

set_option maxRecDepth 100000 in
theorem reconstruct_matches_decode_witness :
    ∃ fd fr, isa_l_rs_vand_decode (ref_desc 4 2 (ref_gen_rs_matrix 6 4))
        (frags_of [[1, 2], [77, 77], [250, 6], [7, 128]] [[1, 1], [240, 102]])
        (idx_list [1, 4]) 2 all_allocated = some (0, fd) ∧
      isa_l_rs_vand_reconstruct (ref_desc 4 2 (ref_gen_rs_matrix 6 4))
        (frags_of [[1, 2], [77, 77], [250, 6], [7, 128]] [[1, 1], [240, 102]])
        (idx_list [1, 4]) ((4 : Nat) : Int) 2 all_allocated = some (0, fr) ∧
      fr.load (frag_ptr 4 4) = fd.load (frag_ptr 4 4) :=
  reconstruct_matches_decode (ref_desc 4 2 (ref_gen_rs_matrix 6 4)) 4 2 rfl rfl
    (frags_of [[1, 2], [77, 77], [250, 6], [7, 128]] [[1, 1], [240, 102]])
    [1, 4] 4 2 (by decide) (ref_bulk_ok _ _ _) (by decide) (by decide) (by decide) (by decide)

set_option maxRecDepth 100000 in
/-- C2, the code at a failing input: the session `k = 1`, `m = 32` over the
reference provider, every allocation succeeding, missing list `[32]`,
destination 32 (a member of the list). Reconstruct selects no output buffer
(it hands the NULL pointer to the bulk transform, a fault), while decode
returns success: reconstruct writes no bytes into the destination buffer that
could equal those of decode. -/
theorem reconstruct_faults_at_33 :
    BulkTransformOk (ref_desc 1 32 (ref_gen_rs_matrix 33 1)) ∧
    (select_target 1 33 (convert_list_to_bitmap (idx_list [32])) 32).reconstruct_buf = none ∧
    (isa_l_rs_vand_reconstruct (ref_desc 1 32 (ref_gen_rs_matrix 33 1))
        (frags_of [[5]] (List.replicate 31 [5] ++ [[9]])) (idx_list [32]) 32 1 all_allocated).isNone = true ∧
    (isa_l_rs_vand_decode (ref_desc 1 32 (ref_gen_rs_matrix 33 1))
        (frags_of [[5]] (List.replicate 31 [5] ++ [[9]])) (idx_list [32]) 1 all_allocated).map
      (fun r => r.1) = some 0 := by
  refine ⟨ref_bulk_ok _ _ _, by decide!, by decide!, by decide!⟩

/-! ## C3: missing parity -/

/-- Missing-parity reconstruction where the mask test is exact: for every
session with `0 ≤ k`, `0 ≤ m`, `k + m ≤ 32` in which every allocation succeeds
and every missing list of distinct parity indices (each in `[k, k+m)`), decode
returns success and leaves in each erased parity buffer exactly the bytes a
fresh encode of the same data buffers produces for that parity fragment. -/
theorem decode_restores_parity (desc : isa_l_rs_vand_descriptor) (k m : Nat)
    (hK : desc.k = k) (hM : desc.m = m) (f : Frags)
    (xs : List Nat) (len : Nat) (hn : k + m ≤ 32) (hbulk : BulkTransformOk desc)
    (hnd : xs.Nodup) (hr : ∀ x ∈ xs, k ≤ x ∧ x < k + m) :
    ∃ f', isa_l_rs_vand_decode desc f (idx_list xs) len all_allocated = some (0, f') ∧
      ∀ x ∈ xs, f'.parity (x - k)
        = (isa_l_rs_vand_encode desc f len all_allocated).2.parity (x - k) := by
  have hr2 : ∀ x ∈ xs, x < k + m := fun x hx => (hr x hx).2
  have hdata : ∀ j, j < k → bm_test (convert_list_to_bitmap (idx_list xs)) j = false := by
    intro j hj
    apply (not_mem_of_bm_test xs _ hn hr2 j (by omega)).2
    intro hmem
    have := (hr j hmem).1
    omega
  have hk : k ≤ count_below
      (fun i => !bm_test (convert_list_to_bitmap (idx_list xs)) i) (k + m) := by
    have h1 := count_below_all_true
      (fun i => !bm_test (convert_list_to_bitmap (idx_list xs)) i) k
      (fun i hi => by simp [hdata i hi])
    have h2 := count_below_mono
      (fun i => !bm_test (convert_list_to_bitmap (idx_list xs)) i)
      (show k ≤ k + m by omega)
    omega
  have hnum := num_missing_matches xs (k + m) hn hnd hr2
  obtain ⟨dm, f', hdm, hdec, hw, _⟩ := decode_writes desc k m hK hM (by omega) f (idx_list xs) len hbulk hk hnum
  obtain ⟨_, spec2⟩ := get_inverse_rows_spec k m
    (desc.gf_invert_matrix dm k).2 desc.matrix (idx_list xs) desc.gf_mul
  refine ⟨f', hdec, ?_⟩
  intro x hx
  obtain ⟨hx1, hx2⟩ := hr x hx
  have hm := (mem_of_bm_test xs _ hn hr2 x hx2).2 hx
  have hptr : frag_ptr k x = BufPtr.parity (x - k) := by
    unfold frag_ptr
    rw [if_neg (by omega)]
  have hload := hw x hx2 hm
  rw [hptr] at hload
  have e : k + (x - k) = x := by omega
  rw [show f'.parity (x - k) = f'.load (BufPtr.parity (x - k)) from rfl, hload,
    encode_parity desc k m hK hM f len hbulk (x - k) (by omega), e]
  unfold bulk_multiply_accumulate codeword_byte
  apply List.map_congr_left
  intro b _
  apply xor_sum_congr
  intro c hc
  rw [spec2 x hx1 hx2 hm c hc,
    parity_row_all_available k desc.matrix _ _ desc.gf_mul x c hc hdata,
    load_inputs_available f k (k + m) _ c hc hk]
  have hidx := filter_range_index
    (fun i => !bm_test (convert_list_to_bitmap (idx_list xs)) i) (k + m) c
    (by omega) (by simp [hdata c hc])
  rw [count_below_all_true _ c (fun i hi => by simp [hdata i (by omega)])] at hidx
  have hs : ((List.range (k + m)).filter
      (fun i => !bm_test (convert_list_to_bitmap (idx_list xs)) i)).getD c 0 = c := by
    rw [List.getD_eq_getElem?_getD, hidx]
    rfl
  rw [hs]
  unfold frag_ptr
  rw [if_pos hc]
  rfl

set_option maxRecDepth 100000 in
theorem decode_restores_parity_witness :
    ∃ f', isa_l_rs_vand_decode (ref_desc 4 2 (ref_gen_rs_matrix 6 4))
        (frags_of [[1, 2], [3, 4], [250, 6], [7, 128]] [[0, 0], [9, 9]])
        (idx_list [5, 4]) 2 all_allocated = some (0, f') ∧
      ∀ x ∈ [5, 4], f'.parity (x - 4)
        = (isa_l_rs_vand_encode (ref_desc 4 2 (ref_gen_rs_matrix 6 4))
            (frags_of [[1, 2], [3, 4], [250, 6], [7, 128]] [[0, 0], [9, 9]]) 2 all_allocated).2.parity
              (x - 4) :=
  decode_restores_parity (ref_desc 4 2 (ref_gen_rs_matrix 6 4)) 4 2 rfl rfl
    (frags_of [[1, 2], [3, 4], [250, 6], [7, 128]] [[0, 0], [9, 9]])
    [5, 4] 2 (by decide) (ref_bulk_ok _ _ _) (by decide) (by decide)

set_option maxRecDepth 100000 in
/-- C3, the code at a failing input: the valid session `k = 2`, `m = 31` over
the reference provider, every allocation succeeding, block size 1, data `[5]`,
`[7]`, missing list `[32]` (the last parity index). The provider hypothesis
holds, the buffers hold the encoded fragments except for the erased one,
decode returns success, and the erased parity buffer 30 still holds its erased
contents `[0]`, not the `[56]` that encode produces. -/
theorem parity_not_restored_at_33 :
    BulkTransformOk (ref_desc 2 31 (ref_gen_rs_matrix 33 2)) ∧
    (isa_l_rs_vand_decode (ref_desc 2 31 (ref_gen_rs_matrix 33 2))
        ((isa_l_rs_vand_encode (ref_desc 2 31 (ref_gen_rs_matrix 33 2))
          (frags_of [[5], [7]] []) 1 all_allocated).2.store (BufPtr.parity 30) [0])
        (idx_list [32]) 1 all_allocated).map
      (fun r => (r.1, r.2.parity 30)) = some (0, [0]) ∧
    (isa_l_rs_vand_encode (ref_desc 2 31 (ref_gen_rs_matrix 33 2))
      (frags_of [[5], [7]] []) 1 all_allocated).2.parity 30 = [56] := by
  refine ⟨ref_bulk_ok _ _ _, by decide!, by decide!⟩

/-! ## C4: insufficiency detection -/

theorem count_union (xs ys : List Nat) (n : Nat) (hn : n ≤ 32) (hx : ∀ x ∈ xs, x < n)
    (hy : ∀ y ∈ ys, y < n) :
    count_below (bm_test (convert_list_to_bitmap (idx_list xs)
        ||| convert_list_to_bitmap (idx_list ys))) n = ((xs ++ ys).dedup).length := by
  have h1 : ∀ z ∈ (xs ++ ys).dedup, z < n := by
    intro z hz
    rw [List.mem_dedup, List.mem_append] at hz
    cases hz with
    | inl h => exact hx z h
    | inr h => exact hy z h
  rw [← count_below_mem ((xs ++ ys).dedup) n (List.nodup_dedup _) h1]
  apply count_below_congr
  intro i hi
  rw [bm_test_union xs ys (fun x h => by have := hx x h; omega)
    (fun y h => by have := hy y h; omega) i (by omega)]
  simp [List.mem_dedup, List.mem_append]

theorem count_free_union (xs ys : List Nat) (n : Nat) (hn : n ≤ 32) (hx : ∀ x ∈ xs, x < n)
    (hy : ∀ y ∈ ys, y < n) :
    count_below (fun i => !bm_test (convert_list_to_bitmap (idx_list xs)
        ||| convert_list_to_bitmap (idx_list ys)) i) n = n - ((xs ++ ys).dedup).length := by
  have h1 := count_below_add_not (bm_test (convert_list_to_bitmap (idx_list xs)
    ||| convert_list_to_bitmap (idx_list ys))) n
  rw [count_union xs ys n hn hx hy] at h1
  omega

/-- Insufficiency detection where the mask test is exact: for every session
with `0 ≤ k`, `0 ≤ m`, `k + m ≤ 32` (every allocation succeeding), decode and
reconstruct (whatever the destination) return -1 for every missing list of more
than `m` distinct indices below `k + m`, and the minimum-fragments calculator
returns -1 whenever the missing and excluded lists (indices below `k + m`)
together hold more than `m` distinct indices. -/
theorem insufficient_fragments_fail (desc : isa_l_rs_vand_descriptor) (k m : Nat)
    (hK : desc.k = k) (hM : desc.m = m)
    (hn : k + m ≤ 32) :
    (∀ (f : Frags) (xs : List Nat) (len : Nat), xs.Nodup →
      (∀ x ∈ xs, x < k + m) → m < xs.length →
        isa_l_rs_vand_decode desc f (idx_list xs) len all_allocated = some (-1, f) ∧
        ∀ dest, isa_l_rs_vand_reconstruct desc f (idx_list xs) dest len all_allocated
          = some (-1, f)) ∧
    (∀ (xs ys : List Nat) (fn0 : Nat → Int),
      (∀ x ∈ xs, x < k + m) → (∀ y ∈ ys, y < k + m) →
      m < ((xs ++ ys).dedup).length →
        (isa_l_rs_vand_min_fragments desc (idx_list xs) (idx_list ys) fn0).1 = -1) := by
  constructor
  · intro f xs len hnd hr hcount
    have hle : xs.length ≤ k + m := by
      rw [← count_below_mem xs _ hnd hr]
      exact count_below_le _ _
    have hnone : isa_l_get_decode_matrix desc.k desc.m desc.matrix (idx_list xs)
        all_allocated.decode_matrix = some none := by
      rw [hK, hM]
      apply get_decode_matrix_none k m (by omega)
      rw [count_available xs _ hn hnd hr]
      omega
    exact ⟨decode_of_no_matrix desc f _ len all_allocated hnone,
      fun dest => reconstruct_of_no_matrix desc f _ dest len all_allocated hnone⟩
  · intro xs ys fn0 hx hy hcount
    have hle : ((xs ++ ys).dedup).length ≤ k + m := by
      rw [← count_union xs ys _ hn hx hy]
      exact count_below_le _ _
    have hk : 1 ≤ k := by omega
    have hfree := count_free_union xs ys (k + m) hn hx hy
    rw [min_fragments_eq desc k m hK hM (by omega)]
    exact ((min_fragments_fold k _ fn0 hk (k + m)).1 (by omega)).2.1

set_option maxRecDepth 100000 in
theorem insufficient_fragments_fail_witness :
    (isa_l_rs_vand_decode (ref_desc 10 4 (ref_gen_rs_matrix 14 10)) (frags_of [] [])
        (idx_list [0, 3, 7, 11, 13]) 1 all_allocated = some (-1, frags_of [] []) ∧
      ∀ dest, isa_l_rs_vand_reconstruct (ref_desc 10 4 (ref_gen_rs_matrix 14 10))
        (frags_of [] []) (idx_list [0, 3, 7, 11, 13]) dest 1 all_allocated
          = some (-1, frags_of [] [])) ∧
    (isa_l_rs_vand_min_fragments (ref_desc 10 4 (ref_gen_rs_matrix 14 10))
        (idx_list [0, 3, 7]) (idx_list [7, 11, 13]) (fun _ => 0)).1 = -1 :=
  ⟨(insufficient_fragments_fail (ref_desc 10 4 (ref_gen_rs_matrix 14 10)) 10 4 rfl rfl
      (by decide)).1
      (frags_of [] []) [0, 3, 7, 11, 13] 1 (by decide) (by decide) (by decide),
    (insufficient_fragments_fail (ref_desc 10 4 (ref_gen_rs_matrix 14 10)) 10 4 rfl rfl
      (by decide)).2
      [0, 3, 7] [7, 11, 13] (fun _ => 0) (by decide) (by decide) (by decide)⟩

set_option maxRecDepth 100000 in
/-- C4, the code at a failing input: the session `k = 2`, `m = 31` over the
reference provider, every allocation succeeding, with the 32 distinct indices
1..32 missing (more than `m = 31`). The minimum-fragments calculator returns 0
(and lists index 32, which is missing), and decode does not return -1. -/
theorem insufficiency_missed_at_33 :
    (List.range' 1 32).Nodup ∧ (∀ x ∈ List.range' 1 32, x < 2 + 31) ∧
    31 < (List.range' 1 32).length ∧
    ((isa_l_rs_vand_min_fragments (ref_desc 2 31 (ref_gen_rs_matrix 33 2))
        (idx_list (List.range' 1 32)) (idx_list []) (fun _ => 99)).1 = 0 ∧
      (List.range 3).map (isa_l_rs_vand_min_fragments (ref_desc 2 31 (ref_gen_rs_matrix 33 2))
        (idx_list (List.range' 1 32)) (idx_list []) (fun _ => 99)).2 = [0, 32, -1]) ∧
    (isa_l_rs_vand_decode (ref_desc 2 31 (ref_gen_rs_matrix 33 2)) (frags_of [] [])
        (idx_list (List.range' 1 32)) 1 all_allocated).map (fun r => r.1) ≠ some (-1) := by
  refine ⟨by decide, by decide, by decide, ⟨by decide!, by decide!⟩, by decide!⟩

/-! ## C5: minimum fragments -/

theorem free_indices_eq (xs ys : List Nat) (n : Nat) (hn : n ≤ 32) (hx : ∀ x ∈ xs, x < n)
    (hy : ∀ y ∈ ys, y < n) :
    (List.range n).filter (fun i => !bm_test (convert_list_to_bitmap (idx_list xs)
        ||| convert_list_to_bitmap (idx_list ys)) i) = free_indices n xs ys := by
  unfold free_indices
  apply List.filter_congr
  intro i hi
  rw [List.mem_range] at hi
  rw [bm_test_union xs ys (fun x h => by have := hx x h; omega)
    (fun y h => by have := hy y h; omega) i (by omega)]
  by_cases h1 : i ∈ xs <;> by_cases h2 : i ∈ ys <;> simp [h1, h2]

theorem count_below_not_mem (S : List Nat) (n : Nat) (hnd : S.Nodup) (hr : ∀ x ∈ S, x < n) :
    count_below (fun i => decide (i ∉ S)) n = n - S.length := by
  have h1 : count_below (fun i => decide (i ∈ S)) n
      + count_below (fun i => !decide (i ∈ S)) n = n := count_below_add_not _ n
  rw [count_below_mem S n hnd hr] at h1
  have e : count_below (fun i => !decide (i ∈ S)) n
      = count_below (fun i => decide (i ∉ S)) n :=
    count_below_congr (fun i _ => by simp)
  rw [e] at h1
  omega

theorem decode_succeeds (desc : isa_l_rs_vand_descriptor) (k m : Nat)
    (hK : desc.k = k) (hM : desc.m = m) (f : Frags) (zs : List Nat)
    (len : Nat) (hn : k + m ≤ 32) (hnd : zs.Nodup)
    (hr : ∀ z ∈ zs, z < k + m) (hcount : zs.length ≤ m) :
    ∃ f', isa_l_rs_vand_decode desc f (idx_list zs) len all_allocated = some (0, f') := by
  have hk := enough_available zs k m hn hnd hr hcount
  have hnum := num_missing_matches zs (k + m) hn hnd hr
  obtain ⟨dm, hdm, _⟩ := get_decode_matrix_some k m (by omega) desc.matrix (idx_list zs) hk
  exact ⟨_, decode_eq desc k m hK hM (by omega) f (idx_list zs) len dm hdm
    (by rw [decoded_length, hnum])⟩

/-- Minimum fragments where the mask test is exact: for every session with
`k ≥ 1`, `0 ≤ m`, `k + m ≤ 32` (every allocation succeeding) and every
missing and excluded list of indices below `k + m` that leave at least `k`
indices free, the minimum-fragments calculator returns 0 and writes exactly the
first `k` free indices followed by the sentinel -1; these `k` indices are
strictly ascending, lie below `k + m`, are in neither list, are smaller than
every other free index, and a decode with exactly the other indices marked
missing returns success. -/
theorem min_fragments_exact (desc : isa_l_rs_vand_descriptor) (k m : Nat)
    (hK : desc.k = k) (hM : desc.m = m) (xs ys : List Nat)
    (fn0 : Nat → Int) (f : Frags) (len : Nat) (hk : 1 ≤ k)
    (hn : k + m ≤ 32)
    (hx : ∀ x ∈ xs, x < k + m) (hy : ∀ y ∈ ys, y < k + m)
    (hfree : k ≤ (free_indices (k + m) xs ys).length) :
    (isa_l_rs_vand_min_fragments desc (idx_list xs) (idx_list ys) fn0).1 = 0 ∧
    (List.range k).map (isa_l_rs_vand_min_fragments desc (idx_list xs) (idx_list ys) fn0).2
      = ((free_indices (k + m) xs ys).take k).map Int.ofNat ∧
    (isa_l_rs_vand_min_fragments desc (idx_list xs) (idx_list ys) fn0).2 k = -1 ∧
    ((free_indices (k + m) xs ys).take k).length = k ∧
    ((free_indices (k + m) xs ys).take k).Pairwise (fun a b => a < b) ∧
    (∀ x ∈ (free_indices (k + m) xs ys).take k,
      x < k + m ∧ x ∉ xs ∧ x ∉ ys) ∧
    (∀ y, y < k + m → y ∉ xs → y ∉ ys →
      y ∉ (free_indices (k + m) xs ys).take k →
      ∀ x ∈ (free_indices (k + m) xs ys).take k, x < y) ∧
    ∃ f', isa_l_rs_vand_decode desc f
      (idx_list ((List.range (k + m)).filter
        (fun i => decide (i ∉ (free_indices (k + m) xs ys).take k)))) len all_allocated
        = some (0, f') := by
  rw [min_fragments_eq desc k m hK hM (by omega)]
  have hfe := free_indices_eq xs ys (k + m) hn hx hy
  have hcnt : k ≤ count_below (fun i => !bm_test (convert_list_to_bitmap (idx_list xs)
      ||| convert_list_to_bitmap (idx_list ys)) i) (k + m) := by
    rw [← length_filter_range, hfe]
    exact hfree
  obtain ⟨_, b2, b3, b4, _⟩ := (min_fragments_fold k (convert_list_to_bitmap (idx_list xs)
    ||| convert_list_to_bitmap (idx_list ys)) fn0 hk (k + m)).2 hcnt
  have hpw : (free_indices (k + m) xs ys).Pairwise (fun a b => a < b) :=
    List.Pairwise.filter _ (List.pairwise_lt_range _)
  have hlenS : ((free_indices (k + m) xs ys).take k).length = k := by
    rw [List.length_take]
    omega
  have hmemS : ∀ x ∈ (free_indices (k + m) xs ys).take k,
      x < k + m ∧ x ∉ xs ∧ x ∉ ys := by
    intro x hxS
    have h1 := List.mem_of_mem_take hxS
    unfold free_indices at h1
    rw [List.mem_filter, List.mem_range] at h1
    exact ⟨h1.1, by simpa using h1.2⟩
  refine ⟨b2, ?_, b4, hlenS, List.Pairwise.sublist (List.take_sublist _ _) hpw, hmemS, ?_, ?_⟩
  · apply List.ext_getElem
    · rw [List.length_map, List.length_map, List.length_range, hlenS]
    · intro j h1 h2
      have hj : j < k := by simpa using h1
      obtain ⟨s1, s2, s3⟩ := filter_range_nth
        (fun i => !bm_test (convert_list_to_bitmap (idx_list xs)
          ||| convert_list_to_bitmap (idx_list ys)) i) (k + m) j (by omega)
      have hb := b3 _ s1 (by simpa using s2) (by rw [s3]; exact hj)
      rw [s3, hfe] at hb
      have hjl : j < (free_indices (k + m) xs ys).length := by omega
      rw [List.getD_eq_getElem?_getD, List.getElem?_eq_getElem hjl] at hb
      simp only [List.getElem_map, List.getElem_range, List.getElem_take]
      exact hb
  · intro y hy1 hy2 hy3 hy4 x hxS
    have hyf : y ∈ free_indices (k + m) xs ys := by
      unfold free_indices
      rw [List.mem_filter, List.mem_range]
      exact ⟨hy1, by simp [hy2, hy3]⟩
    rw [← List.take_append_drop k (free_indices (k + m) xs ys)] at hyf hpw
    rw [List.mem_append] at hyf
    cases hyf with
    | inl h => exact absurd h hy4
    | inr h => exact (List.pairwise_append.1 hpw).2.2 x hxS y h
  · apply decode_succeeds desc k m hK hM f _ len hn ((List.nodup_range _).filter _)
    · intro z hz
      rw [List.mem_filter, List.mem_range] at hz
      exact hz.1
    · rw [length_filter_range, count_below_not_mem _ _
        (List.Pairwise.imp (fun h => Nat.ne_of_lt h)
          (List.Pairwise.sublist (List.take_sublist _ _) hpw)) (fun x h => (hmemS x h).1), hlenS]
      omega

set_option maxRecDepth 100000 in
theorem min_fragments_exact_witness :
    (isa_l_rs_vand_min_fragments (ref_desc 4 2 (ref_gen_rs_matrix 6 4))
      (idx_list [1]) (idx_list [3]) (fun _ => 99)).1 = 0 ∧
    (List.range 5).map (isa_l_rs_vand_min_fragments (ref_desc 4 2 (ref_gen_rs_matrix 6 4))
      (idx_list [1]) (idx_list [3]) (fun _ => 99)).2 = [0, 2, 4, 5, -1] :=
  have h := min_fragments_exact (ref_desc 4 2 (ref_gen_rs_matrix 6 4)) 4 2 rfl rfl [1] [3] (fun _ => 99)
    (frags_of [] []) 1 (by decide) (by decide) (by decide) (by decide) (by decide)
  ⟨h.1, by decide!⟩

set_option maxRecDepth 100000 in
/-- C5, the code at a failing input: the session `k = 2`, `m = 31` over the
reference provider, missing list `0..29, 32` (indices below `k + m`), nothing
excluded. The two indices 30 and 31 are free, so at least `k` indices are
free, yet the minimum-fragments calculator returns -1. -/
theorem min_fragments_fails_at_33 :
    (∀ x ∈ List.range 30 ++ [32], x < 2 + 31) ∧
    2 ≤ (free_indices (2 + 31) (List.range 30 ++ [32]) []).length ∧
    (isa_l_rs_vand_min_fragments (ref_desc 2 31 (ref_gen_rs_matrix 33 2))
      (idx_list (List.range 30 ++ [32])) (idx_list []) (fun _ => 99)).1 = -1 := by
  refine ⟨by decide, by decide, by decide!⟩

/-! ## C6: systematic encode -/

/-- C6 (as amended): for every session (whatever the `int` fields `k`, `m`),
block size and buffers, encode leaves every data buffer unchanged; when the
allocation of the tables fails it returns -1 and changes no buffer; when the
allocation succeeds it returns 0 and parity buffer `r` (for `r < m`) holds at
byte `b` the XOR over `j < k` of `gf_mul (generator[k+r][j]) (data[j][b])`,
hence two encodes of the same data in the same session give the same parity
whatever the parity buffers held before. The provider hypothesis is that the
bulk transform is the one of section 4.2. -/
theorem encode_systematic (desc : isa_l_rs_vand_descriptor) (f : Frags) (len : Int)
    (mem : malloc_results) (hbulk : BulkTransformOk desc) :
    (isa_l_rs_vand_encode desc f len mem).2.data = f.data ∧
    (mem.g_tbls = false → isa_l_rs_vand_encode desc f len mem = (-1, f)) ∧
    (mem.g_tbls = true →
      (isa_l_rs_vand_encode desc f len mem).1 = 0 ∧
      (∀ r : Nat, (r : Int) < desc.m → (isa_l_rs_vand_encode desc f len mem).2.parity r
        = (List.range len.toNat).map (fun b => xor_sum desc.k.toNat (fun j =>
            desc.gf_mul (desc.matrix ((desc.k.toNat + r) * desc.k.toNat + j))
              ((f.data j).getD b 0)))) ∧
      (∀ g : Frags, g.data = f.data → ∀ r : Nat, (r : Int) < desc.m →
        (isa_l_rs_vand_encode desc g len mem).2.parity r
          = (isa_l_rs_vand_encode desc f len mem).2.parity r)) := by
  refine ⟨encode_data desc f len mem, ?_, ?_⟩
  · intro h
    unfold isa_l_rs_vand_encode
    simp only [h, if_true]
  · intro h
    refine ⟨?_, ?_, ?_⟩
    · unfold isa_l_rs_vand_encode
      simp only [h, Bool.true_eq_false, if_false]
    · intro r hr
      rw [encode_parity_int desc f len mem h hbulk r hr]
      rfl
    · intro g hg r hr
      rw [encode_parity_int desc f len mem h hbulk r hr,
        encode_parity_int desc g len mem h hbulk r hr, hg]

set_option maxRecDepth 100000 in
theorem encode_systematic_witness :
    (isa_l_rs_vand_encode (ref_desc 4 2 (ref_gen_rs_matrix 6 4))
      (frags_of [[1, 2], [3, 4], [250, 6], [7, 128]] [[0, 0], [9, 9]]) 2
      all_allocated).2.parity 1 = [240, 102] ∧
    (isa_l_rs_vand_encode (ref_desc 4 2 (ref_gen_rs_matrix 6 4))
      (frags_of [[1, 2], [3, 4], [250, 6], [7, 128]] [[0, 0], [9, 9]]) 2
      all_allocated).2.parity 1
      = (List.range (2 : Int).toNat).map (fun b =>
          xor_sum (ref_desc 4 2 (ref_gen_rs_matrix 6 4)).k.toNat (fun j =>
            (ref_desc 4 2 (ref_gen_rs_matrix 6 4)).gf_mul
              ((ref_desc 4 2 (ref_gen_rs_matrix 6 4)).matrix
                (((ref_desc 4 2 (ref_gen_rs_matrix 6 4)).k.toNat + 1)
                  * (ref_desc 4 2 (ref_gen_rs_matrix 6 4)).k.toNat + j))
              (((frags_of [[1, 2], [3, 4], [250, 6], [7, 128]] [[0, 0], [9, 9]]).data j).getD
                b 0))) :=
  ⟨by decide!,
    ((encode_systematic (ref_desc 4 2 (ref_gen_rs_matrix 6 4))
      (frags_of [[1, 2], [3, 4], [250, 6], [7, 128]] [[0, 0], [9, 9]]) 2 all_allocated
      (ref_bulk_ok _ _ _)).2.2 rfl).2.1 1 (by decide)⟩

set_option maxRecDepth 100000 in
/-- C6 as stated fails when the allocation of the tables fails: in the session
`k = 4`, `m = 2`, and in the session `k = -2`, `m = 1` that init returns (where
the size requested, `k * m * 32`, is negative), encode returns -1 when
`malloc` returns NULL. -/
theorem encode_fails_without_tables :
    (isa_l_rs_vand_encode (ref_desc 4 2 (ref_gen_rs_matrix 6 4))
      (frags_of [[1, 2], [3, 4], [250, 6], [7, 128]] [[0, 0], [9, 9]]) 2
      { all_allocated with g_tbls := false }).1 = -1 ∧
    (isa_l_rs_vand_init (-2) 1 ref_backend true true).1.map (fun s => (s.k, s.m))
      = some (-2, 1) ∧
    (isa_l_rs_vand_encode (ref_desc (-2) 1 (ref_gen_rs_matrix 0 0))
      (frags_of [] [[9, 9]]) 2 { all_allocated with g_tbls := false }).1 = -1 := by
  refine ⟨by decide!, by decide!, by decide!⟩

/-! ## C7: singular decode matrix -/

set_option maxRecDepth 100000 in
/-- C7, the code at a failing input: `k = 5`, `m = 6`, the generator of
`gf_gen_rs_matrix`, every allocation succeeding, missing list
`0, 1, 4, 6, 7, 9`. The decode matrix (rows 2, 3, 5, 8, 10) is singular and
`gf_invert_matrix` returns -1 for it; decode nevertheless returns 0 and has
overwritten the buffer of data fragment 0 (`[1]` in the codeword) with `[0]`,
and reconstruct of fragment 0 returns 0 as well. -/
theorem singular_matrix_not_reported :
    (isa_l_get_decode_matrix 5 6 (ref_gen_rs_matrix 11 5) (idx_list [0, 1, 4, 6, 7, 9])
        true).map (fun r => r.map (fun dm => (ref_invert_matrix dm 5).1)) = some (some (-1)) ∧
    (isa_l_rs_vand_encode (ref_desc 5 6 (ref_gen_rs_matrix 11 5))
      (frags_of [[1], [2], [3], [4], [5]] []) 1 all_allocated).2.parity 2 = [77] ∧
    (isa_l_rs_vand_decode (ref_desc 5 6 (ref_gen_rs_matrix 11 5))
      (frags_of [[9], [9], [3], [4], [9]] [[1], [9], [9], [231], [9], [27]])
      (idx_list [0, 1, 4, 6, 7, 9]) 1 all_allocated).map (fun r => (r.1, r.2.data 0))
      = some (0, [0]) ∧
    (isa_l_rs_vand_reconstruct (ref_desc 5 6 (ref_gen_rs_matrix 11 5))
      (frags_of [[9], [9], [3], [4], [9]] [[1], [9], [9], [231], [9], [27]])
      (idx_list [0, 1, 4, 6, 7, 9]) 0 1 all_allocated).map (fun r => (r.1, r.2.data 0))
      = some (0, [0]) := by
  refine ⟨by decide!, by decide!, by decide!, by decide!⟩

/-! ## C8: no work on failure -/

/-- C8 (as amended): whenever decode or reconstruct returns -1 (for lack of
fragments or for a failed allocation), no fragment buffer has been modified.
Whenever the minimum-fragments calculator returns -1, it has written into the
leading entries of `fragments_needed`, in ascending order, every index below
`k + m` that its membership test finds in neither list (entry `j` holds the
`j`-th such index); every later entry is as it was before the call; and when
`k ≥ 1` there are fewer than `k` such indices. -/
theorem failure_leaves_buffers (desc : isa_l_rs_vand_descriptor) :
    (∀ (f f' : Frags) (idxs : List Int) (len : Int) (mem : malloc_results),
      isa_l_rs_vand_decode desc f idxs len mem = some (-1, f') → f' = f) ∧
    (∀ (f f' : Frags) (idxs : List Int) (dest : Int) (len : Int) (mem : malloc_results),
      isa_l_rs_vand_reconstruct desc f idxs dest len mem = some (-1, f') → f' = f) ∧
    (∀ (idxs excl : List Int) (fn0 : Nat → Int),
      (isa_l_rs_vand_min_fragments desc idxs excl fn0).1 = -1 →
      (List.range ((List.range (int_add desc.k desc.m).toNat).filter (fun i => !bm_test
          (convert_list_to_bitmap idxs ||| convert_list_to_bitmap excl) i)).length).map
          (isa_l_rs_vand_min_fragments desc idxs excl fn0).2
        = ((List.range (int_add desc.k desc.m).toNat).filter (fun i => !bm_test
            (convert_list_to_bitmap idxs ||| convert_list_to_bitmap excl) i)).map Int.ofNat ∧
      (∀ y, ((List.range (int_add desc.k desc.m).toNat).filter (fun i => !bm_test
          (convert_list_to_bitmap idxs ||| convert_list_to_bitmap excl) i)).length ≤ y →
        (isa_l_rs_vand_min_fragments desc idxs excl fn0).2 y = fn0 y) ∧
      (1 ≤ desc.k →
        (((List.range (int_add desc.k desc.m).toNat).filter (fun i => !bm_test
          (convert_list_to_bitmap idxs ||| convert_list_to_bitmap excl) i)).length : Int)
          < desc.k)) := by
  refine ⟨fun f f' idxs len mem h => decode_failure_frame desc f f' idxs len mem h,
    fun f f' idxs dest len mem h => reconstruct_failure_frame desc f f' idxs dest len mem h, ?_⟩
  intro idxs excl fn0 hret
  obtain ⟨hA, hB⟩ := min_fragments_loop desc.k
    (convert_list_to_bitmap idxs ||| convert_list_to_bitmap excl) fn0
    (int_add desc.k desc.m).toNat
  have hstop := min_fragments_stops desc.k
  unfold isa_l_rs_vand_min_fragments at hret ⊢
  simp only at hret ⊢
  rw [length_filter_range]
  cases hs : ((List.range (int_add desc.k desc.m).toNat).foldl (min_fragments_step desc.k
      (convert_list_to_bitmap idxs ||| convert_list_to_bitmap excl))
      { fragments_needed := fn0, j := 0, ret := -1, stopped := false }).stopped with
  | true =>
    rw [(hB hs).1] at hret
    omega
  | false =>
    obtain ⟨_, _, a4, a5⟩ := hA hs
    refine ⟨?_, a5, ?_⟩
    · apply List.ext_getElem
      · rw [List.length_map, List.length_map, List.length_range, length_filter_range]
      · intro j h1 h2
        have hj : j < count_below (fun i => !bm_test
            (convert_list_to_bitmap idxs ||| convert_list_to_bitmap excl) i)
            (int_add desc.k desc.m).toNat := by simpa using h1
        obtain ⟨s1, s2, s3⟩ := filter_range_nth (fun i => !bm_test
          (convert_list_to_bitmap idxs ||| convert_list_to_bitmap excl) i)
          (int_add desc.k desc.m).toNat j hj
        have hb := a4 _ s1 (by simpa using s2)
        rw [s3] at hb
        have hjl : j < ((List.range (int_add desc.k desc.m).toNat).filter (fun i => !bm_test
            (convert_list_to_bitmap idxs ||| convert_list_to_bitmap excl) i)).length := by
          rw [length_filter_range]
          exact hj
        rw [List.getD_eq_getElem?_getD, List.getElem?_eq_getElem hjl] at hb
        simp only [List.getElem_map, List.getElem_range]
        exact hb
    · intro hk1
      by_contra hc
      have := (hstop hk1 (convert_list_to_bitmap idxs ||| convert_list_to_bitmap excl) fn0
        (int_add desc.k desc.m).toNat).2 (by omega)
      rw [this] at hret
      omega

set_option maxRecDepth 100000 in
theorem failure_leaves_buffers_witness :
    (isa_l_rs_vand_min_fragments (ref_desc 4 1 (ref_gen_rs_matrix 5 4))
        (idx_list [0, 2]) (idx_list []) (fun _ => 99)).1 = -1 ∧
    (List.range ((List.range (int_add (ref_desc 4 1 (ref_gen_rs_matrix 5 4)).k
        (ref_desc 4 1 (ref_gen_rs_matrix 5 4)).m).toNat).filter (fun i => !bm_test
          (convert_list_to_bitmap (idx_list [0, 2]) ||| convert_list_to_bitmap (idx_list []))
          i)).length).map
        (isa_l_rs_vand_min_fragments (ref_desc 4 1 (ref_gen_rs_matrix 5 4))
          (idx_list [0, 2]) (idx_list []) (fun _ => 99)).2
      = ((List.range (int_add (ref_desc 4 1 (ref_gen_rs_matrix 5 4)).k
        (ref_desc 4 1 (ref_gen_rs_matrix 5 4)).m).toNat).filter (fun i => !bm_test
          (convert_list_to_bitmap (idx_list [0, 2]) ||| convert_list_to_bitmap (idx_list []))
          i)).map Int.ofNat ∧
    (List.range 4).map
        (isa_l_rs_vand_min_fragments (ref_desc 4 1 (ref_gen_rs_matrix 5 4))
          (idx_list [0, 2]) (idx_list []) (fun _ => 99)).2 = [1, 3, 4, 99] :=
  ⟨by decide!,
    ((failure_leaves_buffers (ref_desc 4 1 (ref_gen_rs_matrix 5 4))).2.2
      (idx_list [0, 2]) (idx_list []) (fun _ => 99) (by decide!)).1,
    by decide!⟩

set_option maxRecDepth 100000 in
/-- C8 as stated fails at `k = 2`, `m = 1`, missing list `[0, 1]`: the
minimum-fragments calculator returns -1 (fewer than `k` usable indices) and
has changed entry 0 of `fragments_needed` from 99 to 2. -/
theorem min_fragments_writes_on_failure :
    (isa_l_rs_vand_min_fragments (ref_desc 2 1 (ref_gen_rs_matrix 3 2))
      (idx_list [0, 1]) (idx_list []) (fun _ => 99)).1 = -1 ∧
    (isa_l_rs_vand_min_fragments (ref_desc 2 1 (ref_gen_rs_matrix 3 2))
      (idx_list [0, 1]) (idx_list []) (fun _ => 99)).2 0 = 2 := by
  refine ⟨by decide!, by decide!⟩

/-! ## C9: reconstruct writes only its target -/

set_option maxRecDepth 100000 in
/-- C9, the code at a failing input: the session `k = 1`, `m = 32` over the
reference provider, every allocation succeeding, missing list `[5, 32]` (two
distinct indices below `k + m`), destination 32 (a member of the list).
Reconstruct finds no output buffer for the destination: it hands the NULL
pointer to the bulk transform (a fault) instead of writing the destination
fragment's buffer. -/
theorem reconstruct_target_lost_at_33 :
    [5, 32].Nodup ∧ (∀ y ∈ [5, 32], y < 1 + 32) ∧ [5, 32].length ≤ 32 ∧
    (select_target 1 33 (convert_list_to_bitmap (idx_list [5, 32])) 32).reconstruct_buf
      = none ∧
    (isa_l_rs_vand_reconstruct (ref_desc 1 32 (ref_gen_rs_matrix 33 1))
        (frags_of [[5]] []) (idx_list [5, 32]) 32 1 all_allocated).isNone = true := by
  refine ⟨by decide, by decide, by decide, by decide!, by decide!⟩

/-! ## C10: empty missing list -/

theorem bm_test_zero (i : Nat) : bm_test 0 i = false := by
  unfold bm_test
  rw [Nat.and_zero]
  rfl

theorem collect_decoded_zero (k m : Nat) : collect_decoded k m 0 = [] := by
  rw [collect_decoded_eq]
  have : (List.range (k + m)).filter (bm_test 0) = [] := by
    rw [List.filter_eq_nil_iff]
    intro a _
    simp [bm_test_zero]
  rw [this]
  rfl

theorem get_decode_matrix_empty (k m : Int) (G : Nat → Nat) :
    (k = 0 ∨ (0 < k ∧ k ≤ int_add k m) →
      ∃ dm, isa_l_get_decode_matrix k m G [-1] true = some (some dm)) ∧
    (¬ (k = 0 ∨ (0 < k ∧ k ≤ int_add k m)) →
      isa_l_get_decode_matrix k m G [-1] true = some none) := by
  have hbm : convert_list_to_bitmap [-1] = 0 := rfl
  have hc : count_below (fun i => !bm_test (convert_list_to_bitmap [-1]) i)
      (int_add k m).toNat = (int_add k m).toNat := by
    rw [hbm, count_below_all_true _ _ (fun i _ => by simp [bm_test_zero])]
  constructor
  · intro h
    rw [get_decode_matrix_eq, hc, if_neg (by simp), if_neg (by simp; omega)]
    exact ⟨_, rfl⟩
  · intro h
    rw [get_decode_matrix_eq, hc, if_neg (by simp), if_pos (by omega)]

/-- C10 (as amended): for every session and the missing list that holds only
the sentinel, whatever the allocations return, decode modifies no data buffer
and no parity buffer. When the five allocations decode checks succeed (this
includes the zero-size block for the output pointer array), decode returns 0
if `k = 0`, or `k ≥ 1` and `k ≤ k + m` (the sum at `int` width, that is
`m ≥ 0`), and returns -1 otherwise. -/
theorem decode_empty_missing (desc : isa_l_rs_vand_descriptor) (f : Frags) (len : Int)
    (mem : malloc_results) :
    (∀ r f', isa_l_rs_vand_decode desc f [-1] len mem = some (r, f') → f' = f) ∧
    (mem.decode_matrix = true → mem.decode_inverse = true → mem.g_tbls = true →
      mem.decoded_elements = true → mem.available_fragments = true →
      (desc.k = 0 ∨ (0 < desc.k ∧ desc.k ≤ int_add desc.k desc.m) →
        isa_l_rs_vand_decode desc f [-1] len mem = some (0, f)) ∧
      (¬ (desc.k = 0 ∨ (0 < desc.k ∧ desc.k ≤ int_add desc.k desc.m)) →
        isa_l_rs_vand_decode desc f [-1] len mem = some (-1, f))) := by
  have hbm : convert_list_to_bitmap [-1] = 0 := rfl
  have hnum : get_num_missing_elements [-1] = 0 := rfl
  constructor
  · intro r f' h
    unfold isa_l_rs_vand_decode at h
    simp only [hbm, hnum, collect_decoded_zero, store_outputs_nil] at h
    split at h
    · exact Option.noConfusion h
    · exact ((Prod.mk.inj (Option.some.inj h)).2).symm
    · split at h
      · exact ((Prod.mk.inj (Option.some.inj h)).2).symm
      · split at h
        · exact ((Prod.mk.inj (Option.some.inj h)).2).symm
        · split at h
          · exact ((Prod.mk.inj (Option.some.inj h)).2).symm
          · split at h
            · exact ((Prod.mk.inj (Option.some.inj h)).2).symm
            · split at h
              · exact Option.noConfusion h
              · split at h
                · exact Option.noConfusion h
                · exact ((Prod.mk.inj (Option.some.inj h)).2).symm
  · intro h1 h2 h3 h4 h5
    obtain ⟨hA, hB⟩ := get_decode_matrix_empty desc.k desc.m desc.matrix
    constructor
    · intro hc
      obtain ⟨dm, hdm⟩ := hA hc
      unfold isa_l_rs_vand_decode
      simp only [h1, h2, h3, h4, h5, hdm, hbm, hnum, collect_decoded_zero, store_outputs_nil]
      simp
    · intro hc
      unfold isa_l_rs_vand_decode
      simp only [h1, hB hc]

set_option maxRecDepth 100000 in
theorem decode_empty_missing_witness :
    isa_l_rs_vand_decode (ref_desc 4 2 (ref_gen_rs_matrix 6 4))
      (frags_of [[1, 2], [3, 4], [250, 6], [7, 128]] [[0, 0], [9, 9]]) [-1] 2 all_allocated
      = some (0, frags_of [[1, 2], [3, 4], [250, 6], [7, 128]] [[0, 0], [9, 9]]) :=
  ((decode_empty_missing (ref_desc 4 2 (ref_gen_rs_matrix 6 4))
    (frags_of [[1, 2], [3, 4], [250, 6], [7, 128]] [[0, 0], [9, 9]]) 2 all_allocated).2
    rfl rfl rfl rfl rfl).1 (by decide!)

set_option maxRecDepth 100000 in
/-- C10 as stated fails in two ways. Init returns a session for `k = -2`,
`m = -3` (and for `k = 2`, `m = -1`), and decode of the list that holds only
the sentinel returns -1 in these sessions. In the session `k = 4`, `m = 2`,
decode of that list returns -1 when the zero-size allocation of the output
pointer array returns NULL. -/
theorem decode_empty_missing_fails :
    ((isa_l_rs_vand_init (-2) (-3) ref_backend true true).1.map (fun s => (s.k, s.m))
        = some (-2, -3) ∧
      (isa_l_rs_vand_decode (ref_desc (-2) (-3) (ref_gen_rs_matrix 0 0))
        (frags_of [] []) [-1] 1 all_allocated).map (fun r => r.1) = some (-1)) ∧
    ((isa_l_rs_vand_init 2 (-1) ref_backend true true).1.map (fun s => (s.k, s.m))
        = some (2, -1) ∧
      (isa_l_rs_vand_decode (ref_desc 2 (-1) (ref_gen_rs_matrix 1 2))
        (frags_of [[1], [2]] []) [-1] 1 all_allocated).map (fun r => r.1) = some (-1)) ∧
    (isa_l_rs_vand_decode (ref_desc 4 2 (ref_gen_rs_matrix 6 4))
      (frags_of [[1, 2], [3, 4], [250, 6], [7, 128]] [[0, 0], [9, 9]]) [-1] 2
      { all_allocated with decoded_elements := false }).map (fun r => r.1) = some (-1) := by
  refine ⟨⟨by decide!, by decide!⟩, ⟨by decide!, by decide!⟩, by decide!⟩

/-! ## C11, C12, C13: session setup -/

/-- C11 (as amended): for every `(k, m)` with `k + m > 256` (the sum fitting
an `int`), init returns no session and calls no provider routine, whatever the
library resolves and whether or not the allocations succeed. -/
theorem init_rejects_over_field_capacity (k m : Int) (backend : backend_sohandle)
    (desc_alloc matrix_alloc : Bool) (hsum : 256 < k + m) (hfit : k + m < 2 ^ 31) :
    isa_l_rs_vand_init k m backend desc_alloc matrix_alloc = (none, []) := by
  unfold isa_l_rs_vand_init
  rw [int_add_exact k m (by omega) hfit]
  by_cases h : desc_alloc = false
  · rw [if_pos h]
  · rw [if_neg h]
    simp only
    rw [if_pos (by simpa [ISA_L_W] using hsum)]

theorem init_rejects_over_field_capacity_witness :
    isa_l_rs_vand_init 200 57 ref_backend true true = (none, []) :=
  init_rejects_over_field_capacity 200 57 ref_backend true true (by decide) (by decide)

set_option maxRecDepth 100000 in
/-- C11 as stated fails at `k = 3`, `m = 0`: `m ≤ 0`, every routine resolves,
the allocations succeed, and init returns a session. -/
theorem init_accepts_zero_parity :
    ((0 : Int) ≤ 0) ∧
    (isa_l_rs_vand_init 3 0 ref_backend true true).1.isSome = true ∧
    (isa_l_rs_vand_init 3 0 ref_backend true true).1.map (fun s => (s.k, s.m)) = some (3, 0) := by
  refine ⟨by decide, by decide!, by decide!⟩

/-- C12 (as amended): the only configuration check of init is against the
field capacity `2^8 = 256`, not against the 64 bits of the bitmap: with every
routine resolved and the allocations succeeding, init returns no session if and
only if `k + m > 256` (the sum fitting an `int`). -/
theorem init_gate_is_field_capacity (k m : Int)
    (enc : Int → Int → Int → List Nat → (Nat → List Nat) → (Nat → List Nat) → (Nat → List Nat))
    (tbl : Int → Int → (Nat → Nat) → List Nat) (gen : Int → Int → (Nat → Nat))
    (inv : (Nat → Nat) → Int → Int × (Nat → Nat)) (mul : Nat → Nat → Nat)
    (hlo : -2 ^ 31 ≤ k + m) (hfit : k + m < 2 ^ 31) :
    (isa_l_rs_vand_init k m
      { ec_encode_data := some enc, ec_init_tables := some tbl, gf_gen_rs_matrix := some gen,
        gf_invert_matrix := some inv, gf_mul := some mul } true true).1.isNone = true
      ↔ 256 < k + m := by
  unfold isa_l_rs_vand_init
  rw [int_add_exact k m hlo hfit]
  by_cases h : 256 < k + m
  · simp [ISA_L_W, h]
  · simp [ISA_L_W, h]

theorem init_gate_is_field_capacity_witness :
    (isa_l_rs_vand_init 200 57
      { ec_encode_data := some (fun len k _ tbl ins _ =>
          bulk_multiply_accumulate gf256_mul len.toNat k.toNat (fun x => tbl.getD x 0) ins),
        ec_init_tables := some (fun k rows a => (List.range (rows.toNat * k.toNat)).map a),
        gf_gen_rs_matrix := some (fun rows k => ref_gen_rs_matrix rows.toNat k.toNat),
        gf_invert_matrix := some (fun mat k => ref_invert_matrix mat k.toNat),
        gf_mul := some gf256_mul } true true).1.isNone = true
      ↔ (256 : Int) < 200 + 57 :=
  init_gate_is_field_capacity 200 57 _ _ _ _ _ (by decide) (by decide)

set_option maxRecDepth 100000 in
/-- C12 as stated fails at `k = 60`, `m = 10`: `k + m = 70 > 64`, every routine
resolves, the allocations succeed, and init returns a session with these `k`
and `m`. -/
theorem init_accepts_over_bitmap_capacity :
    ((64 : Int) < 60 + 10) ∧
    (isa_l_rs_vand_init 60 10 ref_backend true true).1.map (fun s => (s.k, s.m, s.w))
      = some (60, 10, 8) := by
  refine ⟨by decide, by decide!⟩

/-- C13: for every valid `(k, m)` (both positive, `k + m ≤ 256`): if any one
of the five routines is not resolved, init returns no session and calls no
provider routine, whether or not the allocations succeed; if all five resolve
and the allocations succeed, init returns a session that holds `k`, `m`,
`w = 8`, the five routines, and the matrix `gf_gen_rs_matrix (k + m) k`
produced by its one provider call. -/
theorem init_needs_all_routines (k m : Int) (hk : 0 < k) (hm : 0 < m) (hsum : k + m ≤ 256) :
    (∀ (backend : backend_sohandle) (desc_alloc matrix_alloc : Bool),
      (backend.ec_encode_data = none ∨ backend.ec_init_tables = none ∨
        backend.gf_gen_rs_matrix = none ∨ backend.gf_invert_matrix = none ∨
        backend.gf_mul = none) →
      isa_l_rs_vand_init k m backend desc_alloc matrix_alloc = (none, [])) ∧
    (∀ (enc : Int → Int → Int → List Nat → (Nat → List Nat) → (Nat → List Nat) →
          (Nat → List Nat))
      (tbl : Int → Int → (Nat → Nat) → List Nat) (gen : Int → Int → (Nat → Nat))
      (inv : (Nat → Nat) → Int → Int × (Nat → Nat)) (mul : Nat → Nat → Nat),
      ∃ s, isa_l_rs_vand_init k m
          { ec_encode_data := some enc, ec_init_tables := some tbl,
            gf_gen_rs_matrix := some gen, gf_invert_matrix := some inv, gf_mul := some mul }
          true true = (some s, [(k + m, k)]) ∧
        s.k = k ∧ s.m = m ∧ s.w = 8 ∧
        s.matrix = gen (k + m) k ∧
        s.ec_encode_data = enc ∧ s.ec_init_tables = tbl ∧ s.gf_gen_rs_matrix = gen ∧
        s.gf_invert_matrix = inv ∧ s.gf_mul = mul) := by
  have hadd : int_add k m = k + m := int_add_exact k m (by omega) (by omega)
  constructor
  · intro backend a1 a2 hnone
    unfold isa_l_rs_vand_init
    by_cases h1 : a1 = false
    · rw [if_pos h1]
    · rw [if_neg h1]
      simp only
      split
      · rfl
      · cases h2 : backend.ec_encode_data with
        | none => rfl
        | some e =>
          cases h3 : backend.ec_init_tables with
          | none => rfl
          | some t =>
            cases h4 : backend.gf_gen_rs_matrix with
            | none => rfl
            | some g =>
              cases h5 : backend.gf_invert_matrix with
              | none => rfl
              | some i =>
                cases h6 : backend.gf_mul with
                | none => rfl
                | some mu =>
                  rw [h2, h3, h4, h5, h6] at hnone
                  simp at hnone
  · intro enc tbl gen inv mul
    refine ⟨{ ec_init_tables := tbl,
              gf_gen_rs_matrix := gen,
              ec_encode_data := enc,
              gf_invert_matrix := inv,
              gf_mul := mul,
              matrix := gen (k + m) k,
              k := k, m := m, w := ISA_L_W },
      ?_, rfl, rfl, rfl, rfl, rfl, rfl, rfl, rfl, rfl⟩
    unfold isa_l_rs_vand_init
    rw [hadd]
    simp only [Bool.true_eq_false, if_false]
    rw [if_neg (by simp [ISA_L_W]; omega)]

set_option maxRecDepth 100000 in
theorem init_needs_all_routines_witness :
    isa_l_rs_vand_init 4 2
      { ec_encode_data := ref_backend.ec_encode_data, ec_init_tables := none,
        gf_gen_rs_matrix := ref_backend.gf_gen_rs_matrix,
        gf_invert_matrix := ref_backend.gf_invert_matrix, gf_mul := ref_backend.gf_mul }
      true true = (none, []) :=
  (init_needs_all_routines 4 2 (by decide) (by decide) (by decide)).1 _ true true
    (Or.inr (Or.inl rfl))

/-! ## C16: the bitmap test -/

set_option maxRecDepth 100000 in
/-- C16, the code at a failing input: a configuration with `k + m = 33 ≤ 64`
and the list `[32]` of one distinct in-range index. The test `(1 << i) & bm`
is true at `i = 31`, which is not in the list (the `int` value of `1 << 31`
sign-extends over bits 31 to 63), and false at `i = 32`, which is in the list
(the shift is on 32 bits). -/
theorem bitmap_test_wrong_from_31 :
    [32].Nodup ∧ (∀ x ∈ [32], x < 33) ∧ 33 ≤ 64 ∧
    convert_list_to_bitmap (idx_list [32]) = 2 ^ 32 ∧
    (bm_test (convert_list_to_bitmap (idx_list [32])) 31 = true ∧ 31 ∉ [32]) ∧
    (bm_test (convert_list_to_bitmap (idx_list [32])) 32 = false ∧ 32 ∈ [32]) := by
  refine ⟨by decide, by decide, by decide, by decide!, ⟨by decide!, by decide⟩,
    ⟨by decide!, by decide⟩⟩

/-! ## C15: the decode matrix builder -/

/-- The decode matrix builder where the mask test is exact: for every `(k, m)`
with `0 ≤ k`, `0 ≤ m`, `k + m ≤ 32` (the allocation succeeding), every
generator matrix and every missing list of indices below `k + m`, the builder
returns a matrix if and only if at least `k` indices below `k + m` are not in
the missing list; row `i` of the matrix (for `i < k`) is the generator row of
the `i`-th smallest index that is not in the list. -/
theorem decode_matrix_builder (k m : Nat) (G : Nat → Nat) (xs : List Nat)
    (hn : k + m ≤ 32) (hr : ∀ x ∈ xs, x < k + m) :
    ((∃ dm, isa_l_get_decode_matrix k m G (idx_list xs) true = some (some dm))
      ↔ k ≤ (free_indices (k + m) xs []).length) ∧
    (∀ dm, isa_l_get_decode_matrix k m G (idx_list xs) true = some (some dm) →
      ∀ i, i < k → ∀ j, j < k →
        dm (k * i + j) = G (k * (free_indices (k + m) xs []).getD i 0 + j)) := by
  have hf := available_filter_eq xs (k + m) hn hr
  constructor
  · rw [get_decode_matrix_isSome k m (by omega), ← length_filter_range, hf]
  · intro dm hdm i hi j hj
    rw [get_decode_matrix_rows k m (by omega) G (idx_list xs) dm hdm i j hi hj, hf]

set_option maxRecDepth 100000 in
theorem decode_matrix_builder_witness :
    ((∃ dm, isa_l_get_decode_matrix ((4 : Nat) : Int) ((2 : Nat) : Int) (ref_gen_rs_matrix 6 4)
        (idx_list [1, 4]) true = some (some dm))
      ↔ 4 ≤ (free_indices (4 + 2) [1, 4] []).length) ∧
    (∀ dm, isa_l_get_decode_matrix ((4 : Nat) : Int) ((2 : Nat) : Int) (ref_gen_rs_matrix 6 4)
        (idx_list [1, 4]) true = some (some dm) →
      ∀ i, i < 4 → ∀ j, j < 4 →
        dm (4 * i + j)
          = ref_gen_rs_matrix 6 4 (4 * (free_indices (4 + 2) [1, 4] []).getD i 0 + j)) :=
  decode_matrix_builder 4 2 (ref_gen_rs_matrix 6 4) [1, 4] (by decide) (by decide)

set_option maxRecDepth 100000 in
/-- C15, the code at a failing input: `k = 2`, `m = 31`, the allocation
succeeding, missing list `0..29, 32` (indices below `k + m`). The two indices
30 and 31 are not in the list, so at least `k` indices are not missing, yet
the builder returns NULL. -/
theorem decode_matrix_builder_fails_at_33 :
    (∀ x ∈ List.range 30 ++ [32], x < 2 + 31) ∧
    2 ≤ (free_indices (2 + 31) (List.range 30 ++ [32]) []).length ∧
    (isa_l_get_decode_matrix 2 31 (ref_gen_rs_matrix 33 2)
      (idx_list (List.range 30 ++ [32])) true).map Option.isSome = some false := by
  refine ⟨by decide, by decide, by decide!⟩

/-! ## C20: the row index of reconstruct -/

/-- The row index of reconstruct where the mask test is exact: for every
`k`, `m` with `k + m ≤ 32`, every missing list of distinct indices below
`k + m` and every destination index: when the
destination is in the list, the row index reconstruct uses is the rank of the
destination among the missing indices in ascending order (so it lies in
`[0, number of missing indices)`) and the output buffer is the destination
fragment's buffer; when it is not in the list, the row index keeps its initial
value -1 and no output buffer is selected; so the row index is in bounds if
and only if the destination is in the list. -/
theorem reconstruct_row_index (k m : Nat) (xs : List Nat) (hn : k + m ≤ 32)
    (hnd : xs.Nodup) (hr : ∀ x ∈ xs, x < k + m) :
    (∀ x ∈ xs,
      (select_target k (k + m) (convert_list_to_bitmap (idx_list xs)) (x : Int)).inverse_row
          = (rank_in xs x : Int) ∧
        rank_in xs x < xs.length ∧
        (select_target k (k + m) (convert_list_to_bitmap (idx_list xs))
          (x : Int)).reconstruct_buf = some (frag_ptr k x)) ∧
    (∀ dest : Int, (∀ x ∈ xs, (x : Int) ≠ dest) →
      (select_target k (k + m) (convert_list_to_bitmap (idx_list xs)) dest).inverse_row = -1 ∧
        (select_target k (k + m) (convert_list_to_bitmap (idx_list xs)) dest).reconstruct_buf
          = none) ∧
    (∀ dest : Int,
      (0 ≤ (select_target k (k + m) (convert_list_to_bitmap (idx_list xs)) dest).inverse_row ∧
        (select_target k (k + m) (convert_list_to_bitmap (idx_list xs)) dest).inverse_row
          < (xs.length : Int)) ↔ ∃ x ∈ xs, (x : Int) = dest) := by
  have hfound : ∀ x ∈ xs,
      select_target k (k + m) (convert_list_to_bitmap (idx_list xs)) (x : Int)
        = { reconstruct_buf := some (frag_ptr k x), inverse_row := (rank_in xs x : Int),
            j := rank_in xs x, stopped := true } := by
    intro x hx
    unfold select_target
    rw [select_target_found k _ x (k + m) (hr x hx)
      ((mem_of_bm_test xs _ hn hr x (hr x hx)).2 hx),
      rank_in_eq xs (k + m) hn hr x (le_of_lt (hr x hx))]
  have hnone : ∀ dest : Int, (∀ x ∈ xs, (x : Int) ≠ dest) →
      select_target k (k + m) (convert_list_to_bitmap (idx_list xs)) dest
        = { reconstruct_buf := none, inverse_row := -1,
            j := count_below (bm_test (convert_list_to_bitmap (idx_list xs))) (k + m),
            stopped := false } := by
    intro dest hd
    unfold select_target
    apply select_target_none
    intro i hi him
    exact hd i ((mem_of_bm_test xs _ hn hr i hi).1 him)
  refine ⟨?_, ?_, ?_⟩
  · intro x hx
    rw [hfound x hx]
    exact ⟨rfl, rank_in_lt_length xs (k + m) hnd hr x hx, rfl⟩
  · intro dest hd
    rw [hnone dest hd]
    exact ⟨rfl, rfl⟩
  · intro dest
    by_cases hex : ∃ x ∈ xs, (x : Int) = dest
    · obtain ⟨x, hx, e⟩ := hex
      subst e
      rw [hfound x hx]
      have := rank_in_lt_length xs (k + m) hnd hr x hx
      constructor
      · intro _
        exact ⟨x, hx, rfl⟩
      · intro _
        simp only
        omega
    · have hd : ∀ x ∈ xs, (x : Int) ≠ dest := fun x hx e => hex ⟨x, hx, e⟩
      rw [hnone dest hd]
      constructor
      · intro h
        simp only at h
        omega
      · intro h
        exact absurd h hex

set_option maxRecDepth 100000 in
theorem reconstruct_row_index_witness :
    (select_target 4 (4 + 2) (convert_list_to_bitmap (idx_list [1, 4]))
        ((4 : Nat) : Int)).inverse_row = (rank_in [1, 4] 4 : Int) ∧
      rank_in [1, 4] 4 < [1, 4].length ∧
      (select_target 4 (4 + 2) (convert_list_to_bitmap (idx_list [1, 4]))
        ((4 : Nat) : Int)).reconstruct_buf = some (frag_ptr 4 4) :=
  (reconstruct_row_index 4 2 [1, 4] (by decide) (by decide) (by decide)).1 4 (by decide)

set_option maxRecDepth 100000 in
/-- C20, the code at a failing input: `k = 1`, `m = 32`, missing list `[32]`
(one index below `k + m`), destination 32. The destination is in the list, yet
the search loop of reconstruct leaves the row index at its initial value -1
and selects no output buffer, and reconstruct (every allocation succeeding)
hands the NULL pointer to the bulk transform. -/
theorem reconstruct_row_index_lost_at_33 :
    [32].Nodup ∧ (∀ x ∈ [32], x < 1 + 32) ∧ [32].length ≤ 32 ∧ 32 ∈ [32] ∧
    (select_target 1 (1 + 32) (convert_list_to_bitmap (idx_list [32])) 32).inverse_row = -1 ∧
    (select_target 1 (1 + 32) (convert_list_to_bitmap (idx_list [32])) 32).reconstruct_buf
      = none ∧
    (isa_l_rs_vand_reconstruct (ref_desc 1 32 (ref_gen_rs_matrix 33 1))
      (frags_of [[5]] (List.replicate 31 [5] ++ [[9]])) (idx_list [32]) 32 1
      all_allocated).isNone = true := by
  refine ⟨by decide, by decide, by decide, by decide, by decide!, by decide!, by decide!⟩

/-! ## C17: the order of the rows -/

/-- The order of the rows where the mask test is exact: for every `(k, m)`
with `k + m ≤ 32` and every missing list of distinct indices below `k + m`,
the loops of `get_inverse_rows` leave exactly one
row of length `k` per missing index (everything past them stays zero), the
row at position `r` belongs to the `r`-th smallest missing index (data indices
first, then parity indices), the row of a missing data index `i` is a copy of
row `i` of `decode_inverse`, the row of a missing parity index is the one the
parity formula gives, and decode lists its output buffers in that same
order. -/
theorem row_set_order (k m : Nat) (inv G : Nat → Nat) (xs : List Nat)
    (M : Nat → Nat → Nat) (hn : k + m ≤ 32) (hnd : xs.Nodup) (hr : ∀ x ∈ xs, x < k + m) :
    ((List.range (k + m)).filter (fun i => decide (i ∈ xs))).length = xs.length ∧
    (∀ y, xs.length * k ≤ y → fill_inverse_rows k m inv G (idx_list xs) M y = 0) ∧
    (∀ r, r < xs.length →
      ((List.range (k + m)).filter (fun i => decide (i ∈ xs))).getD r 0 ∈ xs ∧
      rank_in xs (((List.range (k + m)).filter (fun i => decide (i ∈ xs))).getD r 0) = r) ∧
    (∀ x ∈ xs,
      ((List.range (k + m)).filter (fun i => decide (i ∈ xs)))[rank_in xs x]? = some x ∧
      (x < k → ∀ c, c < k →
        fill_inverse_rows k m inv G (idx_list xs) M (rank_in xs x * k + c) = inv (x * k + c)) ∧
      (k ≤ x → ∀ c, c < k →
        fill_inverse_rows k m inv G (idx_list xs) M (rank_in xs x * k + c)
          = parity_row_formula k G inv (fun i => decide (i ∈ xs)) M x c)) ∧
    collect_decoded k m (convert_list_to_bitmap (idx_list xs))
      = ((List.range (k + m)).filter (fun i => decide (i ∈ xs))).map (frag_ptr k) := by
  obtain ⟨spec1, spec2⟩ := get_inverse_rows_spec k m inv G (idx_list xs) M
  have hcm := count_below_mem xs (k + m) hnd hr
  refine ⟨?_, ?_, ?_, ?_, ?_⟩
  · rw [length_filter_range, hcm]
  · intro y hy
    apply get_inverse_rows_rest
    rw [count_missing xs (k + m) hn hnd hr]
    exact hy
  · intro r hr2
    obtain ⟨_, s2, s3⟩ := filter_range_nth (fun i => decide (i ∈ xs)) (k + m) r
      (by rw [hcm]; exact hr2)
    exact ⟨by simpa using s2, s3⟩
  · intro x hx
    have hm := (mem_of_bm_test xs _ hn hr x (hr x hx)).2 hx
    have hrank := rank_in_eq xs (k + m) hn hr x (le_of_lt (hr x hx))
    refine ⟨?_, ?_, ?_⟩
    · exact filter_range_index (fun i => decide (i ∈ xs)) (k + m) x (hr x hx) (by simpa using hx)
    · intro hxk c hc
      rw [← hrank, spec1 x hxk hm c hc]
    · intro hxk c hc
      rw [← hrank, spec2 x hxk (hr x hx) hm c hc]
      apply parity_row_formula_congr
      intro j hj
      exact bm_test_idx_list xs (fun y hy => by have := hr y hy; omega) j (by omega)
  · rw [collect_decoded_eq, missing_filter_eq xs (k + m) hn hr]

set_option maxRecDepth 100000 in
theorem row_set_order_witness :
    collect_decoded 4 2 (convert_list_to_bitmap (idx_list [4, 1]))
      = ((List.range (4 + 2)).filter (fun i => decide (i ∈ [4, 1]))).map (frag_ptr 4) :=
  (row_set_order 4 2 (fun _ => 0) (ref_gen_rs_matrix 6 4) [4, 1] gf256_mul
    (by decide) (by decide) (by decide)).2.2.2.2

set_option maxRecDepth 100000 in
/-- C17, the code at a failing input: `k = 2`, `m = 31`, missing list `[32]`
(one index below `k + m`), the allocations succeeding. The one row
`get_inverse_rows` produces is the generator row of index 31, and the one
output buffer decode lists (source lines 288-299) is that of fragment 31, not
that of the missing fragment 32: row 0 is not written to the buffer of the
smallest missing index. -/
theorem row_set_order_fails_at_33 :
    [32].Nodup ∧ (∀ x ∈ [32], x < 2 + 31) ∧
    (get_inverse_rows 2 31 (fun _ => 0) (ref_gen_rs_matrix 33 2) (idx_list [32]) gf256_mul
      true).map (fun rows => [rows 0, rows 1])
      = some [ref_gen_rs_matrix 33 2 (31 * 2), ref_gen_rs_matrix 33 2 (31 * 2 + 1)] ∧
    collect_decoded 2 31 (convert_list_to_bitmap (idx_list [32])) = [frag_ptr 2 31] ∧
    ((List.range (2 + 31)).filter (fun i => decide (i ∈ [32]))).map (frag_ptr 2)
      = [frag_ptr 2 32] ∧
    frag_ptr 2 31 ≠ frag_ptr 2 32 := by
  refine ⟨by decide, by decide, by decide!, by decide!, by decide!, by decide⟩

/-! ## C18: the parity row formula -/

/-- The parity row formula where the mask test is exact: for every `(k, m)`
with `k + m ≤ 32`, every missing list of indices below `k + m` and every
missing parity index `p`, column `c` of the row produced for `p` is the XOR over the data columns `j` of: the
generator coefficient `generator[p][j]` when `j` is available and its rank
among the available data indices is `c`; and
`gf_mul (generator[p][j]) (entry c of the row produced for j)` when `j` is
missing, that row being at position the rank of `j` among the missing
indices. -/
theorem parity_row_formula_holds (k m : Nat) (inv G : Nat → Nat) (xs : List Nat)
    (M : Nat → Nat → Nat) (hn : k + m ≤ 32) (hr : ∀ x ∈ xs, x < k + m)
    (p : Nat) (hpk : k ≤ p) (hp : p ∈ xs) (c : Nat) (hc : c < k) :
    fill_inverse_rows k m inv G (idx_list xs) M (rank_in xs p * k + c)
      = xor_sum k (fun j =>
          if j ∈ xs then
            M (G (p * k + j)) (fill_inverse_rows k m inv G (idx_list xs) M (rank_in xs j * k + c))
          else if rank_out xs j = c then G (p * k + j) else 0) := by
  obtain ⟨spec1, spec2⟩ := get_inverse_rows_spec k m inv G (idx_list xs) M
  have hm := (mem_of_bm_test xs _ hn hr p (hr p hp)).2 hp
  rw [← rank_in_eq xs (k + m) hn hr p (le_of_lt (hr p hp)), spec2 p hpk (hr p hp) hm c hc]
  unfold parity_row_formula
  apply xor_sum_congr
  intro j hj
  have hb := bm_test_idx_list xs (fun y hy => by have := hr y hy; omega) j (by omega)
  by_cases hj2 : j ∈ xs
  · have hmj := (mem_of_bm_test xs _ hn hr j (by omega)).2 hj2
    rw [if_pos hmj, if_pos hj2, ← rank_in_eq xs (k + m) hn hr j (by omega), spec1 j hj hmj c hc]
  · have hmj : bm_test (convert_list_to_bitmap (idx_list xs)) j = false := by
      rw [hb]
      simpa using hj2
    rw [hmj, if_neg hj2, rank_out_eq xs (k + m) hn hr j (by omega)]
    simp

set_option maxRecDepth 100000 in
theorem parity_row_formula_holds_witness :
    fill_inverse_rows 4 2 (ref_invert_matrix (ref_gen_rs_matrix 6 4) 4).2 (ref_gen_rs_matrix 6 4)
        (idx_list [1, 4]) gf256_mul (rank_in [1, 4] 4 * 4 + 2)
      = xor_sum 4 (fun j =>
          if j ∈ [1, 4] then
            gf256_mul (ref_gen_rs_matrix 6 4 (4 * 4 + j))
              (fill_inverse_rows 4 2 (ref_invert_matrix (ref_gen_rs_matrix 6 4) 4).2
                (ref_gen_rs_matrix 6 4) (idx_list [1, 4]) gf256_mul (rank_in [1, 4] j * 4 + 2))
          else if rank_out [1, 4] j = 2 then ref_gen_rs_matrix 6 4 (4 * 4 + j) else 0) :=
  parity_row_formula_holds 4 2 (ref_invert_matrix (ref_gen_rs_matrix 6 4) 4).2
    (ref_gen_rs_matrix 6 4) [1, 4] gf256_mul (by decide) (by decide) 4 (by decide) (by decide) 2
    (by decide)

set_option maxRecDepth 100000 in
/-- C18, the code at a failing input: `k = 2`, `m = 31`, missing list `[32]`,
parity index 32, column 1, the allocation succeeding. Both data columns are
available, so the formula gives the generator coefficient `generator[32][1]`
at column 1 (the rank of column 1 among the available data indices); the row
`get_inverse_rows` produces for the list holds `generator[31][1]` there, which
is a different byte. -/
theorem parity_row_formula_fails_at_33 :
    (∀ x ∈ [32], x < 2 + 31) ∧ 2 ≤ 32 ∧ 32 ∈ [32] ∧
    (get_inverse_rows 2 31 (fun _ => 0) (ref_gen_rs_matrix 33 2) (idx_list [32]) gf256_mul
      true).map (fun rows => rows (rank_in [32] 32 * 2 + 1))
      = some (ref_gen_rs_matrix 33 2 (31 * 2 + 1)) ∧
    xor_sum 2 (fun j =>
        if j ∈ [32] then
          gf256_mul (ref_gen_rs_matrix 33 2 (32 * 2 + j))
            (((get_inverse_rows 2 31 (fun _ => 0) (ref_gen_rs_matrix 33 2) (idx_list [32])
              gf256_mul true).getD (fun _ => 0)) (rank_in [32] j * 2 + 1))
        else if rank_out [32] j = 1 then ref_gen_rs_matrix 33 2 (32 * 2 + j) else 0)
      = ref_gen_rs_matrix 33 2 (32 * 2 + 1) ∧
    ref_gen_rs_matrix 33 2 (31 * 2 + 1) ≠ ref_gen_rs_matrix 33 2 (32 * 2 + 1) := by
  refine ⟨by decide, by decide, by decide, by decide!, by decide!, by decide!⟩

/-! ## C14: the rows against the decode matrix -/

/-- Row synthesis where the mask test is exact: for every `(k, m)` with
`k + m ≤ 32` (the allocations succeeding), every field multiplication with the field laws and `a * 1 = a` on bytes, every generator
matrix of bytes whose first `k` rows are the identity, every missing list of at
most `m` distinct indices below `k + m` and every `decode_inverse` that is the
inverse of the decode matrix built by `isa_l_get_decode_matrix`: the decode
matrix exists, the row `fill_inverse_rows` produces for a missing index `x`
times the decode matrix is generator row `x`, and that row applied to the `k`
selected surviving fragments of any codeword gives fragment `x` of that
codeword. -/
theorem rows_regenerate (k m : Nat) (G : Nat → Nat) (xs : List Nat)
    (M : Nat → Nat → Nat) (inv : Nat → Nat) (hn : k + m ≤ 32) (hmul : GfMulOk M)
    (hone : ∀ a, a < 256 → M a 1 = a) (hsys : SystematicMatrix k G)
    (hbytes : ∀ i, i < (k + m) * k → G i < 256)
    (hnd : xs.Nodup) (hr : ∀ x ∈ xs, x < k + m) (hcount : xs.length ≤ m)
    (hinv : ∀ dm, isa_l_get_decode_matrix k m G (idx_list xs) true = some (some dm) →
      IsInverseMatrix M k dm inv)
    (x : Nat) (hx : x ∈ xs) :
    ∃ dm, isa_l_get_decode_matrix k m G (idx_list xs) true = some (some dm) ∧
      (∀ j, j < k →
        xor_sum k (fun c => M
            (fill_inverse_rows k m inv G (idx_list xs) M (rank_in xs x * k + c)) (dm (c * k + j)))
          = G (x * k + j)) ∧
      (∀ v : Nat → Nat, (∀ j, j < k → v j < 256) →
        xor_sum k (fun c => M
            (fill_inverse_rows k m inv G (idx_list xs) M (rank_in xs x * k + c))
            (xor_sum k (fun j =>
              M (G ((free_indices (k + m) xs []).getD c 0 * k + j)) (v j))))
          = xor_sum k (fun j => M (G (x * k + j)) (v j))) := by
  have hca := count_available xs (k + m) hn hnd hr
  obtain ⟨dm, hdm⟩ := (get_decode_matrix_isSome k m (by omega) G (idx_list xs)).2
    (by rw [hca]; omega)
  have hf := available_filter_eq xs (k + m) hn hr
  have hflen : k ≤ (free_indices (k + m) xs []).length := by
    rw [← hf, length_filter_range, hca]
    omega
  have hidx : ∀ y, y < k + m → ∀ j, j < k → y * k + j < (k + m) * k := by
    intro y hy j hj
    calc y * k + j < y * k + k := by omega
      _ = (y + 1) * k := by rw [Nat.succ_mul]
      _ ≤ (k + m) * k := Nat.mul_le_mul_right k hy
  refine ⟨dm, hdm, ?_, ?_⟩
  · intro j hj
    have h2 := synthesized_row_apply k m G xs M inv dm (fun i => if i = j then 1 else 0) hn hmul
      hsys hr hdm (hinv dm hdm) (fun i _ => by by_cases e : i = j <;> simp [e]) x hx
    rw [unit_vector_apply hmul hone k (fun i => G (x * k + i)) j hj
      (hbytes _ (hidx x (hr x hx) j hj))] at h2
    rw [← h2]
    apply xor_sum_congr
    intro c hc
    have hs := survivor_lt xs (k + m) c (by omega)
    rw [unit_vector_apply hmul hone k
      (fun i => G ((free_indices (k + m) xs []).getD c 0 * k + i)) j hj
      (hbytes _ (hidx _ hs j hj))]
    have h3 := get_decode_matrix_rows k m (by omega) G (idx_list xs) dm hdm c j hc hj
    rw [hf, Nat.mul_comm k c, Nat.mul_comm k _] at h3
    rw [h3]
  · intro v hv
    exact synthesized_row_apply k m G xs M inv dm v hn hmul hsys hr hdm (hinv dm hdm) hv x hx

set_option maxRecDepth 100000 in
theorem rows_regenerate_witness :
    ∃ dm, isa_l_get_decode_matrix ((4 : Nat) : Int) ((2 : Nat) : Int) (ref_gen_rs_matrix 6 4)
        (idx_list [1, 4]) true = some (some dm) ∧
      (∀ j, j < 4 →
        xor_sum 4 (fun c => gf256_mul
            (fill_inverse_rows 4 2
              (ref_invert_matrix (((isa_l_get_decode_matrix 4 2 (ref_gen_rs_matrix 6 4)
                (idx_list [1, 4]) true).getD none).getD (fun _ => 0)) 4).2
              (ref_gen_rs_matrix 6 4) (idx_list [1, 4]) gf256_mul (rank_in [1, 4] 4 * 4 + c))
            (dm (c * 4 + j)))
          = ref_gen_rs_matrix 6 4 (4 * 4 + j)) ∧
      (∀ v : Nat → Nat, (∀ j, j < 4 → v j < 256) →
        xor_sum 4 (fun c => gf256_mul
            (fill_inverse_rows 4 2
              (ref_invert_matrix (((isa_l_get_decode_matrix 4 2 (ref_gen_rs_matrix 6 4)
                (idx_list [1, 4]) true).getD none).getD (fun _ => 0)) 4).2
              (ref_gen_rs_matrix 6 4) (idx_list [1, 4]) gf256_mul (rank_in [1, 4] 4 * 4 + c))
            (xor_sum 4 (fun j => gf256_mul
              (ref_gen_rs_matrix 6 4 ((free_indices (4 + 2) [1, 4] []).getD c 0 * 4 + j))
              (v j))))
          = xor_sum 4 (fun j => gf256_mul (ref_gen_rs_matrix 6 4 (4 * 4 + j)) (v j))) :=
  rows_regenerate 4 2 (ref_gen_rs_matrix 6 4) [1, 4] gf256_mul
    (ref_invert_matrix (((isa_l_get_decode_matrix 4 2 (ref_gen_rs_matrix 6 4)
      (idx_list [1, 4]) true).getD none).getD (fun _ => 0)) 4).2
    (by decide) gf256_mul_ok
    (fun a ha => by rw [gf256_mul_comm]; exact gf256_one_mul a ha)
    (by unfold SystematicMatrix; decide!) (by decide!)
    (by decide) (by decide) (by decide)
    (by
      intro dm h
      cases h
      unfold IsInverseMatrix
      decide!)
    4 (by decide)

set_option maxRecDepth 100000 in
/-- C14, the code at a failing input: `k = 2`, `m = 31`, the generator of the
reference provider (its first two rows are the identity), missing list `[32]`,
the allocations succeeding. The decode matrix is built and `decode_inverse` is
its inverse, yet the row `get_inverse_rows` produces for the missing index 32,
times the decode matrix, is generator row 31 and not generator row 32. -/
theorem rows_regenerate_fails_at_33 :
    SystematicMatrix 2 (ref_gen_rs_matrix 33 2) ∧
    [32].Nodup ∧ (∀ x ∈ [32], x < 2 + 31) ∧ [32].length ≤ 31 ∧
    (isa_l_get_decode_matrix 2 31 (ref_gen_rs_matrix 33 2) (idx_list [32]) true).map
      Option.isSome = some true ∧
    IsInverseMatrix gf256_mul 2
      (((isa_l_get_decode_matrix 2 31 (ref_gen_rs_matrix 33 2) (idx_list [32]) true).getD
        none).getD (fun _ => 0))
      (ref_invert_matrix (((isa_l_get_decode_matrix 2 31 (ref_gen_rs_matrix 33 2)
        (idx_list [32]) true).getD none).getD (fun _ => 0)) 2).2 ∧
    xor_sum 2 (fun c => gf256_mul
        (((get_inverse_rows 2 31
          (ref_invert_matrix (((isa_l_get_decode_matrix 2 31 (ref_gen_rs_matrix 33 2)
            (idx_list [32]) true).getD none).getD (fun _ => 0)) 2).2
          (ref_gen_rs_matrix 33 2) (idx_list [32]) gf256_mul true).getD (fun _ => 0))
            (rank_in [32] 32 * 2 + c))
        ((((isa_l_get_decode_matrix 2 31 (ref_gen_rs_matrix 33 2) (idx_list [32]) true).getD
          none).getD (fun _ => 0)) (c * 2 + 1)))
      = ref_gen_rs_matrix 33 2 (31 * 2 + 1) ∧
    ref_gen_rs_matrix 33 2 (31 * 2 + 1) ≠ ref_gen_rs_matrix 33 2 (32 * 2 + 1) := by
  refine ⟨by unfold SystematicMatrix; decide!, by decide, by decide, by decide, by decide!,
    by unfold IsInverseMatrix; decide!, by decide!, by decide!⟩

/-! ## C19: the three survivor selections -/

end IsaL
